import Mathlib

/-!
# M3D small-vector / small-matrix algebra: a verification development

Shallow embedding of the `M3D` value types (`Vector2/3/4`, `Matrix2/3/4`,
`Quaternion`) found under `tools/Il2cpp Headers`.

* `float` is read as an exact scalar.  Purely rational operations are written
  over an arbitrary linearly ordered field `F` (so they run on `ℚ`); operations
  that call `sqrt`, `sin`, `cos` or `acos` are written over `ℝ`.
* A matrix is its row-major array `m[0] .. m[N*N-1]`, one field `mI` per slot.
* A failing `assert` is the result `none`.  So is a step that has no value in
  exact real arithmetic: `acos` outside `[-1, 1]`, or the unguarded division
  by a zero length in `angle` (the float code yields NaN or infinity there).
* `M_PI` is read as `π`, the literal `1e-6` as `1 / 1000000`.
* `Matrix4::determinant` and `Matrix4::inverse` are given a second time in
  binary32 arithmetic (`determinant32`, `inverse32`), each operation rounded.
-/

namespace M3D

/-! ## Vector2 (Vector2.cpp) -/

/-- `Vector2`: the components `x`, `y`. -/
@[ext] structure Vector2 (F : Type) where
  x : F
  y : F

/-! ## Vector3 (Vector3.cpp) -/

/-- `Vector3`: the components `x`, `y`, `z`. -/
@[ext] structure Vector3 (F : Type) where
  x : F
  y : F
  z : F

/-! ## Vector4 (Vector4.cpp) -/

/-- `Vector4`: the components `x`, `y`, `z`, `w`. -/
@[ext] structure Vector4 (F : Type) where
  x : F
  y : F
  z : F
  w : F

/-! ## Matrix2 (Matrix2.cpp) -/

/-- `Matrix2`: the array `m[4]`, row-major. -/
@[ext] structure Matrix2 (F : Type) where
  m0 : F
  m1 : F
  m2 : F
  m3 : F

/-! ## Matrix3 (Matrix3.cpp) -/

/-- `Matrix3`: the array `m[9]`, row-major. -/
@[ext] structure Matrix3 (F : Type) where
  m0 : F
  m1 : F
  m2 : F
  m3 : F
  m4 : F
  m5 : F
  m6 : F
  m7 : F
  m8 : F

/-! ## Matrix4 (Matrix4.cpp) -/

/-- `Matrix4`: the array `m[16]`, row-major. -/
@[ext] structure Matrix4 (F : Type) where
  m0 : F
  m1 : F
  m2 : F
  m3 : F
  m4 : F
  m5 : F
  m6 : F
  m7 : F
  m8 : F
  m9 : F
  m10 : F
  m11 : F
  m12 : F
  m13 : F
  m14 : F
  m15 : F

/-! ## Quaternion (Quaternion.cpp) -/

/-- `Quaternion`: the scalar part `w` and the vector part `x`, `y`, `z`. -/
@[ext] structure Quaternion (F : Type) where
  w : F
  x : F
  y : F
  z : F

/-! ## Color (Color.hpp) -/

/-- `Color`: the channels `r`, `g`, `b`, `a`. -/
@[ext] structure Color (F : Type) where
  r : F
  g : F
  b : F
  a : F

section Algebraic

variable {F : Type} [LinearOrderedField F]

/-- The literal `1e-6` used as tolerance and as degeneracy threshold. -/
def epsilon : F := 1 / 1000000

namespace Vector2

/-- `Vector2::ZERO`. -/
def ZERO : Vector2 F := ⟨0, 0⟩

/-- `operator*(Vector2, float)`. -/
def mulScalar (v : Vector2 F) (s : F) : Vector2 F :=
  ⟨v.x * s, v.y * s⟩

/-- `dot(Vector2, Vector2)`. -/
def dot (lhs rhs : Vector2 F) : F :=
  lhs.x * rhs.x + lhs.y * rhs.y

/-- `Vector2::sqrMagnitude`: the dot product of the vector with itself. -/
def sqrMagnitude (v : Vector2 F) : F :=
  dot v v

/-- `operator==(Vector2, Vector2)` (declared with return type `float`; read as
the truth value it converts). -/
def eq (v1 v2 : Vector2 F) : Bool :=
  decide (|v1.x - v2.x| < epsilon) && decide (|v1.y - v2.y| < epsilon)

/-- `operator!=(Vector2, Vector2)`. -/
def ne (v1 v2 : Vector2 F) : Bool :=
  !(eq v1 v2)

end Vector2

namespace Vector3

/-- `Vector3::FORWARD`. -/
def FORWARD : Vector3 F := ⟨0, 0, 1⟩

/-- `Vector3::UP`. -/
def UP : Vector3 F := ⟨0, 1, 0⟩

/-- `Vector3::RIGHT`. -/
def RIGHT : Vector3 F := ⟨1, 0, 0⟩

/-- `Vector3::ZERO`. -/
def ZERO : Vector3 F := ⟨0, 0, 0⟩

/-- `operator+(Vector3, Vector3)`. -/
def add (v1 v2 : Vector3 F) : Vector3 F :=
  ⟨v1.x + v2.x, v1.y + v2.y, v1.z + v2.z⟩

/-- `operator-(Vector3, Vector3)`. -/
def sub (v1 v2 : Vector3 F) : Vector3 F :=
  ⟨v1.x - v2.x, v1.y - v2.y, v1.z - v2.z⟩

/-- `operator-(Vector3)`. -/
def neg (v : Vector3 F) : Vector3 F :=
  ⟨-v.x, -v.y, -v.z⟩

/-- `operator*(Vector3, float)`. -/
def mulScalar (v : Vector3 F) (s : F) : Vector3 F :=
  ⟨v.x * s, v.y * s, v.z * s⟩

/-- `operator*(float, Vector3)`: returns `v * s`. -/
def scalarMul (s : F) (v : Vector3 F) : Vector3 F :=
  mulScalar v s

/-- `dot(Vector3, Vector3)`. -/
def dot (lhs rhs : Vector3 F) : F :=
  lhs.x * rhs.x + lhs.y * rhs.y + lhs.z * rhs.z

/-- `cross(Vector3, Vector3)`. -/
def cross (lhs rhs : Vector3 F) : Vector3 F :=
  ⟨lhs.y * rhs.z - lhs.z * rhs.y,
   lhs.z * rhs.x - lhs.x * rhs.z,
   lhs.x * rhs.y - lhs.y * rhs.x⟩

/-- `Vector3::sqrMagnitude`: the dot product of the vector with itself. -/
def sqrMagnitude (v : Vector3 F) : F :=
  dot v v

/-- `operator==(Vector3, Vector3)` (declared with return type `float`; read as
the truth value it converts). -/
def eq (v1 v2 : Vector3 F) : Bool :=
  decide (|v1.x - v2.x| < epsilon) && decide (|v1.y - v2.y| < epsilon)
    && decide (|v1.z - v2.z| < epsilon)

/-- `operator!=(Vector3, Vector3)`. -/
def ne (v1 v2 : Vector3 F) : Bool :=
  !(eq v1 v2)

end Vector3

namespace Vector4

/-- `Vector4::Vector4(const Vector3&)`: `w` is set to `0`. -/
def ofVector3 (v : Vector3 F) : Vector4 F :=
  ⟨v.x, v.y, v.z, 0⟩

/-- `Vector4::Vector4(const Vector3&, float)`. -/
def ofVector3W (v : Vector3 F) (w_ : F) : Vector4 F :=
  ⟨v.x, v.y, v.z, w_⟩

/-- `operator*(Vector4, float)`. -/
def mulScalar (v : Vector4 F) (s : F) : Vector4 F :=
  ⟨v.x * s, v.y * s, v.z * s, v.w * s⟩

/-- `dot(Vector4, Vector4)`. -/
def dot (lhs rhs : Vector4 F) : F :=
  lhs.x * rhs.x + lhs.y * rhs.y + lhs.z * rhs.z + lhs.w * rhs.w

/-- `Vector4::sqrMagnitude`: the dot product of the vector with itself. -/
def sqrMagnitude (v : Vector4 F) : F :=
  dot v v

/-- `operator==(Vector4, Vector4)` (declared with return type `float`; read as
the truth value it converts). -/
def eq (v1 v2 : Vector4 F) : Bool :=
  decide (|v1.x - v2.x| < epsilon) &&
  decide (|v1.y - v2.y| < epsilon) &&
  decide (|v1.z - v2.z| < epsilon) &&
  decide (|v1.w - v2.w| < epsilon)

/-- `operator!=(Vector4, Vector4)`. -/
def ne (v1 v2 : Vector4 F) : Bool :=
  !(eq v1 v2)

end Vector4

namespace Matrix2

/-- `Matrix2::IDENTITY` (the default constructor). -/
def IDENTITY : Matrix2 F := ⟨1, 0, 0, 1⟩

/-- `operator==(Matrix2, Matrix2)`: the loop answers `false` at the first
slot whose absolute difference exceeds `epsilon`. -/
def eq (A B : Matrix2 F) : Bool :=
  !decide (|A.m0 - B.m0| > epsilon) && !decide (|A.m1 - B.m1| > epsilon) &&
  !decide (|A.m2 - B.m2| > epsilon) && !decide (|A.m3 - B.m3| > epsilon)

/-- `operator*(Matrix2, Vector2)`. -/
def mulVec (lhs : Matrix2 F) (rhs : Vector2 F) : Vector2 F :=
  ⟨lhs.m0 * rhs.x + lhs.m1 * rhs.y,
   lhs.m2 * rhs.x + lhs.m3 * rhs.y⟩

/-- `operator*(Matrix2, Matrix2)`. -/
def mul (lhs rhs : Matrix2 F) : Matrix2 F :=
  ⟨lhs.m0 * rhs.m0 + lhs.m1 * rhs.m2,
   lhs.m0 * rhs.m1 + lhs.m1 * rhs.m3,
   lhs.m2 * rhs.m0 + lhs.m3 * rhs.m2,
   lhs.m2 * rhs.m1 + lhs.m3 * rhs.m3⟩

/-- `Matrix2::determinant`. -/
def determinant (M : Matrix2 F) : F :=
  M.m0 * M.m3 - M.m1 * M.m2

/-- `Matrix2::inverse`; `assert(det != 0.0f)` is the `none` branch. -/
def inverse (M : Matrix2 F) : Option (Matrix2 F) :=
  let det := M.determinant
  if det ≠ 0 then
    let invDet := 1 / det
    some ⟨M.m3 * invDet, -M.m1 * invDet,
          -M.m2 * invDet, M.m0 * invDet⟩
  else none

/-- `operator!=(Matrix2, Matrix2)`. -/
def ne (A B : Matrix2 F) : Bool :=
  !(eq A B)

/-- `Matrix2::transposed`. -/
def transposed (M : Matrix2 F) : Matrix2 F :=
  ⟨M.m0, M.m2,
   M.m1, M.m3⟩

/-- `Matrix2::transpose` (in place): the new value of the object after
`std::swap(m[1], m[2])`. -/
def transpose (M : Matrix2 F) : Matrix2 F :=
  { M with m1 := M.m2, m2 := M.m1 }

/-- The row-major array read as a 2 x 2 matrix: entry `(r, c)` is `m[2 * r + c]`. -/
def toMatrix (M : Matrix2 F) : Matrix (Fin 2) (Fin 2) F :=
  Matrix.of ![![M.m0, M.m1], ![M.m2, M.m3]]

end Matrix2

namespace Matrix3

/-- `Matrix3::IDENTITY` (the default constructor). -/
def IDENTITY : Matrix3 F := ⟨1, 0, 0, 0, 1, 0, 0, 0, 1⟩

/-- `operator==(Matrix3, Matrix3)`: the loop answers `false` at the first
slot whose absolute difference exceeds `epsilon`. -/
def eq (A B : Matrix3 F) : Bool :=
  !decide (|A.m0 - B.m0| > epsilon) && !decide (|A.m1 - B.m1| > epsilon) &&
  !decide (|A.m2 - B.m2| > epsilon) && !decide (|A.m3 - B.m3| > epsilon) &&
  !decide (|A.m4 - B.m4| > epsilon) && !decide (|A.m5 - B.m5| > epsilon) &&
  !decide (|A.m6 - B.m6| > epsilon) && !decide (|A.m7 - B.m7| > epsilon) &&
  !decide (|A.m8 - B.m8| > epsilon)

/-- `operator*(Matrix3, Vector3)`. -/
def mulVec (lhs : Matrix3 F) (rhs : Vector3 F) : Vector3 F :=
  ⟨lhs.m0 * rhs.x + lhs.m1 * rhs.y + lhs.m2 * rhs.z,
   lhs.m3 * rhs.x + lhs.m4 * rhs.y + lhs.m5 * rhs.z,
   lhs.m6 * rhs.x + lhs.m7 * rhs.y + lhs.m8 * rhs.z⟩

/-- `operator*(Matrix3, Matrix3)`. -/
def mul (lhs rhs : Matrix3 F) : Matrix3 F :=
  ⟨lhs.m0 * rhs.m0 + lhs.m1 * rhs.m3 + lhs.m2 * rhs.m6,
   lhs.m0 * rhs.m1 + lhs.m1 * rhs.m4 + lhs.m2 * rhs.m7,
   lhs.m0 * rhs.m2 + lhs.m1 * rhs.m5 + lhs.m2 * rhs.m8,
   lhs.m3 * rhs.m0 + lhs.m4 * rhs.m3 + lhs.m5 * rhs.m6,
   lhs.m3 * rhs.m1 + lhs.m4 * rhs.m4 + lhs.m5 * rhs.m7,
   lhs.m3 * rhs.m2 + lhs.m4 * rhs.m5 + lhs.m5 * rhs.m8,
   lhs.m6 * rhs.m0 + lhs.m7 * rhs.m3 + lhs.m8 * rhs.m6,
   lhs.m6 * rhs.m1 + lhs.m7 * rhs.m4 + lhs.m8 * rhs.m7,
   lhs.m6 * rhs.m2 + lhs.m7 * rhs.m5 + lhs.m8 * rhs.m8⟩

/-- `Matrix3::transposed`. -/
def transposed (M : Matrix3 F) : Matrix3 F :=
  ⟨M.m0, M.m3, M.m6,
   M.m1, M.m4, M.m7,
   M.m2, M.m5, M.m8⟩

/-- `Matrix3::determinant`. -/
def determinant (M : Matrix3 F) : F :=
  M.m0 * M.m4 * M.m8 + M.m1 * M.m5 * M.m6 + M.m2 * M.m3 * M.m7
    - M.m6 * M.m4 * M.m2 - M.m7 * M.m5 * M.m0 - M.m8 * M.m3 * M.m1

/-- `Matrix3::inverse`; `assert(det != 0.0f)` is the `none` branch. -/
def inverse (M : Matrix3 F) : Option (Matrix3 F) :=
  let det := M.determinant
  if det ≠ 0 then
    let invDet := 1 / det
    some ⟨(M.m4 * M.m8 - M.m5 * M.m7) * invDet,
          (M.m7 * M.m2 - M.m8 * M.m1) * invDet,
          (M.m1 * M.m5 - M.m2 * M.m4) * invDet,
          (M.m6 * M.m5 - M.m3 * M.m8) * invDet,
          (M.m0 * M.m8 - M.m6 * M.m2) * invDet,
          (M.m3 * M.m2 - M.m0 * M.m5) * invDet,
          (M.m3 * M.m7 - M.m6 * M.m4) * invDet,
          (M.m6 * M.m1 - M.m0 * M.m7) * invDet,
          (M.m0 * M.m4 - M.m3 * M.m1) * invDet⟩
  else none

/-- `operator!=(Matrix3, Matrix3)`. -/
def ne (A B : Matrix3 F) : Bool :=
  !(eq A B)

/-- `Matrix3::transpose` (in place): the new value of the object after the three
`std::swap` calls, in order. -/
def transpose (M : Matrix3 F) : Matrix3 F :=
  let M1 : Matrix3 F := { M with m1 := M.m3, m3 := M.m1 }
  let M2 : Matrix3 F := { M1 with m2 := M1.m6, m6 := M1.m2 }
  { M2 with m5 := M2.m7, m7 := M2.m5 }

/-- The row-major array read as a 3 x 3 matrix: entry `(r, c)` is `m[3 * r + c]`. -/
def toMatrix (M : Matrix3 F) : Matrix (Fin 3) (Fin 3) F :=
  Matrix.of ![![M.m0, M.m1, M.m2], ![M.m3, M.m4, M.m5], ![M.m6, M.m7, M.m8]]

end Matrix3

namespace Quaternion

/-- `Quaternion::IDENTITY`. -/
def IDENTITY : Quaternion F := ⟨1, 0, 0, 0⟩

/-- `Quaternion::Quaternion(const float s, const Vector3& v)`. -/
def ofScalarVector (s : F) (v : Vector3 F) : Quaternion F :=
  ⟨s, v.x, v.y, v.z⟩

/-- `operator*(Quaternion, Quaternion)`: the Hamilton product. -/
def mul (lhs rhs : Quaternion F) : Quaternion F :=
  ⟨lhs.w * rhs.w - lhs.x * rhs.x - lhs.y * rhs.y - lhs.z * rhs.z,
   lhs.w * rhs.x + lhs.x * rhs.w + lhs.y * rhs.z - lhs.z * rhs.y,
   lhs.w * rhs.y - lhs.x * rhs.z + lhs.y * rhs.w + lhs.z * rhs.x,
   lhs.w * rhs.z + lhs.x * rhs.y - lhs.y * rhs.x + lhs.z * rhs.w⟩

/-- `operator*(Quaternion, Vector3)`: the double-cross-product form. -/
def mulVec (q : Quaternion F) (v : Vector3 F) : Vector3 F :=
  let qv : Vector3 F := ⟨q.x, q.y, q.z⟩
  let t := Vector3.scalarMul 2 (Vector3.cross qv v)
  Vector3.add (Vector3.add v (Vector3.scalarMul q.w t)) (Vector3.cross qv t)

/-- `Quaternion::sqrMagnitude`. -/
def sqrMagnitude (q : Quaternion F) : F :=
  q.w * q.w + q.x * q.x + q.y * q.y + q.z * q.z

/-- `Quaternion::conjugate`. -/
def conjugate (q : Quaternion F) : Quaternion F :=
  ⟨q.w, -q.x, -q.y, -q.z⟩

/-- `Quaternion::inverse`; `assert(sqr > 0.0f)` is the `none` branch. -/
def inverse (q : Quaternion F) : Option (Quaternion F) :=
  let sqr := q.sqrMagnitude
  if sqr > 0 then
    let invSqr := 1 / sqr
    some ⟨q.w * invSqr, -q.x * invSqr, -q.y * invSqr, -q.z * invSqr⟩
  else none

/-- `operator==(Quaternion, Quaternion)` (declared with return type `float`; read
as the truth value it converts). -/
def eq (q1 q2 : Quaternion F) : Bool :=
  decide (|q1.w - q2.w| < epsilon) && decide (|q1.x - q2.x| < epsilon)
    && decide (|q1.y - q2.y| < epsilon) && decide (|q1.z - q2.z| < epsilon)

/-- `operator!=(Quaternion, Quaternion)`. -/
def ne (q1 q2 : Quaternion F) : Bool :=
  !(eq q1 q2)

/-- `dot(Quaternion, Quaternion)`. -/
def dot (lhs rhs : Quaternion F) : F :=
  lhs.w * rhs.w + lhs.x * rhs.x + lhs.y * rhs.y + lhs.z * rhs.z

end Quaternion

namespace Matrix4

/-- `Matrix4::IDENTITY` (the default constructor). -/
def IDENTITY : Matrix4 F :=
  ⟨1, 0, 0, 0,
   0, 1, 0, 0,
   0, 0, 1, 0,
   0, 0, 0, 1⟩

/-- `Matrix4::Matrix4(const Quaternion&)`.  The initialiser list of `m` has
twelve entries, which fill `m[0] .. m[11]`; the remaining slots
`m[12] .. m[15]` are zero-initialised. -/
def ofQuaternion (q : Quaternion F) : Matrix4 F :=
  ⟨1 - 2 * q.y * q.y - 2 * q.z * q.z,
   2 * q.x * q.y - 2 * q.w * q.z,
   2 * q.x * q.z + 2 * q.w * q.y,
   0,
   2 * q.x * q.y + 2 * q.w * q.z,
   1 - 2 * q.x * q.x - 2 * q.z * q.z,
   2 * q.y * q.z - 2 * q.w * q.x,
   0,
   2 * q.x * q.z - 2 * q.w * q.y,
   2 * q.y * q.z + 2 * q.w * q.x,
   1 - 2 * q.x * q.x - 2 * q.y * q.y,
   1,
   0, 0, 0, 0⟩

/-- `operator*(Matrix4, Vector4)`. -/
def mulVec (lhs : Matrix4 F) (rhs : Vector4 F) : Vector4 F :=
  ⟨lhs.m0 * rhs.x + lhs.m1 * rhs.y + lhs.m2 * rhs.z + lhs.m3 * rhs.w,
   lhs.m4 * rhs.x + lhs.m5 * rhs.y + lhs.m6 * rhs.z + lhs.m7 * rhs.w,
   lhs.m8 * rhs.x + lhs.m9 * rhs.y + lhs.m10 * rhs.z + lhs.m11 * rhs.w,
   lhs.m12 * rhs.x + lhs.m13 * rhs.y + lhs.m14 * rhs.z + lhs.m15 * rhs.w⟩

/-- `operator*(Matrix4, Matrix4)`. -/
def mul (lhs rhs : Matrix4 F) : Matrix4 F :=
  ⟨lhs.m0 * rhs.m0 + lhs.m1 * rhs.m4 + lhs.m2 * rhs.m8 + lhs.m3 * rhs.m12,
   lhs.m0 * rhs.m1 + lhs.m1 * rhs.m5 + lhs.m2 * rhs.m9 + lhs.m3 * rhs.m13,
   lhs.m0 * rhs.m2 + lhs.m1 * rhs.m6 + lhs.m2 * rhs.m10 + lhs.m3 * rhs.m14,
   lhs.m0 * rhs.m3 + lhs.m1 * rhs.m7 + lhs.m2 * rhs.m11 + lhs.m3 * rhs.m15,
   lhs.m4 * rhs.m0 + lhs.m5 * rhs.m4 + lhs.m6 * rhs.m8 + lhs.m7 * rhs.m12,
   lhs.m4 * rhs.m1 + lhs.m5 * rhs.m5 + lhs.m6 * rhs.m9 + lhs.m7 * rhs.m13,
   lhs.m4 * rhs.m2 + lhs.m5 * rhs.m6 + lhs.m6 * rhs.m10 + lhs.m7 * rhs.m14,
   lhs.m4 * rhs.m3 + lhs.m5 * rhs.m7 + lhs.m6 * rhs.m11 + lhs.m7 * rhs.m15,
   lhs.m8 * rhs.m0 + lhs.m9 * rhs.m4 + lhs.m10 * rhs.m8 + lhs.m11 * rhs.m12,
   lhs.m8 * rhs.m1 + lhs.m9 * rhs.m5 + lhs.m10 * rhs.m9 + lhs.m11 * rhs.m13,
   lhs.m8 * rhs.m2 + lhs.m9 * rhs.m6 + lhs.m10 * rhs.m10 + lhs.m11 * rhs.m14,
   lhs.m8 * rhs.m3 + lhs.m9 * rhs.m7 + lhs.m10 * rhs.m11 + lhs.m11 * rhs.m15,
   lhs.m12 * rhs.m0 + lhs.m13 * rhs.m4 + lhs.m14 * rhs.m8 + lhs.m15 * rhs.m12,
   lhs.m12 * rhs.m1 + lhs.m13 * rhs.m5 + lhs.m14 * rhs.m9 + lhs.m15 * rhs.m13,
   lhs.m12 * rhs.m2 + lhs.m13 * rhs.m6 + lhs.m14 * rhs.m10 + lhs.m15 * rhs.m14,
   lhs.m12 * rhs.m3 + lhs.m13 * rhs.m7 + lhs.m14 * rhs.m11 + lhs.m15 * rhs.m15⟩

/-- `Matrix4::determinant`. -/
def determinant (M : Matrix4 F) : F :=
  let det1 := M.m10 * (M.m15 * M.m5 - M.m7 * M.m13) + M.m11 * (M.m13 * M.m6 - M.m5 * M.m14)
    + M.m9 * (M.m14 * M.m7 - M.m6 * M.m15)
  let det2 := M.m1 * (M.m10 * M.m15 - M.m11 * M.m14) + M.m2 * (M.m11 * M.m13 - M.m9 * M.m15)
    + M.m3 * (M.m9 * M.m14 - M.m10 * M.m13)
  let det3 := M.m1 * (M.m6 * M.m15 - M.m7 * M.m14) + M.m2 * (M.m7 * M.m13 - M.m5 * M.m15)
    + M.m3 * (M.m5 * M.m14 - M.m6 * M.m13)
  let det4 := M.m1 * (M.m6 * M.m11 - M.m7 * M.m10) + M.m2 * (M.m7 * M.m9 - M.m5 * M.m11)
    + M.m3 * (M.m5 * M.m10 - M.m6 * M.m9)
  M.m0 * det1 - M.m4 * det2 + M.m8 * det3 - M.m12 * det4

/-- `Matrix4::inverse` (the MESA cofactor expressions).  `det` is computed
from `inv[0]`, `inv[4]`, `inv[8]`, `inv[12]`; `assert(det != 0.0f)` is the
`none` branch. -/
def inverse (M : Matrix4 F) : Option (Matrix4 F) :=
  let inv0 := M.m5 * M.m10 * M.m15 - M.m5 * M.m11 * M.m14 - M.m9 * M.m6 * M.m15
      + M.m9 * M.m7 * M.m14 + M.m13 * M.m6 * M.m11 - M.m13 * M.m7 * M.m10
  let inv4 := -M.m4 * M.m10 * M.m15 + M.m4 * M.m11 * M.m14 + M.m8 * M.m6 * M.m15
      - M.m8 * M.m7 * M.m14 - M.m12 * M.m6 * M.m11 + M.m12 * M.m7 * M.m10
  let inv8 := M.m4 * M.m9 * M.m15 - M.m4 * M.m11 * M.m13 - M.m8 * M.m5 * M.m15
      + M.m8 * M.m7 * M.m13 + M.m12 * M.m5 * M.m11 - M.m12 * M.m7 * M.m9
  let inv12 := -M.m4 * M.m9 * M.m14 + M.m4 * M.m10 * M.m13 + M.m8 * M.m5 * M.m14
      - M.m8 * M.m6 * M.m13 - M.m12 * M.m5 * M.m10 + M.m12 * M.m6 * M.m9
  let inv1 := -M.m1 * M.m10 * M.m15 + M.m1 * M.m11 * M.m14 + M.m9 * M.m2 * M.m15
      - M.m9 * M.m3 * M.m14 - M.m13 * M.m2 * M.m11 + M.m13 * M.m3 * M.m10
  let inv5 := M.m0 * M.m10 * M.m15 - M.m0 * M.m11 * M.m14 - M.m8 * M.m2 * M.m15
      + M.m8 * M.m3 * M.m14 + M.m12 * M.m2 * M.m11 - M.m12 * M.m3 * M.m10
  let inv9 := -M.m0 * M.m9 * M.m15 + M.m0 * M.m11 * M.m13 + M.m8 * M.m1 * M.m15
      - M.m8 * M.m3 * M.m13 - M.m12 * M.m1 * M.m11 + M.m12 * M.m3 * M.m9
  let inv13 := M.m0 * M.m9 * M.m14 - M.m0 * M.m10 * M.m13 - M.m8 * M.m1 * M.m14
      + M.m8 * M.m2 * M.m13 + M.m12 * M.m1 * M.m10 - M.m12 * M.m2 * M.m9
  let inv2 := M.m1 * M.m6 * M.m15 - M.m1 * M.m7 * M.m14 - M.m5 * M.m2 * M.m15
      + M.m5 * M.m3 * M.m14 + M.m13 * M.m2 * M.m7 - M.m13 * M.m3 * M.m6
  let inv6 := -M.m0 * M.m6 * M.m15 + M.m0 * M.m7 * M.m14 + M.m4 * M.m2 * M.m15
      - M.m4 * M.m3 * M.m14 - M.m12 * M.m2 * M.m7 + M.m12 * M.m3 * M.m6
  let inv10 := M.m0 * M.m5 * M.m15 - M.m0 * M.m7 * M.m13 - M.m4 * M.m1 * M.m15
      + M.m4 * M.m3 * M.m13 + M.m12 * M.m1 * M.m7 - M.m12 * M.m3 * M.m5
  let inv14 := -M.m0 * M.m5 * M.m14 + M.m0 * M.m6 * M.m13 + M.m4 * M.m1 * M.m14
      - M.m4 * M.m2 * M.m13 - M.m12 * M.m1 * M.m6 + M.m12 * M.m2 * M.m5
  let inv3 := -M.m1 * M.m6 * M.m11 + M.m1 * M.m7 * M.m10 + M.m5 * M.m2 * M.m11
      - M.m5 * M.m3 * M.m10 - M.m9 * M.m2 * M.m7 + M.m9 * M.m3 * M.m6
  let inv7 := M.m0 * M.m6 * M.m11 - M.m0 * M.m7 * M.m10 - M.m4 * M.m2 * M.m11
      + M.m4 * M.m3 * M.m10 + M.m8 * M.m2 * M.m7 - M.m8 * M.m3 * M.m6
  let inv11 := -M.m0 * M.m5 * M.m11 + M.m0 * M.m7 * M.m9 + M.m4 * M.m1 * M.m11
      - M.m4 * M.m3 * M.m9 - M.m8 * M.m1 * M.m7 + M.m8 * M.m3 * M.m5
  let inv15 := M.m0 * M.m5 * M.m10 - M.m0 * M.m6 * M.m9 - M.m4 * M.m1 * M.m10
      + M.m4 * M.m2 * M.m9 + M.m8 * M.m1 * M.m6 - M.m8 * M.m2 * M.m5
  let det := M.m0 * inv0 + M.m1 * inv4 + M.m2 * inv8 + M.m3 * inv12
  if det ≠ 0 then
    let invDet := 1 / det
    some ⟨inv0 * invDet, inv1 * invDet, inv2 * invDet, inv3 * invDet,
          inv4 * invDet, inv5 * invDet, inv6 * invDet, inv7 * invDet,
          inv8 * invDet, inv9 * invDet, inv10 * invDet, inv11 * invDet,
          inv12 * invDet, inv13 * invDet, inv14 * invDet, inv15 * invDet⟩
  else none

/-- `operator*(Vector4, Matrix4)`: the row-vector product. -/
def vecMul (lhs : Vector4 F) (rhs : Matrix4 F) : Vector4 F :=
  ⟨lhs.x * rhs.m0 + lhs.y * rhs.m4 + lhs.z * rhs.m8 + lhs.w * rhs.m12,
   lhs.x * rhs.m1 + lhs.y * rhs.m5 + lhs.z * rhs.m9 + lhs.w * rhs.m13,
   lhs.x * rhs.m2 + lhs.y * rhs.m6 + lhs.z * rhs.m10 + lhs.w * rhs.m14,
   lhs.x * rhs.m3 + lhs.y * rhs.m7 + lhs.z * rhs.m11 + lhs.w * rhs.m15⟩

/-- `operator==(Matrix4, Matrix4)`: the loop answers `false` at the first
slot whose absolute difference exceeds `epsilon`. -/
def eq (A B : Matrix4 F) : Bool :=
  !decide (|A.m0 - B.m0| > epsilon) && !decide (|A.m1 - B.m1| > epsilon) &&
  !decide (|A.m2 - B.m2| > epsilon) && !decide (|A.m3 - B.m3| > epsilon) &&
  !decide (|A.m4 - B.m4| > epsilon) && !decide (|A.m5 - B.m5| > epsilon) &&
  !decide (|A.m6 - B.m6| > epsilon) && !decide (|A.m7 - B.m7| > epsilon) &&
  !decide (|A.m8 - B.m8| > epsilon) && !decide (|A.m9 - B.m9| > epsilon) &&
  !decide (|A.m10 - B.m10| > epsilon) && !decide (|A.m11 - B.m11| > epsilon) &&
  !decide (|A.m12 - B.m12| > epsilon) && !decide (|A.m13 - B.m13| > epsilon) &&
  !decide (|A.m14 - B.m14| > epsilon) && !decide (|A.m15 - B.m15| > epsilon)

/-- `operator!=(Matrix4, Matrix4)`. -/
def ne (A B : Matrix4 F) : Bool :=
  !(eq A B)

/-- `Matrix4::transposed`. -/
def transposed (M : Matrix4 F) : Matrix4 F :=
  ⟨M.m0, M.m4, M.m8, M.m12,
   M.m1, M.m5, M.m9, M.m13,
   M.m2, M.m6, M.m10, M.m14,
   M.m3, M.m7, M.m11, M.m15⟩

/-- `Matrix4::transpose` (in place): the new value of the object after the six
`std::swap` calls, in order. -/
def transpose (M : Matrix4 F) : Matrix4 F :=
  let M1 : Matrix4 F := { M with m1 := M.m4, m4 := M.m1 }
  let M2 : Matrix4 F := { M1 with m2 := M1.m8, m8 := M1.m2 }
  let M3 : Matrix4 F := { M2 with m3 := M2.m12, m12 := M2.m3 }
  let M4 : Matrix4 F := { M3 with m6 := M3.m9, m9 := M3.m6 }
  let M5 : Matrix4 F := { M4 with m7 := M4.m13, m13 := M4.m7 }
  { M5 with m11 := M5.m14, m14 := M5.m11 }

/-- `Matrix4::translation`. -/
def translation (translation : Vector3 F) : Matrix4 F :=
  ⟨1, 0, 0, translation.x,
   0, 1, 0, translation.y,
   0, 0, 1, translation.z,
   0, 0, 0, 1⟩

/-- The row-major array read as a 4 x 4 matrix: entry `(r, c)` is `m[4 * r + c]`. -/
def toMatrix (M : Matrix4 F) : Matrix (Fin 4) (Fin 4) F :=
  Matrix.of ![![M.m0, M.m1, M.m2, M.m3], ![M.m4, M.m5, M.m6, M.m7],
    ![M.m8, M.m9, M.m10, M.m11], ![M.m12, M.m13, M.m14, M.m15]]

end Matrix4

namespace Color

/-- `Color::white`. -/
def white : Color F := ⟨1, 1, 1, 1⟩

/-- `Color::black`. -/
def black : Color F := ⟨0, 0, 0, 1⟩

/-- `Color::Clamp`. -/
def Clamp (value : F) : F :=
  if value < 0 then 0
  else if value > 1 then 1
  else value

/-- `Color::Lerp`: the factor is clamped first. -/
def Lerp (a b : Color F) (t : F) : Color F :=
  let t := Clamp t
  ⟨a.r + (b.r - a.r) * t, a.g + (b.g - a.g) * t, a.b + (b.b - a.b) * t,
   a.a + (b.a - a.a) * t⟩

end Color

end Algebraic

/-! ## Operations that need `sqrt`, `sin`, `cos`, `acos`: over `ℝ` -/

section Transcendental

/-- `std::acos`, which has a real value on `[-1, 1]` only. -/
noncomputable def acos (x : ℝ) : Option ℝ :=
  if -1 ≤ x ∧ x ≤ 1 then some (Real.arccos x) else none

namespace Vector2

/-- `Vector2::magnitude`. -/
noncomputable def magnitude (v : Vector2 ℝ) : ℝ :=
  Real.sqrt v.sqrMagnitude

/-- `Vector2::normalized`; `assert(sqrMagnitude() != 0.0f)` is the `none`
branch. -/
noncomputable def normalized (v : Vector2 ℝ) : Option (Vector2 ℝ) :=
  if v.sqrMagnitude ≠ 0 then
    let invLength := 1 / v.magnitude
    some (v.mulScalar invLength)
  else none

/-- `angle(Vector2, Vector2)`: `acos(fmin(1, cosTheta))`. -/
noncomputable def angle (from_ to_ : Vector2 ℝ) : Option ℝ :=
  let len := Real.sqrt (from_.sqrMagnitude * to_.sqrMagnitude)
  if len ≠ 0 then
    let cosTheta := dot from_ to_ / len
    acos (min 1 cosTheta)
  else none

/-- `Vector2::normalize` (in place): the new value of the object;
`assert(sqrMagnitude() != 0.0f)` is the `none` branch. -/
noncomputable def normalize (v : Vector2 ℝ) : Option (Vector2 ℝ) :=
  if v.sqrMagnitude ≠ 0 then
    let invLength := 1 / v.magnitude
    some ⟨v.x * invLength, v.y * invLength⟩
  else none

end Vector2

namespace Vector3

/-- `Vector3::magnitude`. -/
noncomputable def magnitude (v : Vector3 ℝ) : ℝ :=
  Real.sqrt v.sqrMagnitude

/-- `Vector3::normalized`; `assert(sqrMagnitude() != 0.0f)` is the `none`
branch. -/
noncomputable def normalized (v : Vector3 ℝ) : Option (Vector3 ℝ) :=
  if v.sqrMagnitude ≠ 0 then
    let invLength := 1 / v.magnitude
    some (v.mulScalar invLength)
  else none

/-- `Vector3::normalize` (in place): the new value of the object;
`assert(sqrMagnitude() != 0.0f)` is the `none` branch. -/
noncomputable def normalize (v : Vector3 ℝ) : Option (Vector3 ℝ) :=
  if v.sqrMagnitude ≠ 0 then
    let invLength := 1 / v.magnitude
    some ⟨v.x * invLength, v.y * invLength, v.z * invLength⟩
  else none

/-- `angle(Vector3, Vector3)`: `acos(fmin(1, cosTheta))`. -/
noncomputable def angle (from_ to_ : Vector3 ℝ) : Option ℝ :=
  let len := Real.sqrt (from_.sqrMagnitude * to_.sqrMagnitude)
  if len ≠ 0 then
    let cosTheta := dot from_ to_ / len
    acos (min 1 cosTheta)
  else none

end Vector3

namespace Vector4

/-- `Vector4::magnitude`. -/
noncomputable def magnitude (v : Vector4 ℝ) : ℝ :=
  Real.sqrt v.sqrMagnitude

/-- `Vector4::normalized`; `assert(sqrMagnitude() != 0.0f)` is the `none`
branch. -/
noncomputable def normalized (v : Vector4 ℝ) : Option (Vector4 ℝ) :=
  if v.sqrMagnitude ≠ 0 then
    let invLength := 1 / v.magnitude
    some (v.mulScalar invLength)
  else none

/-- `Vector4::normalize` (in place): the new value of the object;
`assert(sqrMagnitude() != 0.0f)` is the `none` branch. -/
noncomputable def normalize (v : Vector4 ℝ) : Option (Vector4 ℝ) :=
  if v.sqrMagnitude ≠ 0 then
    let invLength := 1 / v.magnitude
    some ⟨v.x * invLength, v.y * invLength, v.z * invLength, v.w * invLength⟩
  else none

end Vector4

namespace Matrix2

/-- `Matrix2::angleRotation`. -/
noncomputable def angleRotation (angle : ℝ) : Matrix2 ℝ :=
  let cosTheta := Real.cos angle
  let sinTheta := Real.sin angle
  ⟨cosTheta, -sinTheta,
   sinTheta, cosTheta⟩

/-- `Matrix2::fromToRotation`; the `assert` on the two squared magnitudes is
the outer `none` branch. -/
noncomputable def fromToRotation (fromDirection toDirection : Vector2 ℝ) :
    Option (Matrix2 ℝ) :=
  if fromDirection.sqrMagnitude > 0 ∧ toDirection.sqrMagnitude > 0 then do
    let theta ← Vector2.angle fromDirection toDirection
    some (angleRotation theta)
  else none

end Matrix2

namespace Matrix3

/-- `Matrix3::angleAxis` (Rodrigues); the axis is used as given. -/
noncomputable def angleAxis (angle : ℝ) (axis : Vector3 ℝ) : Matrix3 ℝ :=
  let c := Real.cos angle
  let s := Real.sin angle
  let nc := 1 - c
  let nc_xy := nc * axis.x * axis.y
  let nc_yz := nc * axis.y * axis.z
  let nc_xz := nc * axis.x * axis.z
  let sx := s * axis.x
  let sy := s * axis.y
  let sz := s * axis.z
  ⟨nc * axis.x * axis.x + c,
   nc_xy - sz,
   nc_xz + sy,
   nc_xy + sz,
   nc * axis.y * axis.y + c,
   nc_yz - sx,
   nc_xz - sy,
   nc_yz + sx,
   nc * axis.z * axis.z + c⟩

/-- `Matrix3::euler`. -/
noncomputable def euler (eulerAngles : Vector3 ℝ) : Matrix3 ℝ :=
  let s1 := Real.sin eulerAngles.x
  let s2 := Real.sin eulerAngles.y
  let s3 := Real.sin eulerAngles.z
  let c1 := Real.cos eulerAngles.x
  let c2 := Real.cos eulerAngles.y
  let c3 := Real.cos eulerAngles.z
  ⟨c2 * c3,
   -c2 * s3,
   s2,
   c1 * s3 + c3 * s1 * s2,
   c1 * c3 - s1 * s2 * s3,
   -c2 * s1,
   s1 * s3 - c1 * c3 * s2,
   c3 * s1 + c1 * s2 * s3,
   c1 * c2⟩

/-- `Matrix3::fromToRotation`: the three-way branch on the cosine `d`. -/
noncomputable def fromToRotation (fromDirection toDirection : Vector3 ℝ) :
    Option (Matrix3 ℝ) :=
  if fromDirection.sqrMagnitude > 0 ∧ toDirection.sqrMagnitude > 0 then do
    let unitFrom ← fromDirection.normalized
    let unitTo ← toDirection.normalized
    let d := Vector3.dot unitFrom unitTo
    if d ≥ 1 then
      some IDENTITY
    else if d ≤ -1 then do
      let axis := Vector3.cross unitFrom Vector3.RIGHT
      let axis := if axis.sqrMagnitude < epsilon then Vector3.cross unitFrom Vector3.UP else axis
      let unitAxis ← axis.normalized
      some (angleAxis Real.pi unitAxis)
    else do
      let unitAxis ← (Vector3.cross fromDirection toDirection).normalize
      let theta ← Vector3.angle fromDirection toDirection
      some (angleAxis theta unitAxis)
  else none

/-- `Matrix3::lookRotation`; the `assert` on the cross product is the outer
`none` branch. -/
noncomputable def lookRotation (forward upwards : Vector3 ℝ) : Option (Matrix3 ℝ) :=
  if (Vector3.cross forward upwards).sqrMagnitude ≠ 0 then do
    let zAxis ← forward.normalized
    let xAxis ← (Vector3.cross upwards zAxis).normalized
    let yAxis ← (Vector3.cross zAxis xAxis).normalized
    some ⟨xAxis.x, yAxis.x, zAxis.x,
          xAxis.y, yAxis.y, zAxis.y,
          xAxis.z, yAxis.z, zAxis.z⟩
  else none

end Matrix3

namespace Quaternion

/-- `Quaternion::magnitude`. -/
noncomputable def magnitude (q : Quaternion ℝ) : ℝ :=
  Real.sqrt q.sqrMagnitude

/-- `Quaternion::normalized`; `assert(magnitude() > 0.0f)` is the `none`
branch. -/
noncomputable def normalized (q : Quaternion ℝ) : Option (Quaternion ℝ) :=
  if q.magnitude > 0 then
    let invNorm := 1 / q.magnitude
    some ⟨q.w * invNorm, q.x * invNorm, q.y * invNorm, q.z * invNorm⟩
  else none

/-- `Quaternion::angleAxis`; the `assert` that the axis has length `1` up to
`1e-6` is the `none` branch. -/
noncomputable def angleAxis (angle : ℝ) (axis : Vector3 ℝ) : Option (Quaternion ℝ) :=
  if |axis.magnitude - 1| < epsilon then
    let halfAngle := 0.5 * angle
    some (ofScalarVector (Real.cos halfAngle) (axis.mulScalar (Real.sin halfAngle)))
  else none

/-- `Quaternion::euler`. -/
noncomputable def euler (eulerAngles : Vector3 ℝ) : Quaternion ℝ :=
  let halfPhi := 0.5 * eulerAngles.x
  let halfTheta := 0.5 * eulerAngles.y
  let halfPsi := 0.5 * eulerAngles.z
  let cosHalfPhi := Real.cos halfPhi
  let sinHalfPhi := Real.sin halfPhi
  let cosHalfTheta := Real.cos halfTheta
  let sinHalfTheta := Real.sin halfTheta
  let cosHalfPsi := Real.cos halfPsi
  let sinHalfPsi := Real.sin halfPsi
  ⟨cosHalfPhi * cosHalfTheta * cosHalfPsi - sinHalfPhi * sinHalfTheta * sinHalfPsi,
   sinHalfPhi * cosHalfTheta * cosHalfPsi + cosHalfPhi * sinHalfTheta * sinHalfPsi,
   cosHalfPhi * sinHalfTheta * cosHalfPsi - sinHalfPhi * cosHalfTheta * sinHalfPsi,
   cosHalfPhi * cosHalfTheta * sinHalfPsi + sinHalfPhi * sinHalfTheta * cosHalfPsi⟩

/-- `Quaternion::fromToRotation`: the three-way branch on the cosine `d`. -/
noncomputable def fromToRotation (fromDirection toDirection : Vector3 ℝ) :
    Option (Quaternion ℝ) :=
  if fromDirection.sqrMagnitude > 0 ∧ toDirection.sqrMagnitude > 0 then do
    let unitFrom ← fromDirection.normalized
    let unitTo ← toDirection.normalized
    let d := Vector3.dot unitFrom unitTo
    if d ≥ 1 then
      some IDENTITY
    else if d ≤ -1 then do
      let axis := Vector3.cross unitFrom Vector3.RIGHT
      let axis := if axis.sqrMagnitude < epsilon then Vector3.cross unitFrom Vector3.UP else axis
      let unitAxis ← axis.normalized
      angleAxis Real.pi unitAxis
    else
      let s := Real.sqrt (unitFrom.sqrMagnitude * unitTo.sqrMagnitude)
        + Vector3.dot unitFrom unitTo
      let v := Vector3.cross unitFrom unitTo
      (ofScalarVector s v).normalized
  else none

/-- `Quaternion::normalize` (in place): the new value of the object;
`assert(magnitude() > 0.0f)` is the `none` branch. -/
noncomputable def normalize (q : Quaternion ℝ) : Option (Quaternion ℝ) :=
  if q.magnitude > 0 then
    let invNorm := 1 / q.magnitude
    some ⟨q.w * invNorm, q.x * invNorm, q.y * invNorm, q.z * invNorm⟩
  else none

/-- `Quaternion::rotateTowards`: the new value of `*this`.  The `assert` on
`|relativeRotation.w|` is the outer `none` branch. -/
noncomputable def rotateTowards (this target : Quaternion ℝ) (maxRadiansDelta : ℝ) :
    Option (Quaternion ℝ) :=
  let relativeRotation := this.conjugate.mul target
  if |relativeRotation.w| ≤ 1 then do
    let angle := 2 * (← acos relativeRotation.w)
    let axis : Vector3 ℝ := ⟨relativeRotation.x, relativeRotation.y, relativeRotation.z⟩
    if angle > maxRadiansDelta then do
      let delta ← angleAxis maxRadiansDelta (← axis.normalized)
      some (delta.mul this)
    else
      some target
  else none

/-- `Quaternion::lookRotation(forward)`; `assert(forward.sqrMagnitude() > 0.0f)`
is the `none` branch. -/
noncomputable def lookRotation (forward : Vector3 ℝ) : Option (Quaternion ℝ) :=
  if forward.sqrMagnitude > 0 then
    fromToRotation Vector3.FORWARD forward
  else none

/-- `Quaternion::lookRotation(forward, upwards)`, the two-argument overload. -/
noncomputable def lookRotation2 (forward upwards : Vector3 ℝ) : Option (Quaternion ℝ) := do
  let q1 ← lookRotation forward
  if (Vector3.cross forward upwards).sqrMagnitude < epsilon then
    some q1
  else do
    let newUp := q1.mulVec Vector3.UP
    let q2 ← fromToRotation newUp upwards
    some (q2.mul q1)

/-- `angle(Quaternion, Quaternion)`; the `assert` on `|relativeRotation.w|` is
the `none` branch. -/
noncomputable def angle (from_ to_ : Quaternion ℝ) : Option ℝ :=
  let relativeRotation := from_.conjugate.mul to_
  if |relativeRotation.w| ≤ 1 then do
    some (2 * (← acos relativeRotation.w))
  else none

end Quaternion

namespace Matrix4

/-- `Matrix4::angleAxis` (Rodrigues, padded to homogeneous form). -/
noncomputable def angleAxis (angle : ℝ) (axis : Vector3 ℝ) : Matrix4 ℝ :=
  let c := Real.cos angle
  let s := Real.sin angle
  let nc := 1 - c
  let nc_xy := nc * axis.x * axis.y
  let nc_yz := nc * axis.y * axis.z
  let nc_xz := nc * axis.x * axis.z
  let sx := s * axis.x
  let sy := s * axis.y
  let sz := s * axis.z
  ⟨nc * axis.x * axis.x + c, nc_xy - sz, nc_xz + sy, 0,
   nc_xy + sz, nc * axis.y * axis.y + c, nc_yz - sx, 0,
   nc_xz - sy, nc_yz + sx, nc * axis.z * axis.z + c, 0,
   0, 0, 0, 1⟩

/-- `Matrix4::fromToRotation`: the three-way branch on the cosine `d`. -/
noncomputable def fromToRotation (fromDirection toDirection : Vector3 ℝ) :
    Option (Matrix4 ℝ) :=
  if fromDirection.sqrMagnitude > 0 ∧ toDirection.sqrMagnitude > 0 then do
    let unitFrom ← fromDirection.normalized
    let unitTo ← toDirection.normalized
    let d := Vector3.dot unitFrom unitTo
    if d ≥ 1 then
      some IDENTITY
    else if d ≤ -1 then do
      let axis := Vector3.cross unitFrom Vector3.RIGHT
      let axis := if axis.sqrMagnitude < epsilon then Vector3.cross unitFrom Vector3.UP else axis
      let unitAxis ← axis.normalized
      some (angleAxis Real.pi unitAxis)
    else do
      let unitAxis ← (Vector3.cross fromDirection toDirection).normalize
      let theta ← Vector3.angle fromDirection toDirection
      some (angleAxis theta unitAxis)
  else none

/-- `Matrix4::lookRotation(target, eye, upwards)`, the three-argument overload;
the `assert` on the cross product is the outer `none` branch. -/
noncomputable def lookRotation3 (target eye upwards : Vector3 ℝ) : Option (Matrix4 ℝ) :=
  let forward := Vector3.sub target eye
  if (Vector3.cross forward upwards).sqrMagnitude ≠ 0 then do
    let zAxis ← forward.normalized
    let xAxis ← (Vector3.cross upwards zAxis).normalized
    let yAxis ← (Vector3.cross zAxis xAxis).normalized
    some ⟨xAxis.x, yAxis.x, zAxis.x, 0,
          xAxis.y, yAxis.y, zAxis.y, 0,
          xAxis.z, yAxis.z, zAxis.z, 0,
          -Vector3.dot xAxis eye, -Vector3.dot yAxis eye, -Vector3.dot zAxis eye, 1⟩
  else none

end Matrix4

end Transcendental

/-! ## Binary32 arithmetic

The definitions above read `float` as an exact ordered field.  This section
reads it as IEEE 754 binary32 with round to nearest, ties to even, every
operation rounded once (no fused multiply-add, no extended intermediate
precision).  Only finite values are modelled: a result beyond the largest finite
binary32 number, which the machine rounds to an infinity, keeps its rounded
rational value here, and the two zeros are one. -/

section Binary32Arithmetic

/-- Rounding of a rational to the nearest integer, ties to the even one. -/
def roundNearestEven (q : ℚ) : ℤ :=
  let f := ⌊q⌋
  if q - f < 1 / 2 then f
  else if 1 / 2 < q - f then f + 1
  else if f % 2 = 0 then f else f + 1

/-- Rounding of a rational to binary32: with `e` the exponent of `x` (at least
`-126`, the subnormal range), the result is the multiple of `2 ^ (e - 23)`
nearest to `x`, ties to the even multiple. -/
def round32 (x : ℚ) : ℚ :=
  if x = 0 then 0
  else
    let e := max (Int.log 2 |x|) (-126)
    let ulp : ℚ := 2 ^ (e - 23)
    roundNearestEven (x / ulp) * ulp

/-- A `float`, as the rational number it denotes. -/
@[ext] structure Binary32 where
  val : ℚ

namespace Binary32

instance : DecidableEq Binary32 := fun a b =>
  decidable_of_iff (a.val = b.val) ⟨fun h => Binary32.ext h, fun h => congrArg Binary32.val h⟩

instance : Zero Binary32 := ⟨⟨0⟩⟩

instance : One Binary32 := ⟨⟨1⟩⟩

/-- Unary minus is exact. -/
instance : Neg Binary32 := ⟨fun a => ⟨-a.val⟩⟩

/-- `float` addition: the exact sum, rounded. -/
instance : Add Binary32 := ⟨fun a b => ⟨round32 (a.val + b.val)⟩⟩

/-- `float` subtraction: the exact difference, rounded. -/
instance : Sub Binary32 := ⟨fun a b => ⟨round32 (a.val - b.val)⟩⟩

/-- `float` multiplication: the exact product, rounded. -/
instance : Mul Binary32 := ⟨fun a b => ⟨round32 (a.val * b.val)⟩⟩

/-- `float` division: the exact quotient, rounded. -/
instance : Div Binary32 := ⟨fun a b => ⟨round32 (a.val / b.val)⟩⟩

end Binary32

namespace Matrix4

/-- `Matrix4::determinant` in binary32 arithmetic: the expression of the source,
each operation rounded. -/
def determinant32 (M : Matrix4 Binary32) : Binary32 :=
  let det1 := M.m10 * (M.m15 * M.m5 - M.m7 * M.m13) + M.m11 * (M.m13 * M.m6 - M.m5 * M.m14)
    + M.m9 * (M.m14 * M.m7 - M.m6 * M.m15)
  let det2 := M.m1 * (M.m10 * M.m15 - M.m11 * M.m14) + M.m2 * (M.m11 * M.m13 - M.m9 * M.m15)
    + M.m3 * (M.m9 * M.m14 - M.m10 * M.m13)
  let det3 := M.m1 * (M.m6 * M.m15 - M.m7 * M.m14) + M.m2 * (M.m7 * M.m13 - M.m5 * M.m15)
    + M.m3 * (M.m5 * M.m14 - M.m6 * M.m13)
  let det4 := M.m1 * (M.m6 * M.m11 - M.m7 * M.m10) + M.m2 * (M.m7 * M.m9 - M.m5 * M.m11)
    + M.m3 * (M.m5 * M.m10 - M.m6 * M.m9)
  M.m0 * det1 - M.m4 * det2 + M.m8 * det3 - M.m12 * det4

/-- `Matrix4::inverse` in binary32 arithmetic (the MESA cofactor expressions,
each operation rounded).  `det` is computed from `inv[0]`, `inv[4]`, `inv[8]`,
`inv[12]`; `assert(det != 0.0f)` is the `none` branch. -/
def inverse32 (M : Matrix4 Binary32) : Option (Matrix4 Binary32) :=
  let inv0 := M.m5 * M.m10 * M.m15 - M.m5 * M.m11 * M.m14 - M.m9 * M.m6 * M.m15
      + M.m9 * M.m7 * M.m14 + M.m13 * M.m6 * M.m11 - M.m13 * M.m7 * M.m10
  let inv4 := -M.m4 * M.m10 * M.m15 + M.m4 * M.m11 * M.m14 + M.m8 * M.m6 * M.m15
      - M.m8 * M.m7 * M.m14 - M.m12 * M.m6 * M.m11 + M.m12 * M.m7 * M.m10
  let inv8 := M.m4 * M.m9 * M.m15 - M.m4 * M.m11 * M.m13 - M.m8 * M.m5 * M.m15
      + M.m8 * M.m7 * M.m13 + M.m12 * M.m5 * M.m11 - M.m12 * M.m7 * M.m9
  let inv12 := -M.m4 * M.m9 * M.m14 + M.m4 * M.m10 * M.m13 + M.m8 * M.m5 * M.m14
      - M.m8 * M.m6 * M.m13 - M.m12 * M.m5 * M.m10 + M.m12 * M.m6 * M.m9
  let inv1 := -M.m1 * M.m10 * M.m15 + M.m1 * M.m11 * M.m14 + M.m9 * M.m2 * M.m15
      - M.m9 * M.m3 * M.m14 - M.m13 * M.m2 * M.m11 + M.m13 * M.m3 * M.m10
  let inv5 := M.m0 * M.m10 * M.m15 - M.m0 * M.m11 * M.m14 - M.m8 * M.m2 * M.m15
      + M.m8 * M.m3 * M.m14 + M.m12 * M.m2 * M.m11 - M.m12 * M.m3 * M.m10
  let inv9 := -M.m0 * M.m9 * M.m15 + M.m0 * M.m11 * M.m13 + M.m8 * M.m1 * M.m15
      - M.m8 * M.m3 * M.m13 - M.m12 * M.m1 * M.m11 + M.m12 * M.m3 * M.m9
  let inv13 := M.m0 * M.m9 * M.m14 - M.m0 * M.m10 * M.m13 - M.m8 * M.m1 * M.m14
      + M.m8 * M.m2 * M.m13 + M.m12 * M.m1 * M.m10 - M.m12 * M.m2 * M.m9
  let inv2 := M.m1 * M.m6 * M.m15 - M.m1 * M.m7 * M.m14 - M.m5 * M.m2 * M.m15
      + M.m5 * M.m3 * M.m14 + M.m13 * M.m2 * M.m7 - M.m13 * M.m3 * M.m6
  let inv6 := -M.m0 * M.m6 * M.m15 + M.m0 * M.m7 * M.m14 + M.m4 * M.m2 * M.m15
      - M.m4 * M.m3 * M.m14 - M.m12 * M.m2 * M.m7 + M.m12 * M.m3 * M.m6
  let inv10 := M.m0 * M.m5 * M.m15 - M.m0 * M.m7 * M.m13 - M.m4 * M.m1 * M.m15
      + M.m4 * M.m3 * M.m13 + M.m12 * M.m1 * M.m7 - M.m12 * M.m3 * M.m5
  let inv14 := -M.m0 * M.m5 * M.m14 + M.m0 * M.m6 * M.m13 + M.m4 * M.m1 * M.m14
      - M.m4 * M.m2 * M.m13 - M.m12 * M.m1 * M.m6 + M.m12 * M.m2 * M.m5
  let inv3 := -M.m1 * M.m6 * M.m11 + M.m1 * M.m7 * M.m10 + M.m5 * M.m2 * M.m11
      - M.m5 * M.m3 * M.m10 - M.m9 * M.m2 * M.m7 + M.m9 * M.m3 * M.m6
  let inv7 := M.m0 * M.m6 * M.m11 - M.m0 * M.m7 * M.m10 - M.m4 * M.m2 * M.m11
      + M.m4 * M.m3 * M.m10 + M.m8 * M.m2 * M.m7 - M.m8 * M.m3 * M.m6
  let inv11 := -M.m0 * M.m5 * M.m11 + M.m0 * M.m7 * M.m9 + M.m4 * M.m1 * M.m11
      - M.m4 * M.m3 * M.m9 - M.m8 * M.m1 * M.m7 + M.m8 * M.m3 * M.m5
  let inv15 := M.m0 * M.m5 * M.m10 - M.m0 * M.m6 * M.m9 - M.m4 * M.m1 * M.m10
      + M.m4 * M.m2 * M.m9 + M.m8 * M.m1 * M.m6 - M.m8 * M.m2 * M.m5
  let det := M.m0 * inv0 + M.m1 * inv4 + M.m2 * inv8 + M.m3 * inv12
  if det ≠ 0 then
    let invDet := 1 / det
    some ⟨inv0 * invDet, inv1 * invDet, inv2 * invDet, inv3 * invDet,
          inv4 * invDet, inv5 * invDet, inv6 * invDet, inv7 * invDet,
          inv8 * invDet, inv9 * invDet, inv10 * invDet, inv11 * invDet,
          inv12 * invDet, inv13 * invDet, inv14 * invDet, inv15 * invDet⟩
  else none

end Matrix4

end Binary32Arithmetic

/-! ## Theorems -/

section Theorems

variable {F : Type} [LinearOrderedField F]

theorem Matrix2.eq_refl2 (A : Matrix2 F) : Matrix2.eq A A = true := by
  simp [Matrix2.eq, epsilon]

theorem Matrix3.eq_refl3 (A : Matrix3 F) : Matrix3.eq A A = true := by
  simp [Matrix3.eq, epsilon]

theorem Matrix2.inverse_spec2 (M : Matrix2 F) (h : M.determinant ≠ 0) :
    ∃ N, M.inverse = some N ∧ M.mul N = Matrix2.IDENTITY ∧ N.mul M = Matrix2.IDENTITY := by
  have hd : M.determinant * (1 / M.determinant) = 1 := mul_one_div_cancel h
  refine ⟨_, by simp only [Matrix2.inverse, if_pos h]; rfl, ?_, ?_⟩
  all_goals
    generalize 1 / M.determinant = i at hd
    simp only [Matrix2.determinant] at hd
    ext <;> simp only [Matrix2.mul, Matrix2.IDENTITY] <;>
      first
      | ring1
      | linear_combination hd

theorem Matrix3.inverse_spec3 (M : Matrix3 F) (h : M.determinant ≠ 0) :
    ∃ N, M.inverse = some N ∧ M.mul N = Matrix3.IDENTITY ∧ N.mul M = Matrix3.IDENTITY := by
  have hd : M.determinant * (1 / M.determinant) = 1 := mul_one_div_cancel h
  refine ⟨_, by simp only [Matrix3.inverse, if_pos h]; rfl, ?_, ?_⟩
  all_goals
    generalize 1 / M.determinant = i at hd
    simp only [Matrix3.determinant] at hd
    ext <;> simp only [Matrix3.mul, Matrix3.IDENTITY] <;>
      first
      | ring1
      | linear_combination hd

theorem Matrix4.inverse_det_eq (M : Matrix4 F) :
    M.m0 * (M.m5 * M.m10 * M.m15 - M.m5 * M.m11 * M.m14 - M.m9 * M.m6 * M.m15
      + M.m9 * M.m7 * M.m14 + M.m13 * M.m6 * M.m11 - M.m13 * M.m7 * M.m10)
    + M.m1 * (-M.m4 * M.m10 * M.m15 + M.m4 * M.m11 * M.m14 + M.m8 * M.m6 * M.m15
      - M.m8 * M.m7 * M.m14 - M.m12 * M.m6 * M.m11 + M.m12 * M.m7 * M.m10)
    + M.m2 * (M.m4 * M.m9 * M.m15 - M.m4 * M.m11 * M.m13 - M.m8 * M.m5 * M.m15
      + M.m8 * M.m7 * M.m13 + M.m12 * M.m5 * M.m11 - M.m12 * M.m7 * M.m9)
    + M.m3 * (-M.m4 * M.m9 * M.m14 + M.m4 * M.m10 * M.m13 + M.m8 * M.m5 * M.m14
      - M.m8 * M.m6 * M.m13 - M.m12 * M.m5 * M.m10 + M.m12 * M.m6 * M.m9)
    = M.determinant := by
  simp only [Matrix4.determinant]
  ring

set_option maxHeartbeats 1000000 in
theorem Matrix4.inverse_spec4 (M N : Matrix4 F) (h : M.inverse = some N) :
    M.determinant ≠ 0 ∧ M.mul N = Matrix4.IDENTITY := by
  simp only [Matrix4.inverse] at h
  split_ifs at h with hdet
  rw [Matrix4.inverse_det_eq] at hdet
  refine ⟨hdet, ?_⟩
  have hd : M.determinant * (1 / M.determinant) = 1 := mul_one_div_cancel hdet
  rw [Matrix4.inverse_det_eq] at h
  generalize 1 / M.determinant = i at hd h
  simp only [Matrix4.determinant] at hd
  rw [← Option.some.inj h]
  ext <;> simp only [Matrix4.mul, Matrix4.IDENTITY] <;>
    first
    | ring1
    | linear_combination hd

/-- C1: a `Matrix2` and a `Matrix3` with non-zero `determinant()` are inverted
successfully by `inverse()`, and both products `M * M.inverse()` and
`M.inverse() * M` are the identity element for element, hence also equal to it
under the tolerance `operator==`. -/
theorem C1_inverse (A : Matrix2 F) (B : Matrix3 F)
    (hA : A.determinant ≠ 0) (hB : B.determinant ≠ 0) :
    (∃ N, A.inverse = some N ∧ A.mul N = Matrix2.IDENTITY ∧ N.mul A = Matrix2.IDENTITY ∧
      Matrix2.eq (A.mul N) Matrix2.IDENTITY = true ∧
      Matrix2.eq (N.mul A) Matrix2.IDENTITY = true) ∧
    (∃ N, B.inverse = some N ∧ B.mul N = Matrix3.IDENTITY ∧ N.mul B = Matrix3.IDENTITY ∧
      Matrix3.eq (B.mul N) Matrix3.IDENTITY = true ∧
      Matrix3.eq (N.mul B) Matrix3.IDENTITY = true) := by
  obtain ⟨N, h1, h2, h3⟩ := Matrix2.inverse_spec2 A hA
  obtain ⟨P, k1, k2, k3⟩ := Matrix3.inverse_spec3 B hB
  exact ⟨⟨N, h1, h2, h3, by rw [h2]; exact Matrix2.eq_refl2 _, by rw [h3]; exact Matrix2.eq_refl2 _⟩,
    ⟨P, k1, k2, k3, by rw [k2]; exact Matrix3.eq_refl3 _, by rw [k3]; exact Matrix3.eq_refl3 _⟩⟩

theorem C1_inverse_witness :
    (∃ N, Matrix2.inverse (⟨2, 1, 1, 1⟩ : Matrix2 ℚ) = some N ∧
      Matrix2.mul ⟨2, 1, 1, 1⟩ N = Matrix2.IDENTITY ∧
      N.mul ⟨2, 1, 1, 1⟩ = Matrix2.IDENTITY ∧
      Matrix2.eq (Matrix2.mul ⟨2, 1, 1, 1⟩ N) Matrix2.IDENTITY = true ∧
      Matrix2.eq (N.mul ⟨2, 1, 1, 1⟩) Matrix2.IDENTITY = true) ∧
    (∃ N, Matrix3.inverse (⟨1, 2, 0, 0, 1, 3, 0, 0, 2⟩ : Matrix3 ℚ) = some N ∧
      Matrix3.mul ⟨1, 2, 0, 0, 1, 3, 0, 0, 2⟩ N = Matrix3.IDENTITY ∧
      N.mul ⟨1, 2, 0, 0, 1, 3, 0, 0, 2⟩ = Matrix3.IDENTITY ∧
      Matrix3.eq (Matrix3.mul ⟨1, 2, 0, 0, 1, 3, 0, 0, 2⟩ N) Matrix3.IDENTITY = true ∧
      Matrix3.eq (N.mul ⟨1, 2, 0, 0, 1, 3, 0, 0, 2⟩) Matrix3.IDENTITY = true) :=
  C1_inverse ⟨2, 1, 1, 1⟩ ⟨1, 2, 0, 0, 1, 3, 0, 0, 2⟩
    (by norm_num [Matrix2.determinant]) (by norm_num [Matrix3.determinant])

/-- C2: whenever `Matrix4::inverse()` does not fail on `M`, the determinant of
`M` is non-zero and `M * M.inverse()` is `Matrix4::IDENTITY` element for
element: the sixteen MESA cofactor expressions divided by the determinant are
the true inverse. -/
theorem C2_inverse4 (M N : Matrix4 F) (h : M.inverse = some N) :
    M.determinant ≠ 0 ∧ M.mul N = Matrix4.IDENTITY :=
  Matrix4.inverse_spec4 M N h

theorem C2_inverse4_witness :
    Matrix4.inverse (⟨2, 0, 0, 0, 0, 1, 0, 0, 0, 0, 1, 0, 0, 0, 0, 1⟩ : Matrix4 ℚ)
      = some ⟨1 / 2, 0, 0, 0, 0, 1, 0, 0, 0, 0, 1, 0, 0, 0, 0, 1⟩ ∧
    Matrix4.determinant (⟨2, 0, 0, 0, 0, 1, 0, 0, 0, 0, 1, 0, 0, 0, 0, 1⟩ : Matrix4 ℚ) ≠ 0 ∧
    Matrix4.mul (⟨2, 0, 0, 0, 0, 1, 0, 0, 0, 0, 1, 0, 0, 0, 0, 1⟩ : Matrix4 ℚ)
      ⟨1 / 2, 0, 0, 0, 0, 1, 0, 0, 0, 0, 1, 0, 0, 0, 0, 1⟩ = Matrix4.IDENTITY :=
  have h : Matrix4.inverse (⟨2, 0, 0, 0, 0, 1, 0, 0, 0, 0, 1, 0, 0, 0, 0, 1⟩ : Matrix4 ℚ)
      = some ⟨1 / 2, 0, 0, 0, 0, 1, 0, 0, 0, 0, 1, 0, 0, 0, 0, 1⟩ := by
    norm_num [Matrix4.inverse]
  ⟨h, C2_inverse4 _ _ h⟩

/-- The polynomial identity behind `Matrix3::euler` / `Quaternion::euler`, in the
half-angle sines and cosines. -/
theorem euler_core (sa ca sb cb sc cc vx vy vz : ℝ)
    (h1 : sa ^ 2 + ca ^ 2 = 1) (h2 : sb ^ 2 + cb ^ 2 = 1) (h3 : sc ^ 2 + cc ^ 2 = 1) :
    (Matrix3.mulVec
      ⟨(cb ^ 2 - sb ^ 2) * (cc ^ 2 - sc ^ 2),
       -(cb ^ 2 - sb ^ 2) * (2 * sc * cc),
       2 * sb * cb,
       (ca ^ 2 - sa ^ 2) * (2 * sc * cc) + (cc ^ 2 - sc ^ 2) * (2 * sa * ca) * (2 * sb * cb),
       (ca ^ 2 - sa ^ 2) * (cc ^ 2 - sc ^ 2) - (2 * sa * ca) * (2 * sb * cb) * (2 * sc * cc),
       -(cb ^ 2 - sb ^ 2) * (2 * sa * ca),
       (2 * sa * ca) * (2 * sc * cc) - (ca ^ 2 - sa ^ 2) * (cc ^ 2 - sc ^ 2) * (2 * sb * cb),
       (cc ^ 2 - sc ^ 2) * (2 * sa * ca) + (ca ^ 2 - sa ^ 2) * (2 * sb * cb) * (2 * sc * cc),
       (ca ^ 2 - sa ^ 2) * (cb ^ 2 - sb ^ 2)⟩ ⟨vx, vy, vz⟩)
    = Quaternion.mulVec
      ⟨ca * cb * cc - sa * sb * sc,
       sa * cb * cc + ca * sb * sc,
       ca * sb * cc - sa * cb * sc,
       ca * cb * sc + sa * sb * cc⟩ ⟨vx, vy, vz⟩ := by
  simp only [Matrix3.mulVec, Quaternion.mulVec, Vector3.add, Vector3.scalarMul,
    Vector3.mulScalar, Vector3.cross]
  refine Vector3.ext ?_ ?_ ?_
  · show _ = _
    linear_combination
      (vx * (sb ^ 2 + cb ^ 2) * (sc ^ 2 + cc ^ 2)
        - (cb ^ 2 - sb ^ 2) * (cc ^ 2 - sc ^ 2) * vx
        + (cb ^ 2 - sb ^ 2) * (2 * sc * cc) * vy
        - 2 * sb * cb * (sc ^ 2 + cc ^ 2) * vz) * h1
      + (vx * (sc ^ 2 + cc ^ 2)) * h2
      + (vx - 2 * sb * cb * vz) * h3
  · show _ = _
    linear_combination
      (vy * (sb ^ 2 + cb ^ 2) * (sc ^ 2 + cc ^ 2)) * h1
      + (vy * (sc ^ 2 + cc ^ 2) - (ca ^ 2 - sa ^ 2) * (2 * sc * cc) * vx
          - (ca ^ 2 - sa ^ 2) * (cc ^ 2 - sc ^ 2) * vy) * h2
      + (vy + (cb ^ 2 - sb ^ 2) * (2 * sa * ca) * vz) * h3
  · show _ = _
    linear_combination
      (vz * (sb ^ 2 + cb ^ 2) * (sc ^ 2 + cc ^ 2)) * h1
      + (vz * (sc ^ 2 + cc ^ 2) - (2 * sa * ca) * (2 * sc * cc) * vx
          - (cc ^ 2 - sc ^ 2) * (2 * sa * ca) * vy) * h2
      + (vz - (ca ^ 2 - sa ^ 2) * (cb ^ 2 - sb ^ 2) * vz) * h3

theorem sin_eq_half (t : ℝ) : Real.sin t = 2 * Real.sin (0.5 * t) * Real.cos (0.5 * t) := by
  rw [← Real.sin_two_mul]
  congr 1
  ring

theorem cos_eq_half (t : ℝ) : Real.cos t = Real.cos (0.5 * t) ^ 2 - Real.sin (0.5 * t) ^ 2 := by
  have h : t = 2 * (0.5 * t) := by ring
  conv_lhs => rw [h, Real.cos_two_mul]
  have := Real.sin_sq_add_cos_sq (0.5 * t)
  linarith

/-- C3: for every Euler angle triple `e` and every vector `v`, the matrix
`Matrix3::euler(e)` (sines and cosines of the full angles) and the quaternion
`Quaternion::euler(e)` (half-angle products) rotate `v` to the same vector. -/
theorem C3_euler_agree (e v : Vector3 ℝ) :
    (Matrix3.euler e).mulVec v = (Quaternion.euler e).mulVec v := by
  have h := euler_core (Real.sin (0.5 * e.x)) (Real.cos (0.5 * e.x))
    (Real.sin (0.5 * e.y)) (Real.cos (0.5 * e.y))
    (Real.sin (0.5 * e.z)) (Real.cos (0.5 * e.z)) v.x v.y v.z
    (Real.sin_sq_add_cos_sq _) (Real.sin_sq_add_cos_sq _) (Real.sin_sq_add_cos_sq _)
  simp only [Matrix3.euler, Quaternion.euler]
  rw [sin_eq_half e.x, sin_eq_half e.y, sin_eq_half e.z,
    cos_eq_half e.x, cos_eq_half e.y, cos_eq_half e.z]
  exact h

/-- C4: for every quaternion `q` (in particular every unit quaternion) and every
vector `v`, the `x`, `y`, `z` components of `Matrix4(q) * Vector4(v)` (with
`w = 0`) are the components of `q * v`. -/
theorem C4_matrix_of_quaternion (q : Quaternion F) (v : Vector3 F) :
    ((Matrix4.ofQuaternion q).mulVec (Vector4.ofVector3 v)).x = (q.mulVec v).x ∧
    ((Matrix4.ofQuaternion q).mulVec (Vector4.ofVector3 v)).y = (q.mulVec v).y ∧
    ((Matrix4.ofQuaternion q).mulVec (Vector4.ofVector3 v)).z = (q.mulVec v).z := by
  simp only [Matrix4.ofQuaternion, Matrix4.mulVec, Vector4.ofVector3, Quaternion.mulVec,
    Vector3.add, Vector3.scalarMul, Vector3.mulScalar, Vector3.cross]
  refine ⟨?_, ?_, ?_⟩ <;> ring

theorem Vector3.sqrMagnitude_nonneg (v : Vector3 ℝ) : 0 ≤ v.sqrMagnitude := by
  simp only [Vector3.sqrMagnitude, Vector3.dot]
  nlinarith [mul_self_nonneg v.x, mul_self_nonneg v.y, mul_self_nonneg v.z]

theorem Vector3.sqrMagnitude_eq_zero_iff (v : Vector3 ℝ) :
    v.sqrMagnitude = 0 ↔ v = Vector3.ZERO := by
  constructor
  · intro h
    simp only [Vector3.sqrMagnitude, Vector3.dot] at h
    have hx : v.x = 0 := by nlinarith [mul_self_nonneg v.x, mul_self_nonneg v.y, mul_self_nonneg v.z]
    have hy : v.y = 0 := by nlinarith [mul_self_nonneg v.x, mul_self_nonneg v.y, mul_self_nonneg v.z]
    have hz : v.z = 0 := by nlinarith [mul_self_nonneg v.x, mul_self_nonneg v.y, mul_self_nonneg v.z]
    exact Vector3.ext hx hy hz
  · intro h
    rw [h]
    simp [Vector3.sqrMagnitude, Vector3.dot, Vector3.ZERO]

/-- The reciprocal length `1 / sqrt s` of a positive squared length `s`. -/
theorem inv_sqrt_spec (s : ℝ) (hs : 0 < s) :
    0 < 1 / Real.sqrt s ∧ (1 / Real.sqrt s) * (1 / Real.sqrt s) * s = 1 := by
  have h0 : 0 < Real.sqrt s := Real.sqrt_pos.mpr hs
  refine ⟨by positivity, ?_⟩
  have h1 : Real.sqrt s * Real.sqrt s = s := Real.mul_self_sqrt hs.le
  have h2 : (1 / Real.sqrt s) * (1 / Real.sqrt s) * (Real.sqrt s * Real.sqrt s) = 1 := by
    field_simp
  rwa [h1] at h2

theorem Vector3.normalized_of_ne (v : Vector3 ℝ) (h : v.sqrMagnitude ≠ 0) :
    v.normalized = some (v.mulScalar (1 / Real.sqrt v.sqrMagnitude)) := by
  simp only [Vector3.normalized, Vector3.magnitude, if_pos h]

theorem Vector3.normalize_of_ne (v : Vector3 ℝ) (h : v.sqrMagnitude ≠ 0) :
    v.normalize = some (v.mulScalar (1 / Real.sqrt v.sqrMagnitude)) := by
  simp only [Vector3.normalize, Vector3.magnitude, if_pos h, Vector3.mulScalar]

theorem Vector3.normalized_eq_some (v u : Vector3 ℝ) (h : v.normalized = some u) :
    0 < v.sqrMagnitude ∧ u = v.mulScalar (1 / Real.sqrt v.sqrMagnitude) := by
  simp only [Vector3.normalized, Vector3.magnitude] at h
  split_ifs at h with h0
  exact ⟨lt_of_le_of_ne (Vector3.sqrMagnitude_nonneg v) (Ne.symm h0), (Option.some.inj h).symm⟩

/-- Lagrange: `|a × b|² = |a|² |b|² - (a · b)²`. -/
theorem Vector3.cross_sqrMagnitude (a b : Vector3 ℝ) :
    (Vector3.cross a b).sqrMagnitude
      = a.sqrMagnitude * b.sqrMagnitude - Vector3.dot a b * Vector3.dot a b := by
  simp only [Vector3.sqrMagnitude, Vector3.dot, Vector3.cross]
  ring

/-- Rodrigues core: with `cos θ = (f · t) k l`, `sin θ * m = k l` and
`k² |f|² = 1`, the matrix about the axis `(f × t) m` sends `f k` to `t l`. -/
theorem Matrix3.angleAxis_fromTo_core (θ k l m : ℝ) (f t : Vector3 ℝ)
    (hc : Real.cos θ = Vector3.dot f t * k * l) (hs : Real.sin θ * m = k * l)
    (hk : k * k * f.sqrMagnitude = 1) :
    (Matrix3.angleAxis θ ((Vector3.cross f t).mulScalar m)).mulVec (f.mulScalar k)
      = t.mulScalar l := by
  simp only [Matrix3.angleAxis, Matrix3.mulVec, Vector3.mulScalar, Vector3.cross]
  simp only [Vector3.sqrMagnitude, Vector3.dot] at hc hk
  generalize Real.cos θ = c at hc
  generalize Real.sin θ = s at hs
  refine Vector3.ext ?_ ?_ ?_
  · show _ = _
    linear_combination (f.x * k) * hc
      + (k * (t.x * (f.x * f.x + f.y * f.y + f.z * f.z)
          - f.x * (f.x * t.x + f.y * t.y + f.z * t.z))) * hs + (t.x * l) * hk
  · show _ = _
    linear_combination (f.y * k) * hc
      + (k * (t.y * (f.x * f.x + f.y * f.y + f.z * f.z)
          - f.y * (f.x * t.x + f.y * t.y + f.z * t.z))) * hs + (t.y * l) * hk
  · show _ = _
    linear_combination (f.z * k) * hc
      + (k * (t.z * (f.x * f.x + f.y * f.y + f.z * f.z)
          - f.z * (f.x * t.x + f.y * t.y + f.z * t.z))) * hs + (t.z * l) * hk

theorem Vector3.angle_eq_arccos (f t : Vector3 ℝ)
    (hA : 0 < f.sqrMagnitude) (hB : 0 < t.sqrMagnitude)
    (h1 : -1 ≤ Vector3.dot f t * (1 / Real.sqrt f.sqrMagnitude) * (1 / Real.sqrt t.sqrMagnitude))
    (h2 : Vector3.dot f t * (1 / Real.sqrt f.sqrMagnitude) * (1 / Real.sqrt t.sqrMagnitude) ≤ 1) :
    Vector3.angle f t = some (Real.arccos
      (Vector3.dot f t * (1 / Real.sqrt f.sqrMagnitude) * (1 / Real.sqrt t.sqrMagnitude))) := by
  have ha : 0 < Real.sqrt f.sqrMagnitude := Real.sqrt_pos.mpr hA
  have hb : 0 < Real.sqrt t.sqrMagnitude := Real.sqrt_pos.mpr hB
  have hlen : Real.sqrt (f.sqrMagnitude * t.sqrMagnitude)
      = Real.sqrt f.sqrMagnitude * Real.sqrt t.sqrMagnitude := Real.sqrt_mul hA.le _
  have hne : Real.sqrt (f.sqrMagnitude * t.sqrMagnitude) ≠ 0 := by
    rw [hlen]; positivity
  have hx : Vector3.dot f t / Real.sqrt (f.sqrMagnitude * t.sqrMagnitude)
      = Vector3.dot f t * (1 / Real.sqrt f.sqrMagnitude) * (1 / Real.sqrt t.sqrMagnitude) := by
    rw [hlen]; field_simp
  simp only [Vector3.angle, if_pos hne, hx, min_eq_right h2, acos]
  rw [if_pos ⟨h1, h2⟩]

/-- C5: for non-zero `from` and `to` (their normalised forms `uf`, `ut` exist)
with `-1 < dot(uf, ut) < 1`, `Matrix3::fromToRotation(from, to)` succeeds and
maps `from.normalized()` onto `to.normalized()`. -/
theorem C5_fromTo_general (f t uf ut : Vector3 ℝ)
    (huf : f.normalized = some uf) (hut : t.normalized = some ut)
    (hd1 : -1 < Vector3.dot uf ut) (hd2 : Vector3.dot uf ut < 1) :
    ∃ R, Matrix3.fromToRotation f t = some R ∧ R.mulVec uf = ut := by
  obtain ⟨hA, hu⟩ := Vector3.normalized_eq_some f uf huf
  obtain ⟨hB, hv⟩ := Vector3.normalized_eq_some t ut hut
  obtain ⟨hk0, hk⟩ := inv_sqrt_spec _ hA
  obtain ⟨hl0, hl⟩ := inv_sqrt_spec _ hB
  have hd : Vector3.dot uf ut
      = Vector3.dot f t * (1 / Real.sqrt f.sqrMagnitude) * (1 / Real.sqrt t.sqrMagnitude) := by
    rw [hu, hv]; simp only [Vector3.dot, Vector3.mulScalar]; ring
  have hang := Vector3.angle_eq_arccos f t hA hB (by rw [← hd]; exact hd1.le)
    (by rw [← hd]; exact hd2.le)
  rw [← hd] at hang
  -- the cross product is not zero
  have hLag : (1 / Real.sqrt f.sqrMagnitude) * (1 / Real.sqrt f.sqrMagnitude)
      * ((1 / Real.sqrt t.sqrMagnitude) * (1 / Real.sqrt t.sqrMagnitude))
      * (Vector3.cross f t).sqrMagnitude = 1 - Vector3.dot uf ut ^ 2 := by
    rw [Vector3.cross_sqrMagnitude, hd]
    linear_combination ((1 / Real.sqrt t.sqrMagnitude) * (1 / Real.sqrt t.sqrMagnitude)
      * t.sqrMagnitude) * hk + hl
  have hpos : 0 < 1 - Vector3.dot uf ut ^ 2 := by nlinarith
  have hL : 0 < (Vector3.cross f t).sqrMagnitude := by
    rcases (Vector3.sqrMagnitude_nonneg (Vector3.cross f t)).lt_or_eq with h | h
    · exact h
    · rw [← h, mul_zero] at hLag
      linarith
  obtain ⟨hm0, hm⟩ := inv_sqrt_spec _ hL
  have hr : 0 < Real.sqrt (Vector3.cross f t).sqrMagnitude := Real.sqrt_pos.mpr hL
  have hrr := Real.mul_self_sqrt hL.le
  refine ⟨Matrix3.angleAxis (Real.arccos (Vector3.dot uf ut))
    ((Vector3.cross f t).mulScalar (1 / Real.sqrt (Vector3.cross f t).sqrMagnitude)), ?_, ?_⟩
  · simp [Matrix3.fromToRotation, hA, hB, huf, hut, not_le.mpr hd2, not_le.mpr hd1,
      Vector3.normalize_of_ne _ hL.ne', hang]
  · have hc : Real.cos (Real.arccos (Vector3.dot uf ut))
        = Vector3.dot f t * (1 / Real.sqrt f.sqrMagnitude) * (1 / Real.sqrt t.sqrMagnitude) := by
      rw [Real.cos_arccos hd1.le hd2.le, hd]
    have hs : Real.sin (Real.arccos (Vector3.dot uf ut))
          * (1 / Real.sqrt (Vector3.cross f t).sqrMagnitude)
        = (1 / Real.sqrt f.sqrMagnitude) * (1 / Real.sqrt t.sqrMagnitude) := by
      have hsq : 1 - Vector3.dot uf ut ^ 2
          = ((1 / Real.sqrt f.sqrMagnitude) * (1 / Real.sqrt t.sqrMagnitude)
              * Real.sqrt (Vector3.cross f t).sqrMagnitude) ^ 2 := by
        rw [← hLag]
        nth_rewrite 1 [← hrr]
        ring
      rw [Real.sin_arccos, hsq, Real.sqrt_sq (by positivity)]
      field_simp
      ring
    have key := Matrix3.angleAxis_fromTo_core _ _ _ _ f t hc hs hk
    rw [← hu, ← hv] at key
    exact key

/-- Core of the general branch of `Quaternion::fromToRotation`: for unit `u`, `t`
the scaled quaternion `(1 + u · t, u × t) n` with `n² |q|² = 1` sends `u` to `t`. -/
theorem Quaternion.fromTo_core (u t : Vector3 ℝ) (n : ℝ)
    (hU : u.sqrMagnitude = 1) (hT : t.sqrMagnitude = 1)
    (hn : n * n * (Quaternion.ofScalarVector (1 + Vector3.dot u t)
      (Vector3.cross u t)).sqrMagnitude = 1) :
    Quaternion.mulVec
      ⟨(Quaternion.ofScalarVector (1 + Vector3.dot u t) (Vector3.cross u t)).w * n,
       (Quaternion.ofScalarVector (1 + Vector3.dot u t) (Vector3.cross u t)).x * n,
       (Quaternion.ofScalarVector (1 + Vector3.dot u t) (Vector3.cross u t)).y * n,
       (Quaternion.ofScalarVector (1 + Vector3.dot u t) (Vector3.cross u t)).z * n⟩ u = t := by
  simp only [Quaternion.sqrMagnitude, Quaternion.ofScalarVector, Vector3.sqrMagnitude,
    Vector3.dot, Vector3.cross] at hU hT hn
  simp only [Quaternion.mulVec, Quaternion.ofScalarVector, Vector3.add, Vector3.scalarMul,
    Vector3.mulScalar, Vector3.cross, Vector3.dot]
  refine Vector3.ext ?_ ?_ ?_
  · show _ = _
    linear_combination (t.x - u.x) * hn
      + n * n * (t.x * (2 * (1 + (u.x * t.x + u.y * t.y + u.z * t.z))
          - (t.x * t.x + t.y * t.y + t.z * t.z)) - u.x * (t.x * t.x + t.y * t.y + t.z * t.z)) * hU
      - n * n * (t.x + u.x) * hT
  · show _ = _
    linear_combination (t.y - u.y) * hn
      + n * n * (t.y * (2 * (1 + (u.x * t.x + u.y * t.y + u.z * t.z))
          - (t.x * t.x + t.y * t.y + t.z * t.z)) - u.y * (t.x * t.x + t.y * t.y + t.z * t.z)) * hU
      - n * n * (t.y + u.y) * hT
  · show _ = _
    linear_combination (t.z - u.z) * hn
      + n * n * (t.z * (2 * (1 + (u.x * t.x + u.y * t.y + u.z * t.z))
          - (t.x * t.x + t.y * t.y + t.z * t.z)) - u.z * (t.x * t.x + t.y * t.y + t.z * t.z)) * hU
      - n * n * (t.z + u.z) * hT

theorem Vector3.normalized_sqrMagnitude (v u : Vector3 ℝ) (h : v.normalized = some u) :
    u.sqrMagnitude = 1 := by
  obtain ⟨hA, hu⟩ := Vector3.normalized_eq_some v u h
  obtain ⟨_, hk⟩ := inv_sqrt_spec _ hA
  rw [hu]
  simp only [Vector3.sqrMagnitude, Vector3.dot, Vector3.mulScalar] at hk ⊢
  linear_combination hk

theorem C5_fromTo_general_witness :
    ∃ R, Matrix3.fromToRotation ⟨1, 0, 0⟩ ⟨0, 1, 0⟩ = some R ∧
      R.mulVec ⟨1, 0, 0⟩ = ⟨0, 1, 0⟩ :=
  C5_fromTo_general ⟨1, 0, 0⟩ ⟨0, 1, 0⟩ ⟨1, 0, 0⟩ ⟨0, 1, 0⟩
    (by simp [Vector3.normalized, Vector3.magnitude, Vector3.sqrMagnitude, Vector3.dot,
      Vector3.mulScalar])
    (by simp [Vector3.normalized, Vector3.magnitude, Vector3.sqrMagnitude, Vector3.dot,
      Vector3.mulScalar])
    (by norm_num [Vector3.dot]) (by norm_num [Vector3.dot])

/-- C6: for non-zero `from` and `to` (their normalised forms `uf`, `ut` exist)
with `-1 < dot(uf, ut) < 1`, `Quaternion::fromToRotation(from, to)` succeeds
(the quaternion `(1 + d, cross(uf, ut))` has positive magnitude) and rotates
`from.normalized()` onto `to.normalized()`. -/
theorem C6_quaternion_fromTo_general (f t uf ut : Vector3 ℝ)
    (huf : f.normalized = some uf) (hut : t.normalized = some ut)
    (hd1 : -1 < Vector3.dot uf ut) (hd2 : Vector3.dot uf ut < 1) :
    ∃ q, Quaternion.fromToRotation f t = some q ∧ q.mulVec uf = ut := by
  obtain ⟨hA, -⟩ := Vector3.normalized_eq_some f uf huf
  obtain ⟨hB, -⟩ := Vector3.normalized_eq_some t ut hut
  have hU := Vector3.normalized_sqrMagnitude f uf huf
  have hT := Vector3.normalized_sqrMagnitude t ut hut
  have hN : 0 < (Quaternion.ofScalarVector (1 + Vector3.dot uf ut)
      (Vector3.cross uf ut)).sqrMagnitude := by
    simp only [Quaternion.sqrMagnitude, Quaternion.ofScalarVector]
    nlinarith [mul_self_nonneg (Vector3.cross uf ut).x, mul_self_nonneg (Vector3.cross uf ut).y,
      mul_self_nonneg (Vector3.cross uf ut).z, mul_pos (by linarith : 0 < 1 + Vector3.dot uf ut)
        (by linarith : 0 < 1 + Vector3.dot uf ut)]
  obtain ⟨hn0, hn⟩ := inv_sqrt_spec _ hN
  have hmag : 0 < Real.sqrt (Quaternion.ofScalarVector (1 + Vector3.dot uf ut)
      (Vector3.cross uf ut)).sqrMagnitude := Real.sqrt_pos.mpr hN
  refine ⟨_, ?_, Quaternion.fromTo_core uf ut _ hU hT hn⟩
  simp [Quaternion.fromToRotation, hA, hB, huf, hut, not_le.mpr hd2, not_le.mpr hd1,
    hU, hT, Quaternion.normalized, Quaternion.magnitude, hmag, hN]

theorem C6_quaternion_fromTo_general_witness :
    ∃ q, Quaternion.fromToRotation ⟨1, 0, 0⟩ ⟨0, 1, 0⟩ = some q ∧
      q.mulVec ⟨1, 0, 0⟩ = ⟨0, 1, 0⟩ :=
  C6_quaternion_fromTo_general ⟨1, 0, 0⟩ ⟨0, 1, 0⟩ ⟨1, 0, 0⟩ ⟨0, 1, 0⟩
    (by simp [Vector3.normalized, Vector3.magnitude, Vector3.sqrMagnitude, Vector3.dot,
      Vector3.mulScalar])
    (by simp [Vector3.normalized, Vector3.magnitude, Vector3.sqrMagnitude, Vector3.dot,
      Vector3.mulScalar])
    (by norm_num [Vector3.dot]) (by norm_num [Vector3.dot])

theorem Vector3.sqrMagnitude_pos_of_ne (a : Vector3 ℝ) (ha : a ≠ Vector3.ZERO) :
    0 < a.sqrMagnitude :=
  lt_of_le_of_ne (Vector3.sqrMagnitude_nonneg a)
    (fun h => ha ((Vector3.sqrMagnitude_eq_zero_iff a).mp h.symm))

theorem Vector3.neg_sqrMagnitude (a : Vector3 ℝ) : a.neg.sqrMagnitude = a.sqrMagnitude := by
  simp only [Vector3.sqrMagnitude, Vector3.dot, Vector3.neg]
  ring

/-- A non-zero axis orthogonal to `a` normalises to a unit vector orthogonal to `a`. -/
theorem Vector3.normalized_perp (ax a : Vector3 ℝ) (h0 : ax.sqrMagnitude ≠ 0)
    (hp : Vector3.dot ax a = 0) :
    ∃ n, ax.normalized = some n ∧ n.sqrMagnitude = 1 ∧ Vector3.dot n a = 0 := by
  have h := Vector3.normalized_of_ne ax h0
  refine ⟨_, h, Vector3.normalized_sqrMagnitude ax _ h, ?_⟩
  simp only [Vector3.dot, Vector3.mulScalar] at hp ⊢
  linear_combination (1 / Real.sqrt ax.sqrMagnitude) * hp

/-- The axis chosen in the anti-parallel branch: `cross(u, RIGHT)`, or
`cross(u, UP)` when the former is shorter than the threshold.  For a unit `u`
it is non-zero and orthogonal to `u`. -/
theorem Vector3.antiparallel_axis (u : Vector3 ℝ) (hu : u.sqrMagnitude = 1) :
    (if (Vector3.cross u Vector3.RIGHT).sqrMagnitude < epsilon
      then Vector3.cross u Vector3.UP else Vector3.cross u Vector3.RIGHT).sqrMagnitude ≠ 0 ∧
    Vector3.dot (if (Vector3.cross u Vector3.RIGHT).sqrMagnitude < epsilon
      then Vector3.cross u Vector3.UP else Vector3.cross u Vector3.RIGHT) u = 0 := by
  split_ifs with h
  · constructor
    · simp only [Vector3.sqrMagnitude, Vector3.dot, Vector3.cross, Vector3.RIGHT, Vector3.UP,
        epsilon] at h hu ⊢
      nlinarith [mul_self_nonneg u.z]
    · simp only [Vector3.dot, Vector3.cross, Vector3.UP]
      ring
  · constructor
    · have : (0 : ℝ) < epsilon := by norm_num [epsilon]
      linarith [not_lt.mp h]
    · simp only [Vector3.dot, Vector3.cross, Vector3.RIGHT]
      ring

theorem Matrix3.angleAxis_pi_perp_matrix (n a : Vector3 ℝ) (hp : Vector3.dot n a = 0) :
    (Matrix3.angleAxis Real.pi n).mulVec a = a.neg := by
  simp only [Matrix3.angleAxis, Matrix3.mulVec, Vector3.neg, Real.cos_pi, Real.sin_pi]
  simp only [Vector3.dot] at hp
  refine Vector3.ext ?_ ?_ ?_
  · show _ = _
    linear_combination (2 * n.x) * hp
  · show _ = _
    linear_combination (2 * n.y) * hp
  · show _ = _
    linear_combination (2 * n.z) * hp

theorem Quaternion.angleAxis_pi_perp_quat (n a : Vector3 ℝ) (hn : n.sqrMagnitude = 1)
    (hp : Vector3.dot n a = 0) :
    ∃ q, Quaternion.angleAxis Real.pi n = some q ∧ q.mulVec a = a.neg := by
  have hhalf : (0.5 : ℝ) * Real.pi = Real.pi / 2 := by ring
  have hmag : |n.magnitude - 1| < epsilon := by
    simp [Vector3.magnitude, hn, epsilon]
  refine ⟨Quaternion.ofScalarVector (Real.cos (0.5 * Real.pi))
    (n.mulScalar (Real.sin (0.5 * Real.pi))),
    by simp only [Quaternion.angleAxis, if_pos hmag], ?_⟩
  simp only [hhalf, Real.cos_pi_div_two, Real.sin_pi_div_two, Quaternion.ofScalarVector,
    Quaternion.mulVec, Vector3.add, Vector3.scalarMul, Vector3.mulScalar, Vector3.cross,
    Vector3.neg]
  simp only [Vector3.dot, Vector3.sqrMagnitude] at hp hn
  refine Vector3.ext ?_ ?_ ?_
  · show _ = _
    linear_combination (2 * n.x) * hp - (2 * a.x) * hn
  · show _ = _
    linear_combination (2 * n.y) * hp - (2 * a.y) * hn
  · show _ = _
    linear_combination (2 * n.z) * hp - (2 * a.z) * hn

/-- For non-zero `a`, the normalised forms of `a` and `-a` have dot product `-1`. -/
theorem Vector3.opposite_dot (a : Vector3 ℝ) (ha : a ≠ Vector3.ZERO) :
    ∃ uf ut, a.normalized = some uf ∧ a.neg.normalized = some ut ∧
      Vector3.dot uf ut = -1 ∧ uf.sqrMagnitude = 1 ∧
      uf = a.mulScalar (1 / Real.sqrt a.sqrMagnitude) := by
  have hA := Vector3.sqrMagnitude_pos_of_ne a ha
  have hB : 0 < a.neg.sqrMagnitude := by rw [Vector3.neg_sqrMagnitude]; exact hA
  have huf := Vector3.normalized_of_ne a hA.ne'
  have hut := Vector3.normalized_of_ne a.neg hB.ne'
  obtain ⟨_, hk⟩ := inv_sqrt_spec _ hA
  refine ⟨_, _, huf, hut, ?_, Vector3.normalized_sqrMagnitude a _ huf, rfl⟩
  rw [Vector3.neg_sqrMagnitude]
  simp only [Vector3.sqrMagnitude, Vector3.dot, Vector3.mulScalar, Vector3.neg] at hk ⊢
  linear_combination (-1 : ℝ) * hk

/-- C7: for every non-zero `a`, `Matrix3::fromToRotation(a, -a) * a` and
`Quaternion::fromToRotation(a, -a) * a` both succeed and equal `-a` (with
`M_PI` read as `π`), whichever of the two axes `cross(unitFrom, RIGHT)`,
`cross(unitFrom, UP)` the anti-parallel branch picks. -/
theorem C7_fromTo_opposite (a : Vector3 ℝ) (ha : a ≠ Vector3.ZERO) :
    (∃ R, Matrix3.fromToRotation a a.neg = some R ∧ R.mulVec a = a.neg) ∧
    (∃ q, Quaternion.fromToRotation a a.neg = some q ∧ q.mulVec a = a.neg) := by
  have hA := Vector3.sqrMagnitude_pos_of_ne a ha
  have hB : 0 < a.neg.sqrMagnitude := by rw [Vector3.neg_sqrMagnitude]; exact hA
  obtain ⟨uf, ut, huf, hut, hd, hU, hufa⟩ := Vector3.opposite_dot a ha
  obtain ⟨hax0, haxp⟩ := Vector3.antiparallel_axis uf hU
  have hperp : Vector3.dot (if (Vector3.cross uf Vector3.RIGHT).sqrMagnitude < epsilon
      then Vector3.cross uf Vector3.UP else Vector3.cross uf Vector3.RIGHT) a = 0 := by
    have hs : 0 < Real.sqrt a.sqrMagnitude := Real.sqrt_pos.mpr hA
    have : Vector3.dot (if (Vector3.cross uf Vector3.RIGHT).sqrMagnitude < epsilon
        then Vector3.cross uf Vector3.UP else Vector3.cross uf Vector3.RIGHT) uf
        = Vector3.dot (if (Vector3.cross uf Vector3.RIGHT).sqrMagnitude < epsilon
        then Vector3.cross uf Vector3.UP else Vector3.cross uf Vector3.RIGHT) a
          * (1 / Real.sqrt a.sqrMagnitude) := by
      rw [hufa]
      simp only [Vector3.dot, Vector3.mulScalar]
      ring
    rw [this] at haxp
    rcases mul_eq_zero.mp haxp with h | h
    · exact h
    · exact absurd h (by positivity)
  obtain ⟨n, hn, hn1, hnp⟩ := Vector3.normalized_perp _ a hax0 hperp
  obtain ⟨q, hq, hqa⟩ := Quaternion.angleAxis_pi_perp_quat n a hn1 hnp
  refine ⟨⟨Matrix3.angleAxis Real.pi n, ?_, Matrix3.angleAxis_pi_perp_matrix n a hnp⟩, ⟨q, ?_, hqa⟩⟩
  · simp [Matrix3.fromToRotation, hA, hB, huf, hut, hd, hn]
  · simp [Quaternion.fromToRotation, hA, hB, huf, hut, hd, hn, hq]

theorem C7_fromTo_opposite_witness :
    ((∃ R, Matrix3.fromToRotation (Vector3.RIGHT : Vector3 ℝ) Vector3.RIGHT.neg = some R ∧
        R.mulVec Vector3.RIGHT = Vector3.RIGHT.neg) ∧
      (∃ q, Quaternion.fromToRotation (Vector3.RIGHT : Vector3 ℝ) Vector3.RIGHT.neg = some q ∧
        q.mulVec Vector3.RIGHT = Vector3.RIGHT.neg)) ∧
    ((∃ R, Matrix3.fromToRotation (Vector3.UP : Vector3 ℝ) Vector3.UP.neg = some R ∧
        R.mulVec Vector3.UP = Vector3.UP.neg) ∧
      (∃ q, Quaternion.fromToRotation (Vector3.UP : Vector3 ℝ) Vector3.UP.neg = some q ∧
        q.mulVec Vector3.UP = Vector3.UP.neg)) :=
  ⟨C7_fromTo_opposite Vector3.RIGHT (by simp [Vector3.RIGHT, Vector3.ZERO]),
   C7_fromTo_opposite Vector3.UP (by simp [Vector3.UP, Vector3.ZERO])⟩

/-- C8: for every non-zero `a`, `fromToRotation(a, a)` is the identity for
`Matrix3`, `Matrix4` and `Quaternion`: the dot product of the normalised
directions is exactly `1`, so the first branch is taken. -/
theorem C8_fromTo_same (a : Vector3 ℝ) (ha : a ≠ Vector3.ZERO) :
    Matrix3.fromToRotation a a = some Matrix3.IDENTITY ∧
    Matrix4.fromToRotation a a = some Matrix4.IDENTITY ∧
    Quaternion.fromToRotation a a = some Quaternion.IDENTITY := by
  have hA : 0 < a.sqrMagnitude := Vector3.sqrMagnitude_pos_of_ne a ha
  have hu := Vector3.normalized_of_ne a hA.ne'
  have hd : Vector3.dot (a.mulScalar (1 / Real.sqrt a.sqrMagnitude))
      (a.mulScalar (1 / Real.sqrt a.sqrMagnitude)) = 1 :=
    Vector3.normalized_sqrMagnitude a _ hu
  refine ⟨?_, ?_, ?_⟩
  · simp only [Matrix3.fromToRotation, hA, hu, and_self, if_true, Option.bind_eq_bind,
      Option.some_bind, hd, ge_iff_le, le_refl]
  · simp only [Matrix4.fromToRotation, hA, hu, and_self, if_true, Option.bind_eq_bind,
      Option.some_bind, hd, ge_iff_le, le_refl]
  · simp only [Quaternion.fromToRotation, hA, hu, and_self, if_true, Option.bind_eq_bind,
      Option.some_bind, hd, ge_iff_le, le_refl]

theorem C8_fromTo_same_witness :
    Matrix3.fromToRotation (⟨0, 3, 4⟩ : Vector3 ℝ) ⟨0, 3, 4⟩ = some Matrix3.IDENTITY ∧
    Matrix4.fromToRotation (⟨0, 3, 4⟩ : Vector3 ℝ) ⟨0, 3, 4⟩ = some Matrix4.IDENTITY ∧
    Quaternion.fromToRotation (⟨0, 3, 4⟩ : Vector3 ℝ) ⟨0, 3, 4⟩ = some Quaternion.IDENTITY :=
  C8_fromTo_same ⟨0, 3, 4⟩ (by simp [Vector3.ZERO])

/-- C9 (the code at a failing input): for `from = (0, 1)`, `to = (1, 0)`, both
already of unit length, `Matrix2::fromToRotation` returns the rotation by the
unsigned angle `π / 2`, which sends `from` to `(-1, 0)` and not to `to`. -/
theorem C9_fromTo2_failing_input :
    Vector2.normalized ⟨0, 1⟩ = some ⟨0, 1⟩ ∧ Vector2.normalized ⟨1, 0⟩ = some ⟨1, 0⟩ ∧
    Matrix2.fromToRotation ⟨0, 1⟩ ⟨1, 0⟩ = some ⟨0, -1, 1, 0⟩ ∧
    Matrix2.mulVec ⟨0, -1, 1, 0⟩ (⟨0, 1⟩ : Vector2 ℝ) = ⟨-1, 0⟩ ∧
    Matrix2.mulVec ⟨0, -1, 1, 0⟩ (⟨0, 1⟩ : Vector2 ℝ) ≠ ⟨1, 0⟩ := by
  refine ⟨?_, ?_, ?_, ?_, ?_⟩
  · simp [Vector2.normalized, Vector2.magnitude, Vector2.sqrMagnitude, Vector2.dot,
      Vector2.mulScalar]
  · simp [Vector2.normalized, Vector2.magnitude, Vector2.sqrMagnitude, Vector2.dot,
      Vector2.mulScalar]
  · simp [Matrix2.fromToRotation, Vector2.angle, Vector2.sqrMagnitude, Vector2.dot, acos,
      Matrix2.angleRotation]
  · simp [Matrix2.mulVec]
  · simp [Matrix2.mulVec]
    norm_num

/-- The algebra of `lookRotation`: for unit, mutually orthogonal `x` and `z`
the matrix with columns `x`, `z × x`, `z` is a proper rotation. -/
theorem Matrix3.lookRotation_core (x z : Vector3 ℝ)
    (hxx : x.sqrMagnitude = 1) (hzz : z.sqrMagnitude = 1) (hzx : Vector3.dot z x = 0) :
    (Matrix3.transposed ⟨x.x, (Vector3.cross z x).x, z.x,
                         x.y, (Vector3.cross z x).y, z.y,
                         x.z, (Vector3.cross z x).z, z.z⟩).mul
        ⟨x.x, (Vector3.cross z x).x, z.x,
         x.y, (Vector3.cross z x).y, z.y,
         x.z, (Vector3.cross z x).z, z.z⟩ = Matrix3.IDENTITY ∧
    Matrix3.determinant ⟨x.x, (Vector3.cross z x).x, z.x,
                         x.y, (Vector3.cross z x).y, z.y,
                         x.z, (Vector3.cross z x).z, z.z⟩ = 1 ∧
    Vector3.cross x (Vector3.cross z x) = z := by
  simp only [Vector3.sqrMagnitude, Vector3.dot] at hxx hzz hzx
  refine ⟨?_, ?_, ?_⟩
  · simp only [Matrix3.transposed, Matrix3.mul, Matrix3.IDENTITY, Vector3.cross]
    refine Matrix3.ext ?_ ?_ ?_ ?_ ?_ ?_ ?_ ?_ ?_
    · show _ = _
      linear_combination hxx
    · show _ = _
      ring
    · show _ = _
      linear_combination hzx
    · show _ = _
      ring
    · show _ = _
      linear_combination (x.x * x.x + x.y * x.y + x.z * x.z) * hzz + hxx
        - (z.x * x.x + z.y * x.y + z.z * x.z) * hzx
    · show _ = _
      ring
    · show _ = _
      linear_combination hzx
    · show _ = _
      ring
    · show _ = _
      linear_combination hzz
  · simp only [Matrix3.determinant, Vector3.cross]
    linear_combination (x.x * x.x + x.y * x.y + x.z * x.z) * hzz + hxx
        - (z.x * x.x + z.y * x.y + z.z * x.z) * hzx
  · simp only [Vector3.cross]
    refine Vector3.ext ?_ ?_ ?_
    · show _ = _
      linear_combination z.x * hxx - x.x * hzx
    · show _ = _
      linear_combination z.y * hxx - x.y * hzx
    · show _ = _
      linear_combination z.z * hxx - x.z * hzx

theorem Vector3.mulScalar_one (v : Vector3 ℝ) : v.mulScalar 1 = v := by
  simp [Vector3.mulScalar]

theorem Vector3.normalized_of_unit (v : Vector3 ℝ) (h : v.sqrMagnitude = 1) :
    v.normalized = some v := by
  rw [Vector3.normalized_of_ne v (by rw [h]; exact one_ne_zero), h]
  simp [Vector3.mulScalar_one]

/-- C10: when `cross(forward, upwards)` is non-zero, `Matrix3::lookRotation`
succeeds and returns a proper rotation `R`: `Rᵀ R` is the identity, the
determinant is `1`, the first column crossed with the second is the third, the
third column is `forward.normalized()`, and `R * FORWARD` is
`forward.normalized()`.  When `cross(forward, upwards)` is zero the call
fails. -/
theorem C10_lookRotation (forward upwards : Vector3 ℝ) :
    (Vector3.cross forward upwards ≠ Vector3.ZERO →
      ∃ R zAxis, Matrix3.lookRotation forward upwards = some R ∧
        forward.normalized = some zAxis ∧
        R.transposed.mul R = Matrix3.IDENTITY ∧ R.determinant = 1 ∧
        Vector3.cross ⟨R.m0, R.m3, R.m6⟩ ⟨R.m1, R.m4, R.m7⟩ = ⟨R.m2, R.m5, R.m8⟩ ∧
        (⟨R.m2, R.m5, R.m8⟩ : Vector3 ℝ) = zAxis ∧
        R.mulVec Vector3.FORWARD = zAxis) ∧
    (Vector3.cross forward upwards = Vector3.ZERO →
      Matrix3.lookRotation forward upwards = none) := by
  constructor
  · intro h
    have hC : (Vector3.cross forward upwards).sqrMagnitude ≠ 0 :=
      fun h0 => h ((Vector3.sqrMagnitude_eq_zero_iff _).mp h0)
    have hF : forward ≠ Vector3.ZERO := by
      intro h0
      apply h
      rw [h0]
      simp [Vector3.cross, Vector3.ZERO]
    have hA := Vector3.sqrMagnitude_pos_of_ne forward hF
    have hz := Vector3.normalized_of_ne forward hA.ne'
    have hzz := Vector3.normalized_sqrMagnitude forward _ hz
    obtain ⟨hk0, hk⟩ := inv_sqrt_spec _ hA
    generalize 1 / Real.sqrt forward.sqrMagnitude = k at hz hzz hk0 hk
    have hX : (Vector3.cross upwards (forward.mulScalar k)).sqrMagnitude
        = k * k * (Vector3.cross forward upwards).sqrMagnitude := by
      simp only [Vector3.sqrMagnitude, Vector3.dot, Vector3.cross, Vector3.mulScalar]
      ring
    have hX0 : (Vector3.cross upwards (forward.mulScalar k)).sqrMagnitude ≠ 0 := by
      rw [hX]
      exact mul_ne_zero (mul_ne_zero hk0.ne' hk0.ne') hC
    have hx := Vector3.normalized_of_ne _ hX0
    have hxx := Vector3.normalized_sqrMagnitude _ _ hx
    generalize 1 / Real.sqrt (Vector3.cross upwards (forward.mulScalar k)).sqrMagnitude = m
      at hx hxx
    have hzx : Vector3.dot (forward.mulScalar k)
        ((Vector3.cross upwards (forward.mulScalar k)).mulScalar m) = 0 := by
      simp only [Vector3.dot, Vector3.cross, Vector3.mulScalar]
      ring
    have hY : (Vector3.cross (forward.mulScalar k)
        ((Vector3.cross upwards (forward.mulScalar k)).mulScalar m)).sqrMagnitude = 1 := by
      rw [Vector3.cross_sqrMagnitude, hzz, hxx, hzx]
      ring
    have hy := Vector3.normalized_of_unit _ hY
    obtain ⟨c1, c2, c3⟩ := Matrix3.lookRotation_core _ _ hxx hzz hzx
    refine ⟨_, forward.mulScalar k, ?_, hz, c1, c2, c3, rfl, ?_⟩
    · simp only [Matrix3.lookRotation, if_pos hC, hz, hx, hy, Option.bind_eq_bind,
        Option.some_bind]
    · simp [Matrix3.mulVec, Vector3.FORWARD]
  · intro h
    simp [Matrix3.lookRotation, h, Vector3.sqrMagnitude, Vector3.dot, Vector3.ZERO]

theorem C10_lookRotation_witness :
    (∃ R zAxis, Matrix3.lookRotation ⟨0, 0, 2⟩ ⟨0, 1, 1⟩ = some R ∧
        Vector3.normalized ⟨0, 0, 2⟩ = some zAxis ∧
        R.transposed.mul R = Matrix3.IDENTITY ∧ R.determinant = 1 ∧
        Vector3.cross ⟨R.m0, R.m3, R.m6⟩ ⟨R.m1, R.m4, R.m7⟩ = ⟨R.m2, R.m5, R.m8⟩ ∧
        (⟨R.m2, R.m5, R.m8⟩ : Vector3 ℝ) = zAxis ∧
        R.mulVec Vector3.FORWARD = zAxis) ∧
    Matrix3.lookRotation (⟨0, 0, 2⟩ : Vector3 ℝ) ⟨0, 0, 3⟩ = none :=
  ⟨(C10_lookRotation ⟨0, 0, 2⟩ ⟨0, 1, 1⟩).1 (by simp [Vector3.cross, Vector3.ZERO]),
   (C10_lookRotation ⟨0, 0, 2⟩ ⟨0, 0, 3⟩).2 (by simp [Vector3.cross, Vector3.ZERO])⟩

/-- The three axes built by the `lookRotation` functions: with `k` and `m` the two
reciprocal lengths, `z = f k`, `x = (u × z) m`, and `y = z × x` is already of
unit length. -/
theorem Vector3.lookRotation_axes (f u : Vector3 ℝ)
    (hC : (Vector3.cross f u).sqrMagnitude ≠ 0) :
    ∃ k m : ℝ, k = 1 / Real.sqrt f.sqrMagnitude ∧ 0 < f.sqrMagnitude ∧
      f.normalized = some (f.mulScalar k) ∧
      (Vector3.cross u (f.mulScalar k)).normalized
        = some ((Vector3.cross u (f.mulScalar k)).mulScalar m) ∧
      (Vector3.cross (f.mulScalar k)
          ((Vector3.cross u (f.mulScalar k)).mulScalar m)).normalized
        = some (Vector3.cross (f.mulScalar k)
          ((Vector3.cross u (f.mulScalar k)).mulScalar m)) := by
  have hF : f ≠ Vector3.ZERO := by
    intro h0
    apply hC
    rw [h0]
    simp [Vector3.cross, Vector3.ZERO, Vector3.sqrMagnitude, Vector3.dot]
  have hA := Vector3.sqrMagnitude_pos_of_ne f hF
  have hz := Vector3.normalized_of_ne f hA.ne'
  have hzz := Vector3.normalized_sqrMagnitude f _ hz
  obtain ⟨hk0, -⟩ := inv_sqrt_spec _ hA
  have hX : (Vector3.cross u (f.mulScalar (1 / Real.sqrt f.sqrMagnitude))).sqrMagnitude
      = (1 / Real.sqrt f.sqrMagnitude) * (1 / Real.sqrt f.sqrMagnitude)
        * (Vector3.cross f u).sqrMagnitude := by
    simp only [Vector3.sqrMagnitude, Vector3.dot, Vector3.cross, Vector3.mulScalar]
    ring
  have hX0 : (Vector3.cross u (f.mulScalar (1 / Real.sqrt f.sqrMagnitude))).sqrMagnitude ≠ 0 := by
    rw [hX]
    exact mul_ne_zero (mul_ne_zero hk0.ne' hk0.ne') hC
  have hx := Vector3.normalized_of_ne _ hX0
  have hxx := Vector3.normalized_sqrMagnitude _ _ hx
  refine ⟨_, _, rfl, hA, hz, hx, ?_⟩
  apply Vector3.normalized_of_unit
  have hzx : Vector3.dot (f.mulScalar (1 / Real.sqrt f.sqrMagnitude))
      ((Vector3.cross u (f.mulScalar (1 / Real.sqrt f.sqrMagnitude))).mulScalar
        (1 / Real.sqrt (Vector3.cross u
          (f.mulScalar (1 / Real.sqrt f.sqrMagnitude))).sqrMagnitude)) = 0 := by
    simp only [Vector3.dot, Vector3.cross, Vector3.mulScalar]
    ring
  rw [Vector3.cross_sqrMagnitude, hzz, hxx, hzx]
  ring

/-- C11: when `cross(target - eye, upwards)` is non-zero,
`M = Matrix4::lookRotation(target, eye, upwards)` exists and, with the
row-vector product, `Vector4(eye, 1) * M = (0, 0, 0, 1)` and
`Vector4(target, 1) * M = (0, 0, |target - eye|, 1)`. -/
theorem C11_lookRotation_view (target eye upwards : Vector3 ℝ)
    (h : Vector3.cross (Vector3.sub target eye) upwards ≠ Vector3.ZERO) :
    ∃ M, Matrix4.lookRotation3 target eye upwards = some M ∧
      Matrix4.vecMul (Vector4.ofVector3W eye 1) M = ⟨0, 0, 0, 1⟩ ∧
      Matrix4.vecMul (Vector4.ofVector3W target 1) M
        = ⟨0, 0, (Vector3.sub target eye).magnitude, 1⟩ := by
  have hC : (Vector3.cross (Vector3.sub target eye) upwards).sqrMagnitude ≠ 0 :=
    fun h0 => h ((Vector3.sqrMagnitude_eq_zero_iff _).mp h0)
  obtain ⟨k, m, hk, hA, hz, hx, hy⟩ := Vector3.lookRotation_axes _ _ hC
  have hs : 0 < Real.sqrt (Vector3.sub target eye).sqrMagnitude := Real.sqrt_pos.mpr hA
  have hzf : (Vector3.sub target eye).sqrMagnitude * k = (Vector3.sub target eye).magnitude := by
    rw [hk, Vector3.magnitude]
    nth_rewrite 1 [← Real.mul_self_sqrt hA.le]
    field_simp
  simp only [Matrix4.lookRotation3, if_pos hC, hz, hx, hy, Option.bind_eq_bind,
    Option.some_bind]
  refine ⟨_, rfl, ?_, ?_⟩
  · simp only [Matrix4.vecMul, Vector4.ofVector3W, Vector3.dot]
    ext <;> simp only [] <;> ring
  · rw [← hzf]
    simp only [Matrix4.vecMul, Vector4.ofVector3W, Vector3.dot, Vector3.cross, Vector3.mulScalar,
      Vector3.sub, Vector3.sqrMagnitude]
    ext <;> simp only [] <;> ring

theorem C11_lookRotation_view_witness :
    ∃ M, Matrix4.lookRotation3 ⟨1, 2, 5⟩ ⟨1, 2, 3⟩ ⟨0, 1, 0⟩ = some M ∧
      Matrix4.vecMul (Vector4.ofVector3W ⟨1, 2, 3⟩ 1) M = ⟨0, 0, 0, 1⟩ ∧
      Matrix4.vecMul (Vector4.ofVector3W ⟨1, 2, 5⟩ 1) M
        = ⟨0, 0, (Vector3.sub ⟨1, 2, 5⟩ ⟨1, 2, 3⟩ : Vector3 ℝ).magnitude, 1⟩ :=
  C11_lookRotation_view ⟨1, 2, 5⟩ ⟨1, 2, 3⟩ ⟨0, 1, 0⟩
    (by norm_num [Vector3.cross, Vector3.sub, Vector3.ZERO])

/-- For unit quaternions the Hamilton product composes the rotations of
`operator*(Quaternion, Vector3)`. -/
theorem Quaternion.mul_mulVec (lhs rhs : Quaternion F) (v : Vector3 F)
    (hl : lhs.sqrMagnitude = 1) (hr : rhs.sqrMagnitude = 1) :
    (lhs.mul rhs).mulVec v = lhs.mulVec (rhs.mulVec v) := by
  simp only [Quaternion.sqrMagnitude] at hl hr
  simp only [Quaternion.mul, Quaternion.mulVec, Vector3.add, Vector3.scalarMul,
    Vector3.mulScalar, Vector3.cross]
  refine Vector3.ext ?_ ?_ ?_
  · show _ = _
    linear_combination
      (rhs.w * (2 * (rhs.y * v.z - rhs.z * v.y))
        + (rhs.y * (2 * (rhs.x * v.y - rhs.y * v.x))
          - rhs.z * (2 * (rhs.z * v.x - rhs.x * v.z)))) * hl
      + (lhs.w * (2 * (lhs.y * v.z - lhs.z * v.y))
        + (lhs.y * (2 * (lhs.x * v.y - lhs.y * v.x))
          - lhs.z * (2 * (lhs.z * v.x - lhs.x * v.z)))) * hr
  · show _ = _
    linear_combination
      (rhs.w * (2 * (rhs.z * v.x - rhs.x * v.z))
        + (rhs.z * (2 * (rhs.y * v.z - rhs.z * v.y))
          - rhs.x * (2 * (rhs.x * v.y - rhs.y * v.x)))) * hl
      + (lhs.w * (2 * (lhs.z * v.x - lhs.x * v.z))
        + (lhs.z * (2 * (lhs.y * v.z - lhs.z * v.y))
          - lhs.x * (2 * (lhs.x * v.y - lhs.y * v.x)))) * hr
  · show _ = _
    linear_combination
      (rhs.w * (2 * (rhs.x * v.y - rhs.y * v.x))
        + (rhs.x * (2 * (rhs.z * v.x - rhs.x * v.z))
          - rhs.y * (2 * (rhs.y * v.z - rhs.z * v.y)))) * hl
      + (lhs.w * (2 * (lhs.x * v.y - lhs.y * v.x))
        + (lhs.x * (2 * (lhs.z * v.x - lhs.x * v.z))
          - lhs.y * (2 * (lhs.y * v.z - lhs.z * v.y)))) * hr

/-- C12: for unit quaternions `lhs`, `rhs` and every vector `v`,
`(lhs * rhs) * v = lhs * (rhs * v)`: `rhs` is applied first, `lhs` second. -/
theorem C12_compose (lhs rhs : Quaternion F) (v : Vector3 F)
    (hl : lhs.sqrMagnitude = 1) (hr : rhs.sqrMagnitude = 1) :
    (lhs.mul rhs).mulVec v = lhs.mulVec (rhs.mulVec v) :=
  Quaternion.mul_mulVec lhs rhs v hl hr

theorem C12_compose_witness :
    (Quaternion.mul (⟨0, 1, 0, 0⟩ : Quaternion ℚ) ⟨0, 0, 1, 0⟩).mulVec ⟨1, 2, 3⟩
      = Quaternion.mulVec ⟨0, 1, 0, 0⟩ (Quaternion.mulVec ⟨0, 0, 1, 0⟩ ⟨1, 2, 3⟩) :=
  C12_compose ⟨0, 1, 0, 0⟩ ⟨0, 0, 1, 0⟩ ⟨1, 2, 3⟩
    (by norm_num [Quaternion.sqrMagnitude]) (by norm_num [Quaternion.sqrMagnitude])

/-- C13: for a unit quaternion `q`, the optimised product `q * v` is the vector
part of the sandwich `q * Quaternion(0, v) * q.conjugate()` (Hamilton
products, left to right), and the scalar part of the sandwich is `0`. -/
theorem C13_sandwich (q : Quaternion F) (v : Vector3 F) (hq : q.sqrMagnitude = 1) :
    ((q.mul ⟨0, v.x, v.y, v.z⟩).mul q.conjugate).x = (q.mulVec v).x ∧
    ((q.mul ⟨0, v.x, v.y, v.z⟩).mul q.conjugate).y = (q.mulVec v).y ∧
    ((q.mul ⟨0, v.x, v.y, v.z⟩).mul q.conjugate).z = (q.mulVec v).z ∧
    ((q.mul ⟨0, v.x, v.y, v.z⟩).mul q.conjugate).w = 0 := by
  simp only [Quaternion.sqrMagnitude] at hq
  simp only [Quaternion.mul, Quaternion.conjugate, Quaternion.mulVec, Vector3.add,
    Vector3.scalarMul, Vector3.mulScalar, Vector3.cross]
  refine ⟨?_, ?_, ?_, ?_⟩
  · linear_combination v.x * hq
  · linear_combination v.y * hq
  · linear_combination v.z * hq
  · ring

theorem C13_sandwich_witness :
    ((Quaternion.mul (⟨0, 1, 0, 0⟩ : Quaternion ℚ) ⟨0, 1, 2, 3⟩).mul
        (Quaternion.conjugate ⟨0, 1, 0, 0⟩)).x
      = (Quaternion.mulVec (⟨0, 1, 0, 0⟩ : Quaternion ℚ) ⟨1, 2, 3⟩).x ∧
    ((Quaternion.mul (⟨0, 1, 0, 0⟩ : Quaternion ℚ) ⟨0, 1, 2, 3⟩).mul
        (Quaternion.conjugate ⟨0, 1, 0, 0⟩)).y
      = (Quaternion.mulVec (⟨0, 1, 0, 0⟩ : Quaternion ℚ) ⟨1, 2, 3⟩).y ∧
    ((Quaternion.mul (⟨0, 1, 0, 0⟩ : Quaternion ℚ) ⟨0, 1, 2, 3⟩).mul
        (Quaternion.conjugate ⟨0, 1, 0, 0⟩)).z
      = (Quaternion.mulVec (⟨0, 1, 0, 0⟩ : Quaternion ℚ) ⟨1, 2, 3⟩).z ∧
    ((Quaternion.mul (⟨0, 1, 0, 0⟩ : Quaternion ℚ) ⟨0, 1, 2, 3⟩).mul
        (Quaternion.conjugate ⟨0, 1, 0, 0⟩)).w = 0 :=
  C13_sandwich ⟨0, 1, 0, 0⟩ ⟨1, 2, 3⟩ (by norm_num [Quaternion.sqrMagnitude])

theorem Quaternion.sqrMagnitude_nonneg_quat (q : Quaternion F) : 0 ≤ q.sqrMagnitude := by
  simp only [Quaternion.sqrMagnitude]
  nlinarith [mul_self_nonneg q.w, mul_self_nonneg q.x, mul_self_nonneg q.y, mul_self_nonneg q.z]

/-- C17: `Quaternion::inverse()` fails exactly when `sqrMagnitude()` is zero;
otherwise it returns the conjugate with every component divided by
`sqrMagnitude()`, and `q * q.inverse() = q.inverse() * q = IDENTITY`. -/
theorem C17_inverse (q : Quaternion F) :
    (q.inverse = none ↔ q.sqrMagnitude = 0) ∧
    (q.sqrMagnitude ≠ 0 →
      ∃ r, q.inverse = some r ∧
        r = ⟨q.conjugate.w / q.sqrMagnitude, q.conjugate.x / q.sqrMagnitude,
             q.conjugate.y / q.sqrMagnitude, q.conjugate.z / q.sqrMagnitude⟩ ∧
        q.mul r = Quaternion.IDENTITY ∧ r.mul q = Quaternion.IDENTITY) := by
  have h0 := Quaternion.sqrMagnitude_nonneg_quat q
  constructor
  · simp only [Quaternion.inverse]
    constructor
    · intro h
      split_ifs at h with hpos
      exact le_antisymm (not_lt.mp hpos) h0
    · intro h
      rw [if_neg (by rw [h]; exact lt_irrefl 0)]
  · intro hne
    have hpos : q.sqrMagnitude > 0 := lt_of_le_of_ne h0 (Ne.symm hne)
    have hd : q.sqrMagnitude * (1 / q.sqrMagnitude) = 1 := mul_one_div_cancel hne
    refine ⟨⟨q.w * (1 / q.sqrMagnitude), -q.x * (1 / q.sqrMagnitude),
      -q.y * (1 / q.sqrMagnitude), -q.z * (1 / q.sqrMagnitude)⟩, ?_, ?_, ?_, ?_⟩
    · simp only [Quaternion.inverse, if_pos hpos]
    · simp only [Quaternion.conjugate]
      ext <;> simp only [] <;> ring
    all_goals
      generalize 1 / q.sqrMagnitude = i at hd
      simp only [Quaternion.sqrMagnitude] at hd
      simp only [Quaternion.mul, Quaternion.IDENTITY]
      ext <;> simp only [] <;> first | ring1 | linear_combination hd

theorem C17_inverse_witness :
    Quaternion.inverse (⟨0, 0, 0, 0⟩ : Quaternion ℚ) = none ∧
    ∃ r, Quaternion.inverse (⟨1, 1, 0, 0⟩ : Quaternion ℚ) = some r ∧
      Quaternion.mul ⟨1, 1, 0, 0⟩ r = Quaternion.IDENTITY ∧
      r.mul ⟨1, 1, 0, 0⟩ = Quaternion.IDENTITY :=
  ⟨(C17_inverse ⟨0, 0, 0, 0⟩).1.mpr (by norm_num [Quaternion.sqrMagnitude]),
   match (C17_inverse (⟨1, 1, 0, 0⟩ : Quaternion ℚ)).2
      (by norm_num [Quaternion.sqrMagnitude]) with
   | ⟨r, h1, _, h3, h4⟩ => ⟨r, h1, h3, h4⟩⟩

theorem Matrix2.inverse_eq_none_iff2 (A : Matrix2 F) :
    A.inverse = none ↔ A.determinant = 0 := by
  simp only [Matrix2.inverse]
  constructor
  · intro h
    by_contra hne
    rw [if_pos hne] at h
    exact absurd h (by simp)
  · intro h
    rw [if_neg (not_not.mpr h)]

theorem Matrix3.inverse_eq_none_iff3 (A : Matrix3 F) :
    A.inverse = none ↔ A.determinant = 0 := by
  simp only [Matrix3.inverse]
  constructor
  · intro h
    by_contra hne
    rw [if_pos hne] at h
    exact absurd h (by simp)
  · intro h
    rw [if_neg (not_not.mpr h)]

theorem Matrix4.inverse_eq_none_iff4 (A : Matrix4 F) :
    A.inverse = none ↔ A.determinant = 0 := by
  simp only [Matrix4.inverse]
  rw [Matrix4.inverse_det_eq]
  constructor
  · intro h
    by_contra hne
    rw [if_pos hne] at h
    exact absurd h (by simp)
  · intro h
    rw [if_neg (not_not.mpr h)]

/-- C19 (amended): in exact arithmetic, for `Matrix2`, `Matrix3` and `Matrix4`,
`inverse()` fails if and only if `determinant()` is zero; for `Matrix4` the value
`det = m[0]*inv[0] + m[1]*inv[4] + m[2]*inv[8] + m[3]*inv[12]` computed inside
`inverse()` equals `Matrix4::determinant()`. -/
theorem C19_inverse_fails_iff (A : Matrix2 F) (B : Matrix3 F) (C : Matrix4 F) :
    (A.inverse = none ↔ A.determinant = 0) ∧
    (B.inverse = none ↔ B.determinant = 0) ∧
    (C.inverse = none ↔ C.determinant = 0) ∧
    C.m0 * (C.m5 * C.m10 * C.m15 - C.m5 * C.m11 * C.m14 - C.m9 * C.m6 * C.m15
      + C.m9 * C.m7 * C.m14 + C.m13 * C.m6 * C.m11 - C.m13 * C.m7 * C.m10)
    + C.m1 * (-C.m4 * C.m10 * C.m15 + C.m4 * C.m11 * C.m14 + C.m8 * C.m6 * C.m15
      - C.m8 * C.m7 * C.m14 - C.m12 * C.m6 * C.m11 + C.m12 * C.m7 * C.m10)
    + C.m2 * (C.m4 * C.m9 * C.m15 - C.m4 * C.m11 * C.m13 - C.m8 * C.m5 * C.m15
      + C.m8 * C.m7 * C.m13 + C.m12 * C.m5 * C.m11 - C.m12 * C.m7 * C.m9)
    + C.m3 * (-C.m4 * C.m9 * C.m14 + C.m4 * C.m10 * C.m13 + C.m8 * C.m5 * C.m14
      - C.m8 * C.m6 * C.m13 - C.m12 * C.m5 * C.m10 + C.m12 * C.m6 * C.m9)
    = C.determinant :=
  ⟨Matrix2.inverse_eq_none_iff2 A, Matrix3.inverse_eq_none_iff3 B,
    Matrix4.inverse_eq_none_iff4 C, Matrix4.inverse_det_eq C⟩

theorem Vector2.normalized_full2 (u : Vector2 ℝ) :
    (u.normalized = none ↔ u.magnitude = 0) ∧ u.normalize = u.normalized ∧
    ∀ r, u.normalized = some r →
      r.magnitude = 1 ∧ 0 < 1 / u.magnitude ∧ r = u.mulScalar (1 / u.magnitude) := by
  have h0 : 0 ≤ u.sqrMagnitude := by
    simp only [Vector2.sqrMagnitude, Vector2.dot]
    nlinarith [mul_self_nonneg u.x, mul_self_nonneg u.y]
  have hm : u.magnitude = 0 ↔ u.sqrMagnitude = 0 := Real.sqrt_eq_zero h0
  refine ⟨?_, ?_, ?_⟩
  · rw [hm]
    simp only [Vector2.normalized]
    constructor
    · intro h
      by_contra hne
      rw [if_pos hne] at h
      exact absurd h (by simp)
    · intro h
      rw [if_neg (not_not.mpr h)]
  · simp only [Vector2.normalize, Vector2.normalized, Vector2.mulScalar]
  · intro r hr
    simp only [Vector2.normalized] at hr
    split_ifs at hr with h
    have hpos : 0 < u.sqrMagnitude := lt_of_le_of_ne h0 (Ne.symm h)
    obtain ⟨hk0, hk⟩ := inv_sqrt_spec _ hpos
    have hr2 := (Option.some.inj hr).symm
    refine ⟨?_, hk0, hr2⟩
    have hunit : r.sqrMagnitude = 1 := by
      rw [hr2]
      simp only [Vector2.magnitude]
      simp only [Vector2.sqrMagnitude, Vector2.dot, Vector2.mulScalar] at hk ⊢
      linear_combination hk
    simp only [Vector2.magnitude, hunit, Real.sqrt_one]

theorem Vector3.normalized_full3 (u : Vector3 ℝ) :
    (u.normalized = none ↔ u.magnitude = 0) ∧ u.normalize = u.normalized ∧
    ∀ r, u.normalized = some r →
      r.magnitude = 1 ∧ 0 < 1 / u.magnitude ∧ r = u.mulScalar (1 / u.magnitude) := by
  have h0 : 0 ≤ u.sqrMagnitude := by
    simp only [Vector3.sqrMagnitude, Vector3.dot]
    nlinarith [mul_self_nonneg u.x, mul_self_nonneg u.y, mul_self_nonneg u.z]
  have hm : u.magnitude = 0 ↔ u.sqrMagnitude = 0 := Real.sqrt_eq_zero h0
  refine ⟨?_, ?_, ?_⟩
  · rw [hm]
    simp only [Vector3.normalized]
    constructor
    · intro h
      by_contra hne
      rw [if_pos hne] at h
      exact absurd h (by simp)
    · intro h
      rw [if_neg (not_not.mpr h)]
  · simp only [Vector3.normalize, Vector3.normalized, Vector3.mulScalar]
  · intro r hr
    simp only [Vector3.normalized] at hr
    split_ifs at hr with h
    have hpos : 0 < u.sqrMagnitude := lt_of_le_of_ne h0 (Ne.symm h)
    obtain ⟨hk0, hk⟩ := inv_sqrt_spec _ hpos
    have hr2 := (Option.some.inj hr).symm
    refine ⟨?_, hk0, hr2⟩
    have hunit : r.sqrMagnitude = 1 := by
      rw [hr2]
      simp only [Vector3.magnitude]
      simp only [Vector3.sqrMagnitude, Vector3.dot, Vector3.mulScalar] at hk ⊢
      linear_combination hk
    simp only [Vector3.magnitude, hunit, Real.sqrt_one]

theorem Vector4.normalized_full4 (u : Vector4 ℝ) :
    (u.normalized = none ↔ u.magnitude = 0) ∧ u.normalize = u.normalized ∧
    ∀ r, u.normalized = some r →
      r.magnitude = 1 ∧ 0 < 1 / u.magnitude ∧ r = u.mulScalar (1 / u.magnitude) := by
  have h0 : 0 ≤ u.sqrMagnitude := by
    simp only [Vector4.sqrMagnitude, Vector4.dot]
    nlinarith [mul_self_nonneg u.x, mul_self_nonneg u.y, mul_self_nonneg u.z, mul_self_nonneg u.w]
  have hm : u.magnitude = 0 ↔ u.sqrMagnitude = 0 := Real.sqrt_eq_zero h0
  refine ⟨?_, ?_, ?_⟩
  · rw [hm]
    simp only [Vector4.normalized]
    constructor
    · intro h
      by_contra hne
      rw [if_pos hne] at h
      exact absurd h (by simp)
    · intro h
      rw [if_neg (not_not.mpr h)]
  · simp only [Vector4.normalize, Vector4.normalized, Vector4.mulScalar]
  · intro r hr
    simp only [Vector4.normalized] at hr
    split_ifs at hr with h
    have hpos : 0 < u.sqrMagnitude := lt_of_le_of_ne h0 (Ne.symm h)
    obtain ⟨hk0, hk⟩ := inv_sqrt_spec _ hpos
    have hr2 := (Option.some.inj hr).symm
    refine ⟨?_, hk0, hr2⟩
    have hunit : r.sqrMagnitude = 1 := by
      rw [hr2]
      simp only [Vector4.magnitude]
      simp only [Vector4.sqrMagnitude, Vector4.dot, Vector4.mulScalar] at hk ⊢
      linear_combination hk
    simp only [Vector4.magnitude, hunit, Real.sqrt_one]

theorem Quaternion.normalized_full (u : Quaternion ℝ) :
    (u.normalized = none ↔ u.magnitude = 0) ∧ u.normalize = u.normalized ∧
    ∀ r, u.normalized = some r →
      r.magnitude = 1 ∧ 0 < 1 / u.magnitude ∧
      r = ⟨u.w * (1 / u.magnitude), u.x * (1 / u.magnitude),
           u.y * (1 / u.magnitude), u.z * (1 / u.magnitude)⟩ := by
  have h0 : 0 ≤ u.sqrMagnitude := Quaternion.sqrMagnitude_nonneg_quat u
  have hmn : 0 ≤ u.magnitude := Real.sqrt_nonneg _
  refine ⟨?_, ?_, ?_⟩
  · simp only [Quaternion.normalized]
    constructor
    · intro h
      by_contra hne
      rw [if_pos (lt_of_le_of_ne hmn (Ne.symm hne))] at h
      exact absurd h (by simp)
    · intro h
      rw [if_neg (by rw [h]; exact lt_irrefl 0)]
  · simp only [Quaternion.normalize, Quaternion.normalized]
  · intro r hr
    simp only [Quaternion.normalized] at hr
    split_ifs at hr with h
    have hpos : 0 < u.sqrMagnitude := Real.sqrt_pos.mp h
    obtain ⟨hk0, hk⟩ := inv_sqrt_spec _ hpos
    have hr2 := (Option.some.inj hr).symm
    refine ⟨?_, hk0, hr2⟩
    have hunit : r.sqrMagnitude = 1 := by
      rw [hr2]
      simp only [Quaternion.magnitude]
      simp only [Quaternion.sqrMagnitude] at hk ⊢
      linear_combination hk
    simp only [Quaternion.magnitude, hunit, Real.sqrt_one]

/-- C18: for a `Vector2`, `Vector3`, `Vector4` and `Quaternion` value `u`,
`normalized()` fails if and only if `magnitude()` is zero, the in-place
`normalize()` produces the same outcome, and a result `r` has magnitude
exactly `1` and is `u` scaled by the positive factor `1 / magnitude(u)`. -/
theorem C18_normalized (a : Vector2 ℝ) (b : Vector3 ℝ) (c : Vector4 ℝ) (q : Quaternion ℝ) :
    ((a.normalized = none ↔ a.magnitude = 0) ∧ a.normalize = a.normalized ∧
      ∀ r, a.normalized = some r →
        r.magnitude = 1 ∧ 0 < 1 / a.magnitude ∧ r = a.mulScalar (1 / a.magnitude)) ∧
    ((b.normalized = none ↔ b.magnitude = 0) ∧ b.normalize = b.normalized ∧
      ∀ r, b.normalized = some r →
        r.magnitude = 1 ∧ 0 < 1 / b.magnitude ∧ r = b.mulScalar (1 / b.magnitude)) ∧
    ((c.normalized = none ↔ c.magnitude = 0) ∧ c.normalize = c.normalized ∧
      ∀ r, c.normalized = some r →
        r.magnitude = 1 ∧ 0 < 1 / c.magnitude ∧ r = c.mulScalar (1 / c.magnitude)) ∧
    ((q.normalized = none ↔ q.magnitude = 0) ∧ q.normalize = q.normalized ∧
      ∀ r, q.normalized = some r →
        r.magnitude = 1 ∧ 0 < 1 / q.magnitude ∧
        r = ⟨q.w * (1 / q.magnitude), q.x * (1 / q.magnitude),
             q.y * (1 / q.magnitude), q.z * (1 / q.magnitude)⟩) :=
  ⟨Vector2.normalized_full2 a, Vector3.normalized_full3 b, Vector4.normalized_full4 c,
    Quaternion.normalized_full q⟩

theorem C18_normalized_witness :
    Vector3.normalized (⟨0, 0, 0⟩ : Vector3 ℝ) = none ∧
    Vector3.magnitude (⟨0, 3, 4⟩ : Vector3 ℝ) = 5 ∧
    Vector3.normalized (⟨0, 3, 4⟩ : Vector3 ℝ) = some ⟨0, 3 / 5, 4 / 5⟩ ∧
    Vector3.magnitude (⟨0, 3 / 5, 4 / 5⟩ : Vector3 ℝ) = 1 := by
  have hm : Vector3.magnitude (⟨0, 3, 4⟩ : Vector3 ℝ) = 5 := by
    simp only [Vector3.magnitude, Vector3.sqrMagnitude, Vector3.dot]
    rw [show (0 * 0 + 3 * 3 + 4 * 4 : ℝ) = 5 ^ 2 by norm_num]
    exact Real.sqrt_sq (by norm_num)
  have hn : Vector3.normalized (⟨0, 3, 4⟩ : Vector3 ℝ) = some ⟨0, 3 / 5, 4 / 5⟩ := by
    simp only [Vector3.normalized, hm, Vector3.mulScalar]
    norm_num [Vector3.sqrMagnitude, Vector3.dot]
  exact ⟨(C18_normalized ⟨0, 0⟩ ⟨0, 0, 0⟩ ⟨0, 0, 0, 0⟩ ⟨1, 0, 0, 0⟩).2.1.1.mpr
      (by simp [Vector3.magnitude, Vector3.sqrMagnitude, Vector3.dot]),
    hm, hn,
    ((C18_normalized ⟨0, 0⟩ ⟨0, 3, 4⟩ ⟨0, 0, 0, 0⟩ ⟨1, 0, 0, 0⟩).2.1.2.2 _ hn).1⟩

theorem Matrix2.mul_assoc2 (A B C : Matrix2 F) : (A.mul B).mul C = A.mul (B.mul C) := by
  simp only [Matrix2.mul]
  ext <;> simp only [] <;> ring

theorem Matrix2.mul_identity2 (A : Matrix2 F) : A.mul Matrix2.IDENTITY = A := by
  simp only [Matrix2.mul, Matrix2.IDENTITY]
  ext <;> simp only [] <;> ring

theorem Matrix2.identity_mul2 (A : Matrix2 F) : Matrix2.IDENTITY.mul A = A := by
  simp only [Matrix2.mul, Matrix2.IDENTITY]
  ext <;> simp only [] <;> ring

theorem Matrix2.determinant_mul2 (A B : Matrix2 F) :
    (A.mul B).determinant = A.determinant * B.determinant := by
  simp only [Matrix2.mul, Matrix2.determinant]
  ring

theorem Matrix2.determinant_identity2 : (Matrix2.IDENTITY : Matrix2 F).determinant = 1 := by
  simp only [Matrix2.IDENTITY, Matrix2.determinant]
  ring

/-- A right inverse found by `inverse()` is inverted back to the matrix. -/
theorem Matrix2.inverse_of_right_inverse2 (M N : Matrix2 F) (h : M.mul N = Matrix2.IDENTITY)
    (hspec : ∀ P, N.inverse = some P → N.mul P = Matrix2.IDENTITY)
    (hnone : N.inverse = none ↔ N.determinant = 0) :
    N.determinant ≠ 0 ∧ N.inverse = some M := by
  have hdet : M.determinant * N.determinant = 1 := by
    rw [← Matrix2.determinant_mul2, h, Matrix2.determinant_identity2]
  have hN : N.determinant ≠ 0 := by
    intro h0
    rw [h0, mul_zero] at hdet
    exact zero_ne_one hdet
  refine ⟨hN, ?_⟩
  obtain ⟨P, hP⟩ := Option.ne_none_iff_exists'.mp (fun hn => hN (hnone.mp hn))
  have hNP := hspec P hP
  have hMP : M = P := by
    calc M = M.mul Matrix2.IDENTITY := (Matrix2.mul_identity2 M).symm
      _ = M.mul (N.mul P) := by rw [hNP]
      _ = (M.mul N).mul P := (Matrix2.mul_assoc2 M N P).symm
      _ = Matrix2.IDENTITY.mul P := by rw [h]
      _ = P := Matrix2.identity_mul2 P
  rw [hMP]
  exact hP

theorem Matrix3.mul_assoc3 (A B C : Matrix3 F) : (A.mul B).mul C = A.mul (B.mul C) := by
  simp only [Matrix3.mul]
  ext <;> simp only [] <;> ring

theorem Matrix3.mul_identity3 (A : Matrix3 F) : A.mul Matrix3.IDENTITY = A := by
  simp only [Matrix3.mul, Matrix3.IDENTITY]
  ext <;> simp only [] <;> ring

theorem Matrix3.identity_mul3 (A : Matrix3 F) : Matrix3.IDENTITY.mul A = A := by
  simp only [Matrix3.mul, Matrix3.IDENTITY]
  ext <;> simp only [] <;> ring

theorem Matrix3.determinant_mul3 (A B : Matrix3 F) :
    (A.mul B).determinant = A.determinant * B.determinant := by
  simp only [Matrix3.mul, Matrix3.determinant]
  ring

theorem Matrix3.determinant_identity3 : (Matrix3.IDENTITY : Matrix3 F).determinant = 1 := by
  simp only [Matrix3.IDENTITY, Matrix3.determinant]
  ring

/-- A right inverse found by `inverse()` is inverted back to the matrix. -/
theorem Matrix3.inverse_of_right_inverse3 (M N : Matrix3 F) (h : M.mul N = Matrix3.IDENTITY)
    (hspec : ∀ P, N.inverse = some P → N.mul P = Matrix3.IDENTITY)
    (hnone : N.inverse = none ↔ N.determinant = 0) :
    N.determinant ≠ 0 ∧ N.inverse = some M := by
  have hdet : M.determinant * N.determinant = 1 := by
    rw [← Matrix3.determinant_mul3, h, Matrix3.determinant_identity3]
  have hN : N.determinant ≠ 0 := by
    intro h0
    rw [h0, mul_zero] at hdet
    exact zero_ne_one hdet
  refine ⟨hN, ?_⟩
  obtain ⟨P, hP⟩ := Option.ne_none_iff_exists'.mp (fun hn => hN (hnone.mp hn))
  have hNP := hspec P hP
  have hMP : M = P := by
    calc M = M.mul Matrix3.IDENTITY := (Matrix3.mul_identity3 M).symm
      _ = M.mul (N.mul P) := by rw [hNP]
      _ = (M.mul N).mul P := (Matrix3.mul_assoc3 M N P).symm
      _ = Matrix3.IDENTITY.mul P := by rw [h]
      _ = P := Matrix3.identity_mul3 P
  rw [hMP]
  exact hP

theorem Matrix4.mul_assoc4 (A B C : Matrix4 F) : (A.mul B).mul C = A.mul (B.mul C) := by
  simp only [Matrix4.mul]
  ext <;> simp only [] <;> ring

theorem Matrix4.mul_identity4 (A : Matrix4 F) : A.mul Matrix4.IDENTITY = A := by
  simp only [Matrix4.mul, Matrix4.IDENTITY]
  ext <;> simp only [] <;> ring

theorem Matrix4.identity_mul4 (A : Matrix4 F) : Matrix4.IDENTITY.mul A = A := by
  simp only [Matrix4.mul, Matrix4.IDENTITY]
  ext <;> simp only [] <;> ring

set_option maxHeartbeats 4000000 in
theorem Matrix4.determinant_mul4 (A B : Matrix4 F) :
    (A.mul B).determinant = A.determinant * B.determinant := by
  simp only [Matrix4.mul, Matrix4.determinant]
  ring

theorem Matrix4.determinant_identity4 : (Matrix4.IDENTITY : Matrix4 F).determinant = 1 := by
  simp only [Matrix4.IDENTITY, Matrix4.determinant]
  ring

/-- A right inverse found by `inverse()` is inverted back to the matrix. -/
theorem Matrix4.inverse_of_right_inverse4 (M N : Matrix4 F) (h : M.mul N = Matrix4.IDENTITY)
    (hspec : ∀ P, N.inverse = some P → N.mul P = Matrix4.IDENTITY)
    (hnone : N.inverse = none ↔ N.determinant = 0) :
    N.determinant ≠ 0 ∧ N.inverse = some M := by
  have hdet : M.determinant * N.determinant = 1 := by
    rw [← Matrix4.determinant_mul4, h, Matrix4.determinant_identity4]
  have hN : N.determinant ≠ 0 := by
    intro h0
    rw [h0, mul_zero] at hdet
    exact zero_ne_one hdet
  refine ⟨hN, ?_⟩
  obtain ⟨P, hP⟩ := Option.ne_none_iff_exists'.mp (fun hn => hN (hnone.mp hn))
  have hNP := hspec P hP
  have hMP : M = P := by
    calc M = M.mul Matrix4.IDENTITY := (Matrix4.mul_identity4 M).symm
      _ = M.mul (N.mul P) := by rw [hNP]
      _ = (M.mul N).mul P := (Matrix4.mul_assoc4 M N P).symm
      _ = Matrix4.IDENTITY.mul P := by rw [h]
      _ = P := Matrix4.identity_mul4 P
  rw [hMP]
  exact hP

theorem Matrix2.inverse_right2 (N P : Matrix2 F) (h : N.inverse = some P) :
    N.mul P = Matrix2.IDENTITY := by
  have hne : N.determinant ≠ 0 := by
    intro h0
    rw [(Matrix2.inverse_eq_none_iff2 N).mpr h0] at h
    exact absurd h (by simp)
  obtain ⟨Q, hQ, hQ1, -⟩ := Matrix2.inverse_spec2 N hne
  rw [hQ] at h
  rw [← Option.some.inj h]
  exact hQ1

theorem Matrix3.inverse_right3 (N P : Matrix3 F) (h : N.inverse = some P) :
    N.mul P = Matrix3.IDENTITY := by
  have hne : N.determinant ≠ 0 := by
    intro h0
    rw [(Matrix3.inverse_eq_none_iff3 N).mpr h0] at h
    exact absurd h (by simp)
  obtain ⟨Q, hQ, hQ1, -⟩ := Matrix3.inverse_spec3 N hne
  rw [hQ] at h
  rw [← Option.some.inj h]
  exact hQ1

/-- C20: for a `Matrix2`, `Matrix3` and `Matrix4` with non-zero determinant,
`inverse()` succeeds, the inverse has non-zero determinant, and inverting it
again gives back the matrix element for element. -/
theorem C20_inverse_inverse (A : Matrix2 F) (B : Matrix3 F) (C : Matrix4 F)
    (hA : A.determinant ≠ 0) (hB : B.determinant ≠ 0) (hC : C.determinant ≠ 0) :
    (∃ N, A.inverse = some N ∧ N.determinant ≠ 0 ∧ N.inverse = some A) ∧
    (∃ N, B.inverse = some N ∧ N.determinant ≠ 0 ∧ N.inverse = some B) ∧
    (∃ N, C.inverse = some N ∧ N.determinant ≠ 0 ∧ N.inverse = some C) := by
  refine ⟨?_, ?_, ?_⟩
  · obtain ⟨N, hN, hAN, -⟩ := Matrix2.inverse_spec2 A hA
    exact ⟨N, hN, Matrix2.inverse_of_right_inverse2 A N hAN (Matrix2.inverse_right2 N)
      (Matrix2.inverse_eq_none_iff2 N)⟩
  · obtain ⟨N, hN, hBN, -⟩ := Matrix3.inverse_spec3 B hB
    exact ⟨N, hN, Matrix3.inverse_of_right_inverse3 B N hBN (Matrix3.inverse_right3 N)
      (Matrix3.inverse_eq_none_iff3 N)⟩
  · obtain ⟨N, hN⟩ := Option.ne_none_iff_exists'.mp
      (fun hn => hC ((Matrix4.inverse_eq_none_iff4 C).mp hn))
    exact ⟨N, hN, Matrix4.inverse_of_right_inverse4 C N (Matrix4.inverse_spec4 C N hN).2
      (fun P hP => (Matrix4.inverse_spec4 N P hP).2) (Matrix4.inverse_eq_none_iff4 N)⟩

theorem C20_inverse_inverse_witness :
    (∃ N, Matrix2.inverse (⟨2, 1, 1, 1⟩ : Matrix2 ℚ) = some N ∧ N.determinant ≠ 0 ∧
      N.inverse = some ⟨2, 1, 1, 1⟩) ∧
    (∃ N, Matrix3.inverse (⟨1, 2, 0, 0, 1, 3, 0, 0, 2⟩ : Matrix3 ℚ) = some N ∧
      N.determinant ≠ 0 ∧ N.inverse = some ⟨1, 2, 0, 0, 1, 3, 0, 0, 2⟩) ∧
    (∃ N, Matrix4.inverse (⟨2, 0, 0, 1, 0, 1, 0, 0, 0, 0, 1, 0, 0, 0, 0, 1⟩ : Matrix4 ℚ)
      = some N ∧ N.determinant ≠ 0 ∧
      N.inverse = some ⟨2, 0, 0, 1, 0, 1, 0, 0, 0, 0, 1, 0, 0, 0, 0, 1⟩) :=
  C20_inverse_inverse ⟨2, 1, 1, 1⟩ ⟨1, 2, 0, 0, 1, 3, 0, 0, 2⟩
    ⟨2, 0, 0, 1, 0, 1, 0, 0, 0, 0, 1, 0, 0, 0, 0, 1⟩
    (by norm_num [Matrix2.determinant]) (by norm_num [Matrix3.determinant])
    (by norm_num [Matrix4.determinant])

theorem Vector3.magnitude_of_unit (n : Vector3 ℝ) (h : n.sqrMagnitude = 1) :
    n.magnitude = 1 := by
  simp only [Vector3.magnitude, h, Real.sqrt_one]

/-- With a unit axis `Quaternion::angleAxis` passes its assertion and returns a
unit quaternion. -/
theorem Quaternion.angleAxis_of_unit (θ : ℝ) (n : Vector3 ℝ) (h : n.sqrMagnitude = 1) :
    ∃ q, Quaternion.angleAxis θ n = some q ∧ q.sqrMagnitude = 1 ∧
      q = Quaternion.ofScalarVector (Real.cos (0.5 * θ)) (n.mulScalar (Real.sin (0.5 * θ))) := by
  have hmag : |n.magnitude - 1| < epsilon := by
    rw [Vector3.magnitude_of_unit n h]
    norm_num [epsilon]
  refine ⟨_, by simp only [Quaternion.angleAxis, if_pos hmag], ?_, rfl⟩
  simp only [Vector3.sqrMagnitude, Vector3.dot] at h
  simp only [Quaternion.sqrMagnitude, Quaternion.ofScalarVector, Vector3.mulScalar]
  have hsc := Real.sin_sq_add_cos_sq (0.5 * θ)
  linear_combination (Real.sin (0.5 * θ) * Real.sin (0.5 * θ)) * h + hsc

/-- C14: when the relative rotation `r = q.conjugate() * target` has
`|r.w| ≤ 1`, with `angle = 2 * acos(r.w)`: if `angle ≤ maxRadiansDelta` then
`rotateTowards` leaves `q` equal to `target`; otherwise, when the vector part
of `r` is non-zero, it leaves `q` equal to
`Quaternion::angleAxis(maxRadiansDelta, normalised vector part of r) * q`. -/
theorem C14_rotateTowards (q target : Quaternion ℝ) (maxRadiansDelta : ℝ)
    (hw : |(q.conjugate.mul target).w| ≤ 1) :
    (2 * Real.arccos (q.conjugate.mul target).w ≤ maxRadiansDelta →
      q.rotateTowards target maxRadiansDelta = some target) ∧
    (maxRadiansDelta < 2 * Real.arccos (q.conjugate.mul target).w →
      (⟨(q.conjugate.mul target).x, (q.conjugate.mul target).y,
        (q.conjugate.mul target).z⟩ : Vector3 ℝ) ≠ Vector3.ZERO →
      ∃ n delta,
        Vector3.normalized ⟨(q.conjugate.mul target).x, (q.conjugate.mul target).y,
          (q.conjugate.mul target).z⟩ = some n ∧
        Quaternion.angleAxis maxRadiansDelta n = some delta ∧
        q.rotateTowards target maxRadiansDelta = some (delta.mul q)) := by
  have hb := abs_le.mp hw
  have hac : acos (q.conjugate.mul target).w = some (Real.arccos (q.conjugate.mul target).w) := by
    simp only [acos, if_pos hb]
  constructor
  · intro h
    simp only [Quaternion.rotateTowards, if_pos hw, hac, Option.bind_eq_bind, Option.some_bind,
      gt_iff_lt, if_neg (not_lt.mpr h)]
  · intro h hax
    have hpos := Vector3.sqrMagnitude_pos_of_ne _ hax
    have hn := Vector3.normalized_of_ne _ hpos.ne'
    have hunit := Vector3.normalized_sqrMagnitude _ _ hn
    obtain ⟨delta, hdelta, -, -⟩ := Quaternion.angleAxis_of_unit maxRadiansDelta _ hunit
    refine ⟨_, delta, hn, hdelta, ?_⟩
    simp only [Quaternion.rotateTowards, if_pos hw, hac, Option.bind_eq_bind, Option.some_bind,
      gt_iff_lt, if_pos h, hn, hdelta]

theorem C14_rotateTowards_witness :
    Quaternion.rotateTowards Quaternion.IDENTITY ⟨0, 1, 0, 0⟩ 4 = some ⟨0, 1, 0, 0⟩ ∧
    ∃ n delta,
      Vector3.normalized
        ⟨((Quaternion.IDENTITY : Quaternion ℝ).conjugate.mul ⟨0, 1, 0, 0⟩).x,
         ((Quaternion.IDENTITY : Quaternion ℝ).conjugate.mul ⟨0, 1, 0, 0⟩).y,
         ((Quaternion.IDENTITY : Quaternion ℝ).conjugate.mul ⟨0, 1, 0, 0⟩).z⟩ = some n ∧
      Quaternion.angleAxis 1 n = some delta ∧
      Quaternion.rotateTowards Quaternion.IDENTITY ⟨0, 1, 0, 0⟩ 1
        = some (delta.mul Quaternion.IDENTITY) := by
  have hw : ((Quaternion.IDENTITY : Quaternion ℝ).conjugate.mul ⟨0, 1, 0, 0⟩).w = 0 := by
    norm_num [Quaternion.mul, Quaternion.conjugate, Quaternion.IDENTITY]
  have habs : |((Quaternion.IDENTITY : Quaternion ℝ).conjugate.mul ⟨0, 1, 0, 0⟩).w| ≤ 1 := by
    rw [hw]; norm_num
  refine ⟨(C14_rotateTowards Quaternion.IDENTITY ⟨0, 1, 0, 0⟩ 4 habs).1 ?_,
    (C14_rotateTowards Quaternion.IDENTITY ⟨0, 1, 0, 0⟩ 1 habs).2 ?_ ?_⟩
  · rw [hw, Real.arccos_zero]
    linarith [Real.pi_le_four]
  · rw [hw, Real.arccos_zero]
    linarith [Real.pi_gt_three]
  · norm_num [Quaternion.mul, Quaternion.conjugate, Quaternion.IDENTITY, Vector3.ZERO]

theorem Vector3.eq_of_unit_dot_ge (u t : Vector3 ℝ) (hu : u.sqrMagnitude = 1)
    (ht : t.sqrMagnitude = 1) (hd : 1 ≤ Vector3.dot u t) : t = u := by
  simp only [Vector3.sqrMagnitude, Vector3.dot] at hu ht hd
  have h0 : (t.x - u.x) ^ 2 + (t.y - u.y) ^ 2 + (t.z - u.z) ^ 2 ≤ 0 := by nlinarith
  have hx : t.x - u.x = 0 := by
    have h2 : (t.x - u.x) ^ 2 = 0 := by
      linarith [sq_nonneg (t.x - u.x), sq_nonneg (t.y - u.y), sq_nonneg (t.z - u.z)]
    exact pow_eq_zero_iff (two_ne_zero) |>.mp h2
  have hy : t.y - u.y = 0 := by
    have h2 : (t.y - u.y) ^ 2 = 0 := by
      linarith [sq_nonneg (t.x - u.x), sq_nonneg (t.y - u.y), sq_nonneg (t.z - u.z)]
    exact pow_eq_zero_iff (two_ne_zero) |>.mp h2
  have hz : t.z - u.z = 0 := by
    have h2 : (t.z - u.z) ^ 2 = 0 := by
      linarith [sq_nonneg (t.x - u.x), sq_nonneg (t.y - u.y), sq_nonneg (t.z - u.z)]
    exact pow_eq_zero_iff (two_ne_zero) |>.mp h2
  exact Vector3.ext (by linarith) (by linarith) (by linarith)

theorem Vector3.eq_neg_of_unit_dot_le (u t : Vector3 ℝ) (hu : u.sqrMagnitude = 1)
    (ht : t.sqrMagnitude = 1) (hd : Vector3.dot u t ≤ -1) : t = u.neg := by
  simp only [Vector3.sqrMagnitude, Vector3.dot] at hu ht hd
  have h0 : (t.x + u.x) ^ 2 + (t.y + u.y) ^ 2 + (t.z + u.z) ^ 2 ≤ 0 := by nlinarith
  have hx : t.x + u.x = 0 := by
    have h2 : (t.x + u.x) ^ 2 = 0 := by
      linarith [sq_nonneg (t.x + u.x), sq_nonneg (t.y + u.y), sq_nonneg (t.z + u.z)]
    exact pow_eq_zero_iff (two_ne_zero) |>.mp h2
  have hy : t.y + u.y = 0 := by
    have h2 : (t.y + u.y) ^ 2 = 0 := by
      linarith [sq_nonneg (t.x + u.x), sq_nonneg (t.y + u.y), sq_nonneg (t.z + u.z)]
    exact pow_eq_zero_iff (two_ne_zero) |>.mp h2
  have hz : t.z + u.z = 0 := by
    have h2 : (t.z + u.z) ^ 2 = 0 := by
      linarith [sq_nonneg (t.x + u.x), sq_nonneg (t.y + u.y), sq_nonneg (t.z + u.z)]
    exact pow_eq_zero_iff (two_ne_zero) |>.mp h2
  simp only [Vector3.neg]
  exact Vector3.ext (by show t.x = -u.x; linarith) (by show t.y = -u.y; linarith)
    (by show t.z = -u.z; linarith)

/-- Rotating by a unit quaternion keeps the squared length. -/
theorem Quaternion.mulVec_sqrMagnitude (q : Quaternion F) (v : Vector3 F)
    (hq : q.sqrMagnitude = 1) : (q.mulVec v).sqrMagnitude = v.sqrMagnitude := by
  simp only [Quaternion.sqrMagnitude] at hq
  simp only [Quaternion.mulVec, Vector3.add, Vector3.scalarMul, Vector3.mulScalar,
    Vector3.cross, Vector3.sqrMagnitude, Vector3.dot]
  linear_combination (4 * ((q.x * q.x + q.y * q.y + q.z * q.z) * (v.x * v.x + v.y * v.y + v.z * v.z)
    - (q.x * v.x + q.y * v.y + q.z * v.z) * (q.x * v.x + q.y * v.y + q.z * v.z))) * hq

theorem Quaternion.identity_mulVec (v : Vector3 F) :
    (Quaternion.IDENTITY : Quaternion F).mulVec v = v := by
  simp only [Quaternion.mulVec, Quaternion.IDENTITY, Vector3.add, Vector3.scalarMul,
    Vector3.mulScalar, Vector3.cross]
  ext <;> simp only [] <;> ring

/-- `Quaternion::fromToRotation` on non-zero directions: it never fails, returns
a unit quaternion, and rotates the normalised `from` onto the normalised `to`,
in each of its three branches. -/
theorem Quaternion.fromToRotation_spec (f t : Vector3 ℝ) (hf : f ≠ Vector3.ZERO)
    (ht : t ≠ Vector3.ZERO) :
    ∃ q uf ut, Quaternion.fromToRotation f t = some q ∧ f.normalized = some uf ∧
      t.normalized = some ut ∧ q.sqrMagnitude = 1 ∧ q.mulVec uf = ut := by
  have hA := Vector3.sqrMagnitude_pos_of_ne f hf
  have hB := Vector3.sqrMagnitude_pos_of_ne t ht
  have huf := Vector3.normalized_of_ne f hA.ne'
  have hut := Vector3.normalized_of_ne t hB.ne'
  have hU := Vector3.normalized_sqrMagnitude f _ huf
  have hT := Vector3.normalized_sqrMagnitude t _ hut
  generalize f.mulScalar (1 / Real.sqrt f.sqrMagnitude) = uf at huf hU
  generalize t.mulScalar (1 / Real.sqrt t.sqrMagnitude) = ut at hut hT
  by_cases h1 : Vector3.dot uf ut ≥ 1
  · have he := Vector3.eq_of_unit_dot_ge uf ut hU hT h1
    refine ⟨Quaternion.IDENTITY, uf, ut, ?_, huf, hut, ?_, ?_⟩
    · simp [Quaternion.fromToRotation, hA, hB, huf, hut, h1]
    · norm_num [Quaternion.sqrMagnitude, Quaternion.IDENTITY]
    · rw [Quaternion.identity_mulVec, he]
  · by_cases h2 : Vector3.dot uf ut ≤ -1
    · have he := Vector3.eq_neg_of_unit_dot_le uf ut hU hT h2
      obtain ⟨hax0, haxp⟩ := Vector3.antiparallel_axis uf hU
      obtain ⟨n, hn, hn1, hnp⟩ := Vector3.normalized_perp _ uf hax0 haxp
      obtain ⟨q, hq, hqa⟩ := Quaternion.angleAxis_pi_perp_quat n uf hn1 hnp
      obtain ⟨q', hq', hq1, -⟩ := Quaternion.angleAxis_of_unit Real.pi n hn1
      have hqq : q = q' := Option.some.inj (hq.symm.trans hq')
      refine ⟨q, uf, ut, ?_, huf, hut, by rw [hqq]; exact hq1, by rw [hqa, he]⟩
      simp [Quaternion.fromToRotation, hA, hB, huf, hut, h1, h2, hn, hq]
    · have hd1 : -1 < Vector3.dot uf ut := not_le.mp h2
      have hN : 0 < (Quaternion.ofScalarVector (1 + Vector3.dot uf ut)
          (Vector3.cross uf ut)).sqrMagnitude := by
        simp only [Quaternion.sqrMagnitude, Quaternion.ofScalarVector]
        nlinarith [mul_self_nonneg (Vector3.cross uf ut).x,
          mul_self_nonneg (Vector3.cross uf ut).y, mul_self_nonneg (Vector3.cross uf ut).z,
          mul_pos (by linarith : 0 < 1 + Vector3.dot uf ut)
            (by linarith : 0 < 1 + Vector3.dot uf ut)]
      obtain ⟨hn0, hn⟩ := inv_sqrt_spec _ hN
      have hmag : 0 < Real.sqrt (Quaternion.ofScalarVector (1 + Vector3.dot uf ut)
          (Vector3.cross uf ut)).sqrMagnitude := Real.sqrt_pos.mpr hN
      refine ⟨_, uf, ut, ?_, huf, hut, ?_, Quaternion.fromTo_core uf ut _ hU hT hn⟩
      · simp [Quaternion.fromToRotation, hA, hB, huf, hut, h1, h2,
          hU, hT, Quaternion.normalized, Quaternion.magnitude, hmag, hN]
      · simp only [Quaternion.sqrMagnitude] at hn ⊢
        linear_combination hn

/-- C15: for non-zero `forward` and `upwards` with
`cross(forward, upwards).sqrMagnitude() >= 1e-6`,
`Quaternion::lookRotation(forward, upwards)` succeeds and rotates
`Vector3::UP` onto `upwards.normalized()`; and when that squared magnitude is
below `1e-6` the result is exactly `Quaternion::lookRotation(forward)`. -/
theorem C15_lookRotation_up (forward upwards : Vector3 ℝ) :
    (forward ≠ Vector3.ZERO → upwards ≠ Vector3.ZERO →
      epsilon ≤ (Vector3.cross forward upwards).sqrMagnitude →
      ∃ q ut, Quaternion.lookRotation2 forward upwards = some q ∧
        upwards.normalized = some ut ∧ q.mulVec Vector3.UP = ut) ∧
    ((Vector3.cross forward upwards).sqrMagnitude < epsilon →
      Quaternion.lookRotation2 forward upwards = Quaternion.lookRotation forward) := by
  constructor
  · intro hf hu hc
    have hA := Vector3.sqrMagnitude_pos_of_ne forward hf
    have hFW : (Vector3.FORWARD : Vector3 ℝ) ≠ Vector3.ZERO := by
      simp [Vector3.FORWARD, Vector3.ZERO]
    obtain ⟨q1, -, -, hq1, -, -, hq1u, -⟩ :=
      Quaternion.fromToRotation_spec Vector3.FORWARD forward hFW hf
    have hlook : Quaternion.lookRotation forward = some q1 := by
      simp only [Quaternion.lookRotation, if_pos hA, hq1]
    have hnewUp : (q1.mulVec Vector3.UP).sqrMagnitude = 1 := by
      rw [Quaternion.mulVec_sqrMagnitude q1 _ hq1u]
      norm_num [Vector3.sqrMagnitude, Vector3.dot, Vector3.UP]
    have hnz : q1.mulVec Vector3.UP ≠ Vector3.ZERO := by
      intro h0
      rw [h0] at hnewUp
      norm_num [Vector3.sqrMagnitude, Vector3.dot, Vector3.ZERO] at hnewUp
    obtain ⟨q2, un, ut, hq2, hun, hut, hq2u, hrot⟩ :=
      Quaternion.fromToRotation_spec (q1.mulVec Vector3.UP) upwards hnz hu
    have hun2 : un = q1.mulVec Vector3.UP :=
      (Option.some.inj ((Vector3.normalized_of_unit _ hnewUp).symm.trans hun)).symm
    refine ⟨q2.mul q1, ut, ?_, hut, ?_⟩
    · simp only [Quaternion.lookRotation2, hlook, Option.bind_eq_bind, Option.some_bind,
        if_neg (not_lt.mpr hc), hq2]
    · rw [Quaternion.mul_mulVec q2 q1 _ hq2u hq1u, ← hun2, hrot]
  · intro hc
    simp only [Quaternion.lookRotation2, Option.bind_eq_bind, if_pos hc]
    cases Quaternion.lookRotation forward <;> rfl

theorem C15_lookRotation_up_witness :
    (∃ q ut, Quaternion.lookRotation2 ⟨0, 0, 1⟩ ⟨0, 1, 1⟩ = some q ∧
        Vector3.normalized ⟨0, 1, 1⟩ = some ut ∧ q.mulVec Vector3.UP = ut) ∧
    Quaternion.lookRotation2 (⟨0, 0, 1⟩ : Vector3 ℝ) ⟨0, 0, 2⟩
      = Quaternion.lookRotation ⟨0, 0, 1⟩ :=
  ⟨(C15_lookRotation_up ⟨0, 0, 1⟩ ⟨0, 1, 1⟩).1 (by simp [Vector3.ZERO])
      (by simp [Vector3.ZERO])
      (by norm_num [epsilon, Vector3.cross, Vector3.sqrMagnitude, Vector3.dot]),
   (C15_lookRotation_up ⟨0, 0, 1⟩ ⟨0, 0, 2⟩).2
      (by norm_num [epsilon, Vector3.cross, Vector3.sqrMagnitude, Vector3.dot])⟩

/-- C21: for every `Matrix2`, `Matrix3` and `Matrix4`, `transposed()` applied
twice gives back the matrix exactly, the in-place `transpose()` leaves the
object equal to what `transposed()` returns, and `transpose()` applied twice
restores the matrix exactly. -/
theorem C21_transpose (A : Matrix2 F) (B : Matrix3 F) (C : Matrix4 F) :
    (A.transposed.transposed = A ∧ A.transpose = A.transposed ∧ A.transpose.transpose = A) ∧
    (B.transposed.transposed = B ∧ B.transpose = B.transposed ∧ B.transpose.transpose = B) ∧
    (C.transposed.transposed = C ∧ C.transpose = C.transposed ∧ C.transpose.transpose = C) :=
  ⟨⟨rfl, rfl, rfl⟩, ⟨rfl, rfl, rfl⟩, ⟨rfl, rfl, rfl⟩⟩

/-- C22: `Matrix4::translation(t) * Vector4(p, 1) = Vector4(p + t, 1)` and
`Matrix4::translation(t) * Vector4(p, 0) = Vector4(p, 0)`; in particular
`translation((1, 2, 3)) * (0, 0, 0, 1) = (1, 2, 3, 1)`. -/
theorem C22_translation (t p : Vector3 F) :
    (Matrix4.translation t).mulVec (Vector4.ofVector3W p 1)
      = Vector4.ofVector3W (Vector3.add p t) 1 ∧
    (Matrix4.translation t).mulVec (Vector4.ofVector3W p 0) = Vector4.ofVector3W p 0 ∧
    (Matrix4.translation (⟨1, 2, 3⟩ : Vector3 F)).mulVec ⟨0, 0, 0, 1⟩ = ⟨1, 2, 3, 1⟩ := by
  simp only [Matrix4.translation, Matrix4.mulVec, Vector4.ofVector3W, Vector3.add]
  refine ⟨?_, ?_, ?_⟩ <;> ext <;> simp only [] <;> ring

/-- C23: for every angle `t`,
`Matrix3::angleAxis(t, UP) * FORWARD = (sin t, 0, cos t)`; for `t = π / 2` the
result is `Vector3::RIGHT`. -/
theorem C23_angleAxis_up (t : ℝ) :
    (Matrix3.angleAxis t Vector3.UP).mulVec Vector3.FORWARD = ⟨Real.sin t, 0, Real.cos t⟩ ∧
    (Matrix3.angleAxis (Real.pi / 2) Vector3.UP).mulVec Vector3.FORWARD = Vector3.RIGHT := by
  constructor
  · simp only [Matrix3.angleAxis, Matrix3.mulVec, Vector3.UP, Vector3.FORWARD]
    ext <;> simp only [] <;> ring
  · simp only [Matrix3.angleAxis, Matrix3.mulVec, Vector3.UP, Vector3.FORWARD, Vector3.RIGHT,
      Real.cos_pi_div_two, Real.sin_pi_div_two]
    ext <;> simp only [] <;> ring

/-- C24: `Color::Lerp(a, b, t)` is `a` when `t ≤ 0`, `b` when `t ≥ 1`, and
`a + (b - a) * t` channel by channel when `0 < t < 1`; in particular
`Lerp(black, white, 0.5) = (0.5, 0.5, 0.5, 1)`, `Lerp(black, white, -1) = black`
and `Lerp(black, white, 2) = white`. -/
theorem C24_lerp (a b : Color F) (t : F) :
    (t ≤ 0 → Color.Lerp a b t = a) ∧
    (1 ≤ t → Color.Lerp a b t = b) ∧
    (0 < t → t < 1 → Color.Lerp a b t
      = ⟨a.r + (b.r - a.r) * t, a.g + (b.g - a.g) * t, a.b + (b.b - a.b) * t,
         a.a + (b.a - a.a) * t⟩) ∧
    Color.Lerp (Color.black : Color F) Color.white (1 / 2) = ⟨1 / 2, 1 / 2, 1 / 2, 1⟩ ∧
    Color.Lerp (Color.black : Color F) Color.white (-1) = Color.black ∧
    Color.Lerp (Color.black : Color F) Color.white 2 = Color.white := by
  have h0 : ∀ s : F, s ≤ 0 → Color.Clamp s = 0 := by
    intro s hs
    simp only [Color.Clamp]
    split_ifs with h1 h2
    · rfl
    · exact absurd (lt_of_lt_of_le h2 hs) (by norm_num)
    · exact le_antisymm hs (not_lt.mp h1)
  have h1 : ∀ s : F, 1 ≤ s → Color.Clamp s = 1 := by
    intro s hs
    simp only [Color.Clamp]
    split_ifs with h1 h2
    · exact absurd (lt_of_le_of_lt hs h1) (by norm_num)
    · rfl
    · exact le_antisymm (not_lt.mp h2) hs
  have hm : ∀ s : F, 0 < s → s < 1 → Color.Clamp s = s := by
    intro s hs0 hs1
    simp only [Color.Clamp, if_neg (not_lt.mpr hs0.le), if_neg (not_lt.mpr hs1.le)]
  refine ⟨?_, ?_, ?_, ?_, ?_, ?_⟩
  · intro h
    simp only [Color.Lerp, h0 t h]
    ext <;> simp only [] <;> ring
  · intro h
    simp only [Color.Lerp, h1 t h]
    ext <;> simp only [] <;> ring
  · intro ht0 ht1
    simp only [Color.Lerp, hm t ht0 ht1]
  · simp only [Color.Lerp, hm (1 / 2) (by norm_num) (by norm_num), Color.black, Color.white]
    ext <;> simp only [] <;> ring
  · simp only [Color.Lerp, h0 (-1) (by norm_num), Color.black, Color.white]
    ext <;> simp only [] <;> ring
  · simp only [Color.Lerp, h1 2 (by norm_num), Color.black, Color.white]
    ext <;> simp only [] <;> ring

theorem C24_lerp_witness :
    Color.Lerp (⟨1, 0, 0, 1⟩ : Color ℚ) ⟨0, 0, 1, 0⟩ (-3) = ⟨1, 0, 0, 1⟩ ∧
    Color.Lerp (⟨1, 0, 0, 1⟩ : Color ℚ) ⟨0, 0, 1, 0⟩ 5 = ⟨0, 0, 1, 0⟩ ∧
    Color.Lerp (⟨1, 0, 0, 1⟩ : Color ℚ) ⟨0, 0, 1, 0⟩ (1 / 4)
      = ⟨1 + (0 - 1) * (1 / 4), 0 + (0 - 0) * (1 / 4), 0 + (1 - 0) * (1 / 4),
         1 + (0 - 1) * (1 / 4)⟩ :=
  ⟨(C24_lerp ⟨1, 0, 0, 1⟩ ⟨0, 0, 1, 0⟩ (-3)).1 (by norm_num),
   (C24_lerp ⟨1, 0, 0, 1⟩ ⟨0, 0, 1, 0⟩ 5).2.1 (by norm_num),
   (C24_lerp ⟨1, 0, 0, 1⟩ ⟨0, 0, 1, 0⟩ (1 / 4)).2.2.1 (by norm_num) (by norm_num)⟩

theorem Vector3.magnitude_two : Vector3.magnitude (⟨2, 0, 0⟩ : Vector3 ℝ) = 2 := by
  simp only [Vector3.magnitude, Vector3.sqrMagnitude, Vector3.dot]
  rw [show (2 * 2 + 0 * 0 + 0 * 0 : ℝ) = 2 ^ 2 by norm_num]
  exact Real.sqrt_sq (by norm_num)

/-- C25 (counterexample): with the non-unit axis `(2, 0, 0)`,
`Quaternion::angleAxis` fails on its assertion. -/
theorem C25_counterexample :
    Quaternion.angleAxis (Real.pi / 2) ⟨2, 0, 0⟩ = none := by
  simp only [Quaternion.angleAxis, Vector3.magnitude_two]
  rw [if_neg]
  norm_num [epsilon]

/-- C25 (amended): `Quaternion::angleAxis(angle, axis)` checks its axis: when
`|axis.magnitude() - 1| < 1e-6` it returns
`Quaternion(cos(angle / 2), axis * sin(angle / 2))`, and otherwise it fails. -/
theorem C25_angleAxis_checked (angle : ℝ) (axis : Vector3 ℝ) :
    (|axis.magnitude - 1| < epsilon →
      Quaternion.angleAxis angle axis
        = some ⟨Real.cos (0.5 * angle), axis.x * Real.sin (0.5 * angle),
            axis.y * Real.sin (0.5 * angle), axis.z * Real.sin (0.5 * angle)⟩) ∧
    (¬ |axis.magnitude - 1| < epsilon → Quaternion.angleAxis angle axis = none) := by
  constructor
  · intro h
    simp only [Quaternion.angleAxis, if_pos h, Quaternion.ofScalarVector, Vector3.mulScalar]
  · intro h
    simp only [Quaternion.angleAxis, if_neg h]

theorem C25_angleAxis_checked_witness :
    Quaternion.angleAxis Real.pi ⟨1, 0, 0⟩
      = some ⟨Real.cos (0.5 * Real.pi), 1 * Real.sin (0.5 * Real.pi),
          0 * Real.sin (0.5 * Real.pi), 0 * Real.sin (0.5 * Real.pi)⟩ ∧
    Quaternion.angleAxis Real.pi ⟨2, 0, 0⟩ = none :=
  ⟨(C25_angleAxis_checked Real.pi ⟨1, 0, 0⟩).1
      (by simp [Vector3.magnitude, Vector3.sqrMagnitude, Vector3.dot, epsilon]),
   (C25_angleAxis_checked Real.pi ⟨2, 0, 0⟩).2
      (by rw [Vector3.magnitude_two]; norm_num [epsilon])⟩

/-- C26 (counterexample): two values that differ in one component by exactly
`1e-6` compare equal as `Matrix2`, `Matrix3`, `Matrix4` and unequal as
`Vector2`, `Vector3`, `Vector4`, `Quaternion`. -/
theorem C26_counterexample :
    |(0 : ℚ) - epsilon| = epsilon ∧
    Matrix2.eq (⟨0, 0, 0, 0⟩ : Matrix2 ℚ) ⟨epsilon, 0, 0, 0⟩ = true ∧
    Matrix3.eq (⟨0, 0, 0, 0, 0, 0, 0, 0, 0⟩ : Matrix3 ℚ) ⟨epsilon, 0, 0, 0, 0, 0, 0, 0, 0⟩ = true ∧
    Matrix4.eq (⟨0, 0, 0, 0, 0, 0, 0, 0, 0, 0, 0, 0, 0, 0, 0, 0⟩ : Matrix4 ℚ)
      ⟨epsilon, 0, 0, 0, 0, 0, 0, 0, 0, 0, 0, 0, 0, 0, 0, 0⟩ = true ∧
    Vector2.eq (⟨0, 0⟩ : Vector2 ℚ) ⟨epsilon, 0⟩ = false ∧
    Vector3.eq (⟨0, 0, 0⟩ : Vector3 ℚ) ⟨epsilon, 0, 0⟩ = false ∧
    Vector4.eq (⟨0, 0, 0, 0⟩ : Vector4 ℚ) ⟨epsilon, 0, 0, 0⟩ = false ∧
    Quaternion.eq (⟨0, 0, 0, 0⟩ : Quaternion ℚ) ⟨epsilon, 0, 0, 0⟩ = false := by
  refine ⟨?_, ?_, ?_, ?_, ?_, ?_, ?_, ?_⟩
  · norm_num [epsilon]
  · norm_num [Matrix2.eq, epsilon, abs_of_pos]
  · norm_num [Matrix3.eq, epsilon, abs_of_pos]
  · norm_num [Matrix4.eq, epsilon, abs_of_pos]
  · norm_num [Vector2.eq, epsilon, abs_of_pos]
  · norm_num [Vector3.eq, epsilon, abs_of_pos]
  · norm_num [Vector4.eq, epsilon, abs_of_pos]
  · norm_num [Quaternion.eq, epsilon, abs_of_pos]

/-- C26 (amended): `operator==` of `Matrix2/3/4` holds if and only if every
absolute component difference is at most `1e-6`; `operator==` of
`Vector2/3/4` and `Quaternion` holds if and only if every absolute component
difference is strictly below `1e-6`; `operator!=` is the negation of
`operator==` in every type. -/
theorem C26_equality_policy (A2 B2 : Matrix2 F) (A3 B3 : Matrix3 F) (A4 B4 : Matrix4 F)
    (u2 v2 : Vector2 F) (u3 v3 : Vector3 F) (u4 v4 : Vector4 F) (p q : Quaternion F) :
    (Matrix2.eq A2 B2 = true ↔
      |A2.m0 - B2.m0| ≤ epsilon ∧ |A2.m1 - B2.m1| ≤ epsilon ∧
      |A2.m2 - B2.m2| ≤ epsilon ∧ |A2.m3 - B2.m3| ≤ epsilon) ∧
    (Matrix3.eq A3 B3 = true ↔
      |A3.m0 - B3.m0| ≤ epsilon ∧ |A3.m1 - B3.m1| ≤ epsilon ∧ |A3.m2 - B3.m2| ≤ epsilon ∧
      |A3.m3 - B3.m3| ≤ epsilon ∧ |A3.m4 - B3.m4| ≤ epsilon ∧ |A3.m5 - B3.m5| ≤ epsilon ∧
      |A3.m6 - B3.m6| ≤ epsilon ∧ |A3.m7 - B3.m7| ≤ epsilon ∧ |A3.m8 - B3.m8| ≤ epsilon) ∧
    (Matrix4.eq A4 B4 = true ↔
      |A4.m0 - B4.m0| ≤ epsilon ∧ |A4.m1 - B4.m1| ≤ epsilon ∧ |A4.m2 - B4.m2| ≤ epsilon ∧
      |A4.m3 - B4.m3| ≤ epsilon ∧ |A4.m4 - B4.m4| ≤ epsilon ∧ |A4.m5 - B4.m5| ≤ epsilon ∧
      |A4.m6 - B4.m6| ≤ epsilon ∧ |A4.m7 - B4.m7| ≤ epsilon ∧ |A4.m8 - B4.m8| ≤ epsilon ∧
      |A4.m9 - B4.m9| ≤ epsilon ∧ |A4.m10 - B4.m10| ≤ epsilon ∧ |A4.m11 - B4.m11| ≤ epsilon ∧
      |A4.m12 - B4.m12| ≤ epsilon ∧ |A4.m13 - B4.m13| ≤ epsilon ∧
      |A4.m14 - B4.m14| ≤ epsilon ∧ |A4.m15 - B4.m15| ≤ epsilon) ∧
    (Vector2.eq u2 v2 = true ↔ |u2.x - v2.x| < epsilon ∧ |u2.y - v2.y| < epsilon) ∧
    (Vector3.eq u3 v3 = true ↔
      |u3.x - v3.x| < epsilon ∧ |u3.y - v3.y| < epsilon ∧ |u3.z - v3.z| < epsilon) ∧
    (Vector4.eq u4 v4 = true ↔
      |u4.x - v4.x| < epsilon ∧ |u4.y - v4.y| < epsilon ∧ |u4.z - v4.z| < epsilon ∧
      |u4.w - v4.w| < epsilon) ∧
    (Quaternion.eq p q = true ↔
      |p.w - q.w| < epsilon ∧ |p.x - q.x| < epsilon ∧ |p.y - q.y| < epsilon ∧
      |p.z - q.z| < epsilon) ∧
    (Matrix2.ne A2 B2 = !Matrix2.eq A2 B2) ∧ (Matrix3.ne A3 B3 = !Matrix3.eq A3 B3) ∧
    (Matrix4.ne A4 B4 = !Matrix4.eq A4 B4) ∧ (Vector2.ne u2 v2 = !Vector2.eq u2 v2) ∧
    (Vector3.ne u3 v3 = !Vector3.eq u3 v3) ∧ (Vector4.ne u4 v4 = !Vector4.eq u4 v4) ∧
    (Quaternion.ne p q = !Quaternion.eq p q) := by
  refine ⟨?_, ?_, ?_, ?_, ?_, ?_, ?_, rfl, rfl, rfl, rfl, rfl, rfl, rfl⟩
  · simp only [Matrix2.eq, Bool.and_eq_true, Bool.not_eq_true', decide_eq_false_iff_not,
      gt_iff_lt, not_lt, and_assoc]
  · simp only [Matrix3.eq, Bool.and_eq_true, Bool.not_eq_true', decide_eq_false_iff_not,
      gt_iff_lt, not_lt, and_assoc]
  · simp only [Matrix4.eq, Bool.and_eq_true, Bool.not_eq_true', decide_eq_false_iff_not,
      gt_iff_lt, not_lt, and_assoc]
  · simp only [Vector2.eq, Bool.and_eq_true, decide_eq_true_eq]
  · simp only [Vector3.eq, Bool.and_eq_true, decide_eq_true_eq, and_assoc]
  · simp only [Vector4.eq, Bool.and_eq_true, decide_eq_true_eq, and_assoc]
  · simp only [Quaternion.eq, Bool.and_eq_true, decide_eq_true_eq, and_assoc]

/-- C27: for every angle `t` and unit axis `n`, `R = Matrix3::angleAxis(t, n)`
satisfies `R * R.transposed() = IDENTITY`, `R.determinant() = 1` and
`R * n = n`; for the non-unit axis `(2, 0, 0)` with `t = π / 2` the product
`R * R.transposed()` is not the identity. -/
theorem C27_angleAxis_rotation (t : ℝ) (n : Vector3 ℝ) :
    (n.sqrMagnitude = 1 →
      (Matrix3.angleAxis t n).mul (Matrix3.angleAxis t n).transposed = Matrix3.IDENTITY ∧
      (Matrix3.angleAxis t n).determinant = 1 ∧
      (Matrix3.angleAxis t n).mulVec n = n) ∧
    (Matrix3.angleAxis (Real.pi / 2) ⟨2, 0, 0⟩).mul
      (Matrix3.angleAxis (Real.pi / 2) ⟨2, 0, 0⟩).transposed ≠ Matrix3.IDENTITY := by
  constructor
  · intro hN
    have hcs := Real.sin_sq_add_cos_sq t
    simp only [Vector3.sqrMagnitude, Vector3.dot] at hN
    refine ⟨?_, ?_, ?_⟩
    · simp only [Matrix3.angleAxis, Matrix3.mul, Matrix3.transposed, Matrix3.IDENTITY]
      generalize Real.sin t = s at hcs ⊢
      generalize Real.cos t = c at hcs ⊢
      refine Matrix3.ext ?_ ?_ ?_ ?_ ?_ ?_ ?_ ?_ ?_
      · show _ = _
        linear_combination (1 - n.x * n.x) * hcs + (s ^ 2 + n.x * n.x * (1 - c) ^ 2) * hN
      · show _ = _
        linear_combination (0 - n.x * n.y) * hcs + (n.x * n.y * (1 - c) ^ 2) * hN
      · show _ = _
        linear_combination (0 - n.x * n.z) * hcs + (n.x * n.z * (1 - c) ^ 2) * hN
      · show _ = _
        linear_combination (0 - n.y * n.x) * hcs + (n.y * n.x * (1 - c) ^ 2) * hN
      · show _ = _
        linear_combination (1 - n.y * n.y) * hcs + (s ^ 2 + n.y * n.y * (1 - c) ^ 2) * hN
      · show _ = _
        linear_combination (0 - n.y * n.z) * hcs + (n.y * n.z * (1 - c) ^ 2) * hN
      · show _ = _
        linear_combination (0 - n.z * n.x) * hcs + (n.z * n.x * (1 - c) ^ 2) * hN
      · show _ = _
        linear_combination (0 - n.z * n.y) * hcs + (n.z * n.y * (1 - c) ^ 2) * hN
      · show _ = _
        linear_combination (1 - n.z * n.z) * hcs + (s ^ 2 + n.z * n.z * (1 - c) ^ 2) * hN
    · simp only [Matrix3.angleAxis, Matrix3.determinant]
      generalize Real.sin t = s at hcs ⊢
      generalize Real.cos t = c at hcs ⊢
      linear_combination
        (1 + (1 - c) * (n.x * n.x + n.y * n.y + n.z * n.z - 1)) * hcs
        + (s ^ 2 + (1 - c) * (1 + s ^ 2 * (n.x * n.x + n.y * n.y + n.z * n.z - 1))) * hN
    · simp only [Matrix3.angleAxis, Matrix3.mulVec]
      generalize Real.cos t = c
      refine Vector3.ext ?_ ?_ ?_
      · show _ = _
        linear_combination ((1 - c) * n.x) * hN
      · show _ = _
        linear_combination ((1 - c) * n.y) * hN
      · show _ = _
        linear_combination ((1 - c) * n.z) * hN
  · intro h
    have h0 := congrArg Matrix3.m0 h
    simp only [Matrix3.angleAxis, Matrix3.mul, Matrix3.transposed, Matrix3.IDENTITY,
      Real.cos_pi_div_two, Real.sin_pi_div_two] at h0
    norm_num at h0

theorem C27_angleAxis_rotation_witness :
    (Matrix3.angleAxis 1 ⟨0, 1, 0⟩).mul (Matrix3.angleAxis 1 ⟨0, 1, 0⟩).transposed
      = Matrix3.IDENTITY ∧
    (Matrix3.angleAxis 1 ⟨0, 1, 0⟩).determinant = 1 ∧
    (Matrix3.angleAxis 1 ⟨0, 1, 0⟩).mulVec ⟨0, 1, 0⟩ = ⟨0, 1, 0⟩ :=
  (C27_angleAxis_rotation 1 ⟨0, 1, 0⟩).1 (by norm_num [Vector3.sqrMagnitude, Vector3.dot])

theorem Matrix2.det_toMatrix (M : Matrix2 F) : M.toMatrix.det = M.determinant := by
  simp [Matrix2.toMatrix, Matrix.det_fin_two, Matrix2.determinant]

theorem Matrix3.det_toMatrix3 (M : Matrix3 F) : M.toMatrix.det = M.determinant := by
  simp [Matrix3.toMatrix, Matrix.det_fin_three, Matrix3.determinant]
  ring

theorem Matrix4.det_toMatrix4 (M : Matrix4 F) : M.toMatrix.det = M.determinant := by
  have e1 : Fin.succ (2 : Fin 3) = 3 := rfl
  have e2 : Fin.castSucc (2 : Fin 3) = 2 := rfl
  have e3 : ((1 : Fin 4) < 3) := by decide
  simp [Matrix4.toMatrix, Matrix.det_succ_row_zero, Fin.sum_univ_succ, Matrix.det_fin_three,
    Matrix4.determinant, Fin.succAbove, Matrix.submatrix, e1, e2, e3]
  ring

theorem Matrix2.toMatrix_mul2 (A B : Matrix2 F) :
    (A.mul B).toMatrix = A.toMatrix * B.toMatrix := by
  rw [← Matrix.ext_iff]
  simp [Fin.forall_fin_succ, Matrix2.toMatrix, Matrix2.mul, Matrix.mul_apply, Fin.sum_univ_succ]

theorem Matrix2.toMatrix_transposed2 (A : Matrix2 F) :
    A.transposed.toMatrix = A.toMatrix.transpose := by
  rw [← Matrix.ext_iff]
  simp [Fin.forall_fin_succ, Matrix2.toMatrix, Matrix2.transposed]

theorem Matrix2.determinant_transposed2 (A : Matrix2 F) :
    A.transposed.determinant = A.determinant := by
  simp only [Matrix2.transposed, Matrix2.determinant]
  ring

theorem Matrix3.toMatrix_mul3 (A B : Matrix3 F) :
    (A.mul B).toMatrix = A.toMatrix * B.toMatrix := by
  rw [← Matrix.ext_iff]
  simp [Fin.forall_fin_succ, Matrix3.toMatrix, Matrix3.mul, Matrix.mul_apply, Fin.sum_univ_succ]
  constructorm* _ ∧ _ <;> ring

theorem Matrix3.toMatrix_transposed3 (A : Matrix3 F) :
    A.transposed.toMatrix = A.toMatrix.transpose := by
  rw [← Matrix.ext_iff]
  simp [Fin.forall_fin_succ, Matrix3.toMatrix, Matrix3.transposed]

theorem Matrix3.determinant_transposed3 (A : Matrix3 F) :
    A.transposed.determinant = A.determinant := by
  simp only [Matrix3.transposed, Matrix3.determinant]
  ring

theorem Matrix4.toMatrix_mul4 (A B : Matrix4 F) :
    (A.mul B).toMatrix = A.toMatrix * B.toMatrix := by
  rw [← Matrix.ext_iff]
  simp [Fin.forall_fin_succ, Matrix4.toMatrix, Matrix4.mul, Matrix.mul_apply, Fin.sum_univ_succ]
  constructorm* _ ∧ _ <;> ring

theorem Matrix4.toMatrix_transposed4 (A : Matrix4 F) :
    A.transposed.toMatrix = A.toMatrix.transpose := by
  rw [← Matrix.ext_iff]
  simp [Fin.forall_fin_succ, Matrix4.toMatrix, Matrix4.transposed]

theorem Matrix4.determinant_transposed4 (A : Matrix4 F) :
    A.transposed.determinant = A.determinant := by
  simp only [Matrix4.transposed, Matrix4.determinant]
  ring

/-- C28: for every `Matrix2`, `Matrix3` and `Matrix4`, read as the row-major
`N x N` matrix `toMatrix`, `determinant()` is the determinant of that matrix
(Mathlib's `Matrix.det`, the Leibniz sum over permutations); `operator*` and
`transposed()` are the matrix product and transpose of that reading; and
`determinant(A * B) = determinant(A) * determinant(B)`,
`determinant(M.transposed()) = determinant(M)`. -/
theorem C28_determinant (A A' : Matrix2 F) (B B' : Matrix3 F) (C C' : Matrix4 F) :
    (A.determinant = A.toMatrix.det ∧
      (A.mul A').toMatrix = A.toMatrix * A'.toMatrix ∧
      A.transposed.toMatrix = A.toMatrix.transpose ∧
      (A.mul A').determinant = A.determinant * A'.determinant ∧
      A.transposed.determinant = A.determinant) ∧
    (B.determinant = B.toMatrix.det ∧
      (B.mul B').toMatrix = B.toMatrix * B'.toMatrix ∧
      B.transposed.toMatrix = B.toMatrix.transpose ∧
      (B.mul B').determinant = B.determinant * B'.determinant ∧
      B.transposed.determinant = B.determinant) ∧
    (C.determinant = C.toMatrix.det ∧
      (C.mul C').toMatrix = C.toMatrix * C'.toMatrix ∧
      C.transposed.toMatrix = C.toMatrix.transpose ∧
      (C.mul C').determinant = C.determinant * C'.determinant ∧
      C.transposed.determinant = C.determinant) :=
  ⟨⟨(Matrix2.det_toMatrix A).symm, Matrix2.toMatrix_mul2 A A', Matrix2.toMatrix_transposed2 A,
      Matrix2.determinant_mul2 A A', Matrix2.determinant_transposed2 A⟩,
   ⟨(Matrix3.det_toMatrix3 B).symm, Matrix3.toMatrix_mul3 B B', Matrix3.toMatrix_transposed3 B,
      Matrix3.determinant_mul3 B B', Matrix3.determinant_transposed3 B⟩,
   ⟨(Matrix4.det_toMatrix4 C).symm, Matrix4.toMatrix_mul4 C C', Matrix4.toMatrix_transposed4 C,
      Matrix4.determinant_mul4 C C', Matrix4.determinant_transposed4 C⟩⟩

/-- The argument given to `acos` by `angle`: for a non-negative squared-length
product `P` with `D² ≤ P` and `P > 0`, `min 1 (D / sqrt P)` lies in `[-1, 1]`. -/
theorem acos_arg_bounds (D P : ℝ) (hP : 0 < P) (hCS : D ^ 2 ≤ P) :
    -1 ≤ D / Real.sqrt P ∧ D / Real.sqrt P ≤ 1 := by
  have hs : 0 < Real.sqrt P := Real.sqrt_pos.mpr hP
  have habs : |D| ≤ Real.sqrt P := Real.abs_le_sqrt hCS
  obtain ⟨h1, h2⟩ := abs_le.mp habs
  constructor
  · rw [le_div_iff₀ hs]; linarith
  · rw [div_le_one hs]; exact h2

theorem acos_of_mem (x : ℝ) (h1 : -1 ≤ x) (h2 : x ≤ 1) :
    acos x = some (Real.arccos x) ∧ 0 ≤ Real.arccos x ∧ Real.arccos x ≤ Real.pi := by
  refine ⟨by simp only [acos, if_pos (And.intro h1 h2)], Real.arccos_nonneg x,
    Real.arccos_le_pi x⟩

theorem Vector2.sqrMagnitude_pos_of_ne2 (a : Vector2 ℝ) (ha : a ≠ Vector2.ZERO) :
    0 < a.sqrMagnitude := by
  have h0 : 0 ≤ a.sqrMagnitude := by
    simp only [Vector2.sqrMagnitude, Vector2.dot]
    nlinarith [mul_self_nonneg a.x, mul_self_nonneg a.y]
  refine lt_of_le_of_ne h0 (fun h => ha ?_)
  simp only [Vector2.sqrMagnitude, Vector2.dot] at h
  have hx : a.x = 0 := by nlinarith [mul_self_nonneg a.x, mul_self_nonneg a.y]
  have hy : a.y = 0 := by nlinarith [mul_self_nonneg a.x, mul_self_nonneg a.y]
  exact Vector2.ext hx hy

theorem Vector2.angle_spec (f t : Vector2 ℝ) (hf : f ≠ Vector2.ZERO) (ht : t ≠ Vector2.ZERO) :
    -1 ≤ min 1 (Vector2.dot f t / Real.sqrt (f.sqrMagnitude * t.sqrMagnitude)) ∧
    min 1 (Vector2.dot f t / Real.sqrt (f.sqrMagnitude * t.sqrMagnitude)) ≤ 1 ∧
    ∃ θ, Vector2.angle f t = some θ ∧ 0 ≤ θ ∧ θ ≤ Real.pi := by
  have hP := mul_pos (Vector2.sqrMagnitude_pos_of_ne2 f hf) (Vector2.sqrMagnitude_pos_of_ne2 t ht)
  have hCS : Vector2.dot f t ^ 2 ≤ f.sqrMagnitude * t.sqrMagnitude := by
    simp only [Vector2.sqrMagnitude, Vector2.dot]
    nlinarith [sq_nonneg (f.x * t.y - f.y * t.x)]
  obtain ⟨h1, h2⟩ := acos_arg_bounds _ _ hP hCS
  have hmin := min_eq_right h2
  obtain ⟨e1, e2, e3⟩ := acos_of_mem _ h1 h2
  refine ⟨by rw [hmin]; exact h1, by rw [hmin]; exact h2, _, ?_, e2, e3⟩
  simp only [Vector2.angle, if_pos (Real.sqrt_pos.mpr hP).ne', hmin, e1]

theorem Vector3.angle_spec3 (f t : Vector3 ℝ) (hf : f ≠ Vector3.ZERO) (ht : t ≠ Vector3.ZERO) :
    -1 ≤ min 1 (Vector3.dot f t / Real.sqrt (f.sqrMagnitude * t.sqrMagnitude)) ∧
    min 1 (Vector3.dot f t / Real.sqrt (f.sqrMagnitude * t.sqrMagnitude)) ≤ 1 ∧
    ∃ θ, Vector3.angle f t = some θ ∧ 0 ≤ θ ∧ θ ≤ Real.pi := by
  have hP := mul_pos (Vector3.sqrMagnitude_pos_of_ne f hf) (Vector3.sqrMagnitude_pos_of_ne t ht)
  have hCS : Vector3.dot f t ^ 2 ≤ f.sqrMagnitude * t.sqrMagnitude := by
    have h := Vector3.sqrMagnitude_nonneg (Vector3.cross f t)
    rw [Vector3.cross_sqrMagnitude] at h
    nlinarith
  obtain ⟨h1, h2⟩ := acos_arg_bounds _ _ hP hCS
  have hmin := min_eq_right h2
  obtain ⟨e1, e2, e3⟩ := acos_of_mem _ h1 h2
  refine ⟨by rw [hmin]; exact h1, by rw [hmin]; exact h2, _, ?_, e2, e3⟩
  simp only [Vector3.angle, if_pos (Real.sqrt_pos.mpr hP).ne', hmin, e1]

/-- The cosine computed by `angle` for `to = from * k`: `1` for `k > 0`, `-1` for
`k < 0`, where `A > 0` is the squared length of `from`. -/
theorem angle_cos_scaled (A k : ℝ) (hA : 0 < A) (hk : k ≠ 0) :
    A * k / Real.sqrt (A * (A * (k * k))) = if 0 < k then 1 else -1 := by
  have h1 : A * (A * (k * k)) = (A * |k|) ^ 2 := by
    rw [mul_pow, sq_abs]; ring
  have h2 : 0 < A * |k| := mul_pos hA (abs_pos.mpr hk)
  rw [h1, Real.sqrt_sq h2.le]
  split_ifs with h
  · rw [abs_of_pos h]; exact div_self (mul_pos hA h).ne'
  · have hneg : k < 0 := lt_of_le_of_ne (not_lt.mp h) hk
    rw [abs_of_neg hneg]
    field_simp

theorem Vector2.angle_scaled2 (f : Vector2 ℝ) (hf : f ≠ Vector2.ZERO) (k : ℝ) :
    (0 < k → Vector2.angle f (f.mulScalar k) = some 0) ∧
    (k < 0 → Vector2.angle f (f.mulScalar k) = some Real.pi) := by
  have hA := Vector2.sqrMagnitude_pos_of_ne2 f hf
  have hd : Vector2.dot f (f.mulScalar k) = f.sqrMagnitude * k := by
    simp only [Vector2.sqrMagnitude, Vector2.dot, Vector2.mulScalar]; ring
  have hB : (f.mulScalar k).sqrMagnitude = f.sqrMagnitude * (k * k) := by
    simp only [Vector2.sqrMagnitude, Vector2.dot, Vector2.mulScalar]; ring
  constructor
  · intro hk
    have hc := angle_cos_scaled f.sqrMagnitude k hA hk.ne'
    rw [if_pos hk] at hc
    have hlen : Real.sqrt (f.sqrMagnitude * (f.sqrMagnitude * (k * k))) ≠ 0 :=
      (Real.sqrt_pos.mpr (mul_pos hA (mul_pos hA (mul_pos hk hk)))).ne'
    simp only [Vector2.angle, hd, hB, if_pos hlen, hc, min_self, acos]
    rw [if_pos (by norm_num), Real.arccos_one]
  · intro hk
    have hc := angle_cos_scaled f.sqrMagnitude k hA hk.ne
    rw [if_neg (not_lt.mpr hk.le)] at hc
    have hlen : Real.sqrt (f.sqrMagnitude * (f.sqrMagnitude * (k * k))) ≠ 0 :=
      (Real.sqrt_pos.mpr (mul_pos hA (mul_pos hA (mul_pos_of_neg_of_neg hk hk)))).ne'
    simp only [Vector2.angle, hd, hB, if_pos hlen, hc, acos]
    rw [min_eq_right (by norm_num), if_pos (by norm_num), Real.arccos_neg_one]

theorem Vector3.angle_scaled3 (f : Vector3 ℝ) (hf : f ≠ Vector3.ZERO) (k : ℝ) :
    (0 < k → Vector3.angle f (f.mulScalar k) = some 0) ∧
    (k < 0 → Vector3.angle f (f.mulScalar k) = some Real.pi) := by
  have hA := Vector3.sqrMagnitude_pos_of_ne f hf
  have hd : Vector3.dot f (f.mulScalar k) = f.sqrMagnitude * k := by
    simp only [Vector3.sqrMagnitude, Vector3.dot, Vector3.mulScalar]; ring
  have hB : (f.mulScalar k).sqrMagnitude = f.sqrMagnitude * (k * k) := by
    simp only [Vector3.sqrMagnitude, Vector3.dot, Vector3.mulScalar]; ring
  constructor
  · intro hk
    have hc := angle_cos_scaled f.sqrMagnitude k hA hk.ne'
    rw [if_pos hk] at hc
    have hlen : Real.sqrt (f.sqrMagnitude * (f.sqrMagnitude * (k * k))) ≠ 0 :=
      (Real.sqrt_pos.mpr (mul_pos hA (mul_pos hA (mul_pos hk hk)))).ne'
    simp only [Vector3.angle, hd, hB, if_pos hlen, hc, min_self, acos]
    rw [if_pos (by norm_num), Real.arccos_one]
  · intro hk
    have hc := angle_cos_scaled f.sqrMagnitude k hA hk.ne
    rw [if_neg (not_lt.mpr hk.le)] at hc
    have hlen : Real.sqrt (f.sqrMagnitude * (f.sqrMagnitude * (k * k))) ≠ 0 :=
      (Real.sqrt_pos.mpr (mul_pos hA (mul_pos hA (mul_pos_of_neg_of_neg hk hk)))).ne'
    simp only [Vector3.angle, hd, hB, if_pos hlen, hc, acos]
    rw [min_eq_right (by norm_num), if_pos (by norm_num), Real.arccos_neg_one]

theorem Quaternion.relative_w (p q : Quaternion ℝ) (hp : p.sqrMagnitude = 1)
    (hq : q.sqrMagnitude = 1) :
    (p.conjugate.mul q).w = Quaternion.dot p q ∧ |(p.conjugate.mul q).w| ≤ 1 := by
  have hw : (p.conjugate.mul q).w = Quaternion.dot p q := by
    simp only [Quaternion.mul, Quaternion.conjugate, Quaternion.dot]; ring
  refine ⟨hw, ?_⟩
  rw [hw, abs_le]
  simp only [Quaternion.sqrMagnitude, Quaternion.dot] at hp hq ⊢
  constructor
  · nlinarith [sq_nonneg (p.w + q.w), sq_nonneg (p.x + q.x), sq_nonneg (p.y + q.y),
      sq_nonneg (p.z + q.z)]
  · nlinarith [sq_nonneg (p.w - q.w), sq_nonneg (p.x - q.x), sq_nonneg (p.y - q.y),
      sq_nonneg (p.z - q.z)]

/-- C30: for non-zero `Vector2`/`Vector3` `from` and `to`, the value
`min(1, dot(from, to) / sqrt(|from|² |to|²))` given to `acos` by `angle` lies in
`[-1, 1]` and the angle lies in `[0, π]`; it is `0` for `to = from * k` with
`k > 0` and `π` with `k < 0`.  For unit quaternions the `w` component of
`from.conjugate() * to` is `dot(from, to)`, has `|w| ≤ 1`, and
`angle(from, to)` succeeds. -/
theorem C30_acos_domain (f2 t2 : Vector2 ℝ) (f3 t3 : Vector3 ℝ) (p q : Quaternion ℝ) (k : ℝ) :
    (f2 ≠ Vector2.ZERO → t2 ≠ Vector2.ZERO →
      -1 ≤ min 1 (Vector2.dot f2 t2 / Real.sqrt (f2.sqrMagnitude * t2.sqrMagnitude)) ∧
      min 1 (Vector2.dot f2 t2 / Real.sqrt (f2.sqrMagnitude * t2.sqrMagnitude)) ≤ 1 ∧
      ∃ θ, Vector2.angle f2 t2 = some θ ∧ 0 ≤ θ ∧ θ ≤ Real.pi) ∧
    (f2 ≠ Vector2.ZERO →
      (0 < k → Vector2.angle f2 (f2.mulScalar k) = some 0) ∧
      (k < 0 → Vector2.angle f2 (f2.mulScalar k) = some Real.pi)) ∧
    (f3 ≠ Vector3.ZERO → t3 ≠ Vector3.ZERO →
      -1 ≤ min 1 (Vector3.dot f3 t3 / Real.sqrt (f3.sqrMagnitude * t3.sqrMagnitude)) ∧
      min 1 (Vector3.dot f3 t3 / Real.sqrt (f3.sqrMagnitude * t3.sqrMagnitude)) ≤ 1 ∧
      ∃ θ, Vector3.angle f3 t3 = some θ ∧ 0 ≤ θ ∧ θ ≤ Real.pi) ∧
    (f3 ≠ Vector3.ZERO →
      (0 < k → Vector3.angle f3 (f3.mulScalar k) = some 0) ∧
      (k < 0 → Vector3.angle f3 (f3.mulScalar k) = some Real.pi)) ∧
    (p.sqrMagnitude = 1 → q.sqrMagnitude = 1 →
      (p.conjugate.mul q).w = Quaternion.dot p q ∧ |(p.conjugate.mul q).w| ≤ 1 ∧
      Quaternion.angle p q = some (2 * Real.arccos (p.conjugate.mul q).w)) := by
  refine ⟨Vector2.angle_spec f2 t2, fun h => Vector2.angle_scaled2 f2 h k,
    Vector3.angle_spec3 f3 t3, fun h => Vector3.angle_scaled3 f3 h k, ?_⟩
  intro hp hq
  obtain ⟨hw, habs⟩ := Quaternion.relative_w p q hp hq
  refine ⟨hw, habs, ?_⟩
  obtain ⟨e1, -, -⟩ := acos_of_mem _ (abs_le.mp habs).1 (abs_le.mp habs).2
  simp only [Quaternion.angle, if_pos habs, e1, Option.bind_eq_bind, Option.some_bind]

theorem C30_acos_domain_witness :
    (∃ θ, Vector3.angle ⟨1, 0, 0⟩ ⟨0, 1, 0⟩ = some θ ∧ 0 ≤ θ ∧ θ ≤ Real.pi) ∧
    Vector3.angle ⟨1, 0, 0⟩ (Vector3.mulScalar ⟨1, 0, 0⟩ 2) = some 0 ∧
    Vector3.angle ⟨1, 0, 0⟩ (Vector3.mulScalar ⟨1, 0, 0⟩ (-2)) = some Real.pi ∧
    |((⟨1, 0, 0, 0⟩ : Quaternion ℝ).conjugate.mul ⟨0, 1, 0, 0⟩).w| ≤ 1 :=
  have h := C30_acos_domain ⟨1, 0⟩ ⟨0, 1⟩ ⟨1, 0, 0⟩ ⟨0, 1, 0⟩ ⟨1, 0, 0, 0⟩ ⟨0, 1, 0, 0⟩
  have hne : (⟨1, 0, 0⟩ : Vector3 ℝ) ≠ Vector3.ZERO := by simp [Vector3.ZERO]
  ⟨((h 2).2.2.1 hne (by simp [Vector3.ZERO])).2.2,
   ((h 2).2.2.2.1 hne).1 (by norm_num),
   ((h (-2)).2.2.2.1 hne).2 (by norm_num),
   ((h 2).2.2.2.2 (by norm_num [Quaternion.sqrMagnitude])
      (by norm_num [Quaternion.sqrMagnitude])).2.1⟩

theorem Quaternion.mulVec_add (q : Quaternion F) (v w : Vector3 F) :
    q.mulVec (Vector3.add v w) = Vector3.add (q.mulVec v) (q.mulVec w) := by
  simp only [Quaternion.mulVec, Vector3.add, Vector3.scalarMul, Vector3.mulScalar,
    Vector3.cross]
  ext <;> simp only [] <;> ring

/-- Rotating by a unit quaternion keeps dot products. -/
theorem Quaternion.mulVec_dot (q : Quaternion F) (v w : Vector3 F)
    (hq : q.sqrMagnitude = 1) :
    Vector3.dot (q.mulVec v) (q.mulVec w) = Vector3.dot v w := by
  have h1 := Quaternion.mulVec_sqrMagnitude q (Vector3.add v w) hq
  have h2 := Quaternion.mulVec_sqrMagnitude q v hq
  have h3 := Quaternion.mulVec_sqrMagnitude q w hq
  rw [Quaternion.mulVec_add] at h1
  simp only [Vector3.sqrMagnitude, Vector3.dot, Vector3.add] at h1 h2 h3 ⊢
  linear_combination (1 / 2 : F) * h1 - (1 / 2 : F) * h2 - (1 / 2 : F) * h3

/-- `Quaternion::lookRotation(forward, upwards)` past its collinearity test: it
succeeds with a unit quaternion that rotates `UP` onto `upwards.normalized()`. -/
theorem Quaternion.lookRotation2_spec (forward upwards : Vector3 ℝ)
    (hf : forward ≠ Vector3.ZERO) (hu : upwards ≠ Vector3.ZERO)
    (hc : epsilon ≤ (Vector3.cross forward upwards).sqrMagnitude) :
    ∃ q ut, Quaternion.lookRotation2 forward upwards = some q ∧
      upwards.normalized = some ut ∧ q.sqrMagnitude = 1 ∧ q.mulVec Vector3.UP = ut := by
  have hA := Vector3.sqrMagnitude_pos_of_ne forward hf
  have hFW : (Vector3.FORWARD : Vector3 ℝ) ≠ Vector3.ZERO := by
    simp [Vector3.FORWARD, Vector3.ZERO]
  obtain ⟨q1, -, -, hq1, -, -, hq1u, -⟩ :=
    Quaternion.fromToRotation_spec Vector3.FORWARD forward hFW hf
  have hlook : Quaternion.lookRotation forward = some q1 := by
    simp only [Quaternion.lookRotation, if_pos hA, hq1]
  have hnewUp : (q1.mulVec Vector3.UP).sqrMagnitude = 1 := by
    rw [Quaternion.mulVec_sqrMagnitude q1 _ hq1u]
    norm_num [Vector3.sqrMagnitude, Vector3.dot, Vector3.UP]
  have hnz : q1.mulVec Vector3.UP ≠ Vector3.ZERO := by
    intro h0
    rw [h0] at hnewUp
    norm_num [Vector3.sqrMagnitude, Vector3.dot, Vector3.ZERO] at hnewUp
  obtain ⟨q2, un, ut, hq2, hun, hut, hq2u, hrot⟩ :=
    Quaternion.fromToRotation_spec (q1.mulVec Vector3.UP) upwards hnz hu
  have hun2 : un = q1.mulVec Vector3.UP :=
    (Option.some.inj ((Vector3.normalized_of_unit _ hnewUp).symm.trans hun)).symm
  refine ⟨q2.mul q1, ut, ?_, hut, ?_, ?_⟩
  · simp only [Quaternion.lookRotation2, hlook, Option.bind_eq_bind, Option.some_bind,
      if_neg (not_lt.mpr hc), hq2]
  · simp only [Quaternion.sqrMagnitude, Quaternion.mul] at hq1u hq2u ⊢
    linear_combination (q1.w * q1.w + q1.x * q1.x + q1.y * q1.y + q1.z * q1.z) * hq2u + hq1u
  · rw [Quaternion.mul_mulVec q2 q1 _ hq2u hq1u, ← hun2, hrot]

/-- C29 (the code at a failing input): for `forward = (0, 0, 1)` (already of
unit length) and `upwards = (0, 1, 1)`, `Quaternion::lookRotation(forward,
upwards)` succeeds but does not rotate `Vector3::FORWARD` onto
`forward.normalized()`. -/
theorem C29_lookRotation2_failing_input :
    Vector3.normalized (⟨0, 0, 1⟩ : Vector3 ℝ) = some ⟨0, 0, 1⟩ ∧
    ∃ q, Quaternion.lookRotation2 ⟨0, 0, 1⟩ ⟨0, 1, 1⟩ = some q ∧
      q.mulVec Vector3.FORWARD ≠ ⟨0, 0, 1⟩ := by
  refine ⟨Vector3.normalized_of_unit _ (by norm_num [Vector3.sqrMagnitude, Vector3.dot]), ?_⟩
  obtain ⟨q, ut, hq, hut, hunit, hup⟩ := Quaternion.lookRotation2_spec ⟨0, 0, 1⟩ ⟨0, 1, 1⟩
    (by simp [Vector3.ZERO]) (by simp [Vector3.ZERO])
    (by norm_num [epsilon, Vector3.cross, Vector3.sqrMagnitude, Vector3.dot])
  refine ⟨q, hq, ?_⟩
  intro hfw
  have hdot := Quaternion.mulVec_dot q Vector3.FORWARD Vector3.UP hunit
  rw [hfw, hup] at hdot
  obtain ⟨hB, hk⟩ := Vector3.normalized_eq_some _ _ hut
  obtain ⟨hk0, -⟩ := inv_sqrt_spec _ hB
  rw [hk] at hdot
  simp only [Vector3.dot, Vector3.mulScalar, Vector3.FORWARD, Vector3.UP] at hdot
  norm_num at hdot
  exact (Real.sqrt_pos.mpr hB).ne' hdot

/-- C31: `Matrix4(const Quaternion&)` evaluated at `Quaternion::IDENTITY`.  The
initialiser list has twelve entries, so `m[11] = 1` and the fourth row
`m[12..15]` is zero for every quaternion: the result is not `Matrix4::IDENTITY`,
and `Matrix4(Quaternion::angleAxis(t, n))` is never `Matrix4::angleAxis(t, n)`. -/
theorem C31_ofQuaternion_failing_input :
    Matrix4.ofQuaternion (Quaternion.IDENTITY : Quaternion ℚ)
      = ⟨1, 0, 0, 0,
         0, 1, 0, 0,
         0, 0, 1, 1,
         0, 0, 0, 0⟩ ∧
    Matrix4.ofQuaternion (Quaternion.IDENTITY : Quaternion ℚ) ≠ Matrix4.IDENTITY ∧
    (∀ q : Quaternion ℚ, (Matrix4.ofQuaternion q).m11 = 1 ∧ (Matrix4.ofQuaternion q).m12 = 0 ∧
      (Matrix4.ofQuaternion q).m13 = 0 ∧ (Matrix4.ofQuaternion q).m14 = 0 ∧
      (Matrix4.ofQuaternion q).m15 = 0) ∧
    (∀ (t : ℝ) (n : Vector3 ℝ) (q : Quaternion ℝ),
      Matrix4.ofQuaternion q ≠ Matrix4.angleAxis t n) := by
  have h : Matrix4.ofQuaternion (Quaternion.IDENTITY : Quaternion ℚ)
      = ⟨1, 0, 0, 0, 0, 1, 0, 0, 0, 0, 1, 1, 0, 0, 0, 0⟩ := by
    simp only [Matrix4.ofQuaternion, Quaternion.IDENTITY]
    ext <;> simp only [] <;> norm_num
  refine ⟨h, ?_, fun q => ⟨rfl, rfl, rfl, rfl, rfl⟩, ?_⟩
  · intro h2
    have h3 := congrArg Matrix4.m15 h2
    rw [h] at h3
    simp only [Matrix4.IDENTITY] at h3
    exact zero_ne_one h3
  · intro t n q h2
    have h3 := congrArg Matrix4.m15 h2
    simp only [Matrix4.ofQuaternion, Matrix4.angleAxis] at h3
    exact zero_ne_one h3

/-- The squared magnitude is multiplicative over the Hamilton product. -/
theorem Quaternion.mul_sqrMagnitude (p q : Quaternion F) :
    (p.mul q).sqrMagnitude = p.sqrMagnitude * q.sqrMagnitude := by
  simp only [Quaternion.mul, Quaternion.sqrMagnitude]
  ring

/-- Whenever `rotateTowards` returns on unit operands, the result is a unit
quaternion: it is either the target or `delta * this` with `delta` unit. -/
theorem Quaternion.rotateTowards_unit (q p : Quaternion ℝ) (d : ℝ) (r : Quaternion ℝ)
    (hq : q.sqrMagnitude = 1) (hp : p.sqrMagnitude = 1)
    (h : Quaternion.rotateTowards q p d = some r) : r.sqrMagnitude = 1 := by
  obtain ⟨-, hw⟩ := Quaternion.relative_w q p hq hp
  obtain ⟨hac, -, -⟩ := acos_of_mem _ (abs_le.mp hw).1 (abs_le.mp hw).2
  simp only [Quaternion.rotateTowards, if_pos hw, hac, Option.bind_eq_bind, Option.some_bind,
    Option.pure_def] at h
  split_ifs at h with hgt
  · cases hn : Vector3.normalized
      ⟨(q.conjugate.mul p).x, (q.conjugate.mul p).y, (q.conjugate.mul p).z⟩ with
    | none => rw [hn] at h; simp at h
    | some n =>
      rw [hn] at h
      obtain ⟨dl, hdl, hdl1, -⟩ :=
        Quaternion.angleAxis_of_unit d n (Vector3.normalized_sqrMagnitude _ _ hn)
      simp only [Option.some_bind, hdl, Option.some.injEq] at h
      rw [← h, Quaternion.mul_sqrMagnitude, hdl1, hq, mul_one]
  · simp only [Option.some.injEq] at h
    rw [← h]; exact hp

/-- C35: unit norm is an invariant of the quaternion rotation API.
`Quaternion::IDENTITY`, `angleAxis(t, n)` for unit `n`, `euler(e)`,
`fromToRotation(from, to)`, `lookRotation(forward)` and
`lookRotation(forward, upwards)` for non-zero arguments all succeed with
`sqrMagnitude() = 1`; and for unit `p`, `q` the product `p * q`, `q.conjugate()`,
`q.inverse()` and the value of `q` after a returning `q.rotateTowards(p, d)`
have `sqrMagnitude() = 1`. -/
theorem C35_unit_norm (p q : Quaternion ℝ) (hp : p.sqrMagnitude = 1) (hq : q.sqrMagnitude = 1) :
    (Quaternion.IDENTITY : Quaternion ℝ).sqrMagnitude = 1 ∧
    (∀ (t : ℝ) (n : Vector3 ℝ), n.sqrMagnitude = 1 →
      ∃ r, Quaternion.angleAxis t n = some r ∧ r.sqrMagnitude = 1) ∧
    (∀ e : Vector3 ℝ, (Quaternion.euler e).sqrMagnitude = 1) ∧
    (∀ f t : Vector3 ℝ, f ≠ Vector3.ZERO → t ≠ Vector3.ZERO →
      ∃ r, Quaternion.fromToRotation f t = some r ∧ r.sqrMagnitude = 1) ∧
    (∀ f : Vector3 ℝ, f ≠ Vector3.ZERO →
      ∃ r, Quaternion.lookRotation f = some r ∧ r.sqrMagnitude = 1) ∧
    (∀ f u : Vector3 ℝ, f ≠ Vector3.ZERO → u ≠ Vector3.ZERO →
      ∃ r, Quaternion.lookRotation2 f u = some r ∧ r.sqrMagnitude = 1) ∧
    (p.mul q).sqrMagnitude = 1 ∧
    q.conjugate.sqrMagnitude = 1 ∧
    (∃ r, q.inverse = some r ∧ r.sqrMagnitude = 1) ∧
    (∀ (d : ℝ) (r : Quaternion ℝ), Quaternion.rotateTowards q p d = some r →
      r.sqrMagnitude = 1) := by
  have hfwd : (Vector3.FORWARD : Vector3 ℝ) ≠ Vector3.ZERO := by
    intro h
    have := congrArg Vector3.z h
    simp [Vector3.FORWARD, Vector3.ZERO] at this
  have hlook : ∀ f : Vector3 ℝ, f ≠ Vector3.ZERO →
      ∃ r, Quaternion.lookRotation f = some r ∧ r.sqrMagnitude = 1 := by
    intro f hf
    obtain ⟨r, -, -, hr, -, -, hr1, -⟩ := Quaternion.fromToRotation_spec _ f hfwd hf
    exact ⟨r, by simp only [Quaternion.lookRotation,
      if_pos (Vector3.sqrMagnitude_pos_of_ne f hf), hr], hr1⟩
  refine ⟨by simp [Quaternion.IDENTITY, Quaternion.sqrMagnitude], ?_, ?_, ?_, hlook, ?_,
    by rw [Quaternion.mul_sqrMagnitude, hp, hq, mul_one], ?_, ?_, ?_⟩
  · intro t n hn
    obtain ⟨r, hr, hr1, -⟩ := Quaternion.angleAxis_of_unit t n hn
    exact ⟨r, hr, hr1⟩
  · intro e
    have h1 := Real.sin_sq_add_cos_sq (0.5 * e.x)
    have h2 := Real.sin_sq_add_cos_sq (0.5 * e.y)
    have h3 := Real.sin_sq_add_cos_sq (0.5 * e.z)
    simp only [Quaternion.euler, Quaternion.sqrMagnitude]
    linear_combination
      ((Real.sin (0.5 * e.y) ^ 2 + Real.cos (0.5 * e.y) ^ 2)
        * (Real.sin (0.5 * e.z) ^ 2 + Real.cos (0.5 * e.z) ^ 2)) * h1
      + (Real.sin (0.5 * e.z) ^ 2 + Real.cos (0.5 * e.z) ^ 2) * h2 + h3
  · intro f t hf ht
    obtain ⟨r, -, -, hr, -, -, hr1, -⟩ := Quaternion.fromToRotation_spec f t hf ht
    exact ⟨r, hr, hr1⟩
  · intro f u hf hu
    by_cases hc : (Vector3.cross f u).sqrMagnitude < epsilon
    · obtain ⟨r, hr, hr1⟩ := hlook f hf
      exact ⟨r, by simp [Quaternion.lookRotation2, hr, hc], hr1⟩
    · obtain ⟨r, -, hr, -, hr1, -⟩ := Quaternion.lookRotation2_spec f u hf hu (not_lt.mp hc)
      exact ⟨r, hr, hr1⟩
  · simp only [Quaternion.conjugate, Quaternion.sqrMagnitude] at hq ⊢
    linear_combination hq
  · refine ⟨_, by simp only [Quaternion.inverse, hq]; rw [if_pos one_pos], ?_⟩
    simp only [Quaternion.sqrMagnitude] at hq ⊢
    simp only [div_one, mul_one]
    linear_combination hq
  · intro d r h
    exact Quaternion.rotateTowards_unit q p d r hq hp h

/-- The invariant at `p = IDENTITY`, `q = (0, 1, 0, 0)`. -/
theorem C35_unit_norm_witness :
    (Quaternion.IDENTITY : Quaternion ℝ).sqrMagnitude = 1 ∧
    ((Quaternion.IDENTITY : Quaternion ℝ).mul ⟨0, 1, 0, 0⟩).sqrMagnitude = 1 ∧
    (⟨0, 1, 0, 0⟩ : Quaternion ℝ).conjugate.sqrMagnitude = 1 :=
  match C35_unit_norm Quaternion.IDENTITY ⟨0, 1, 0, 0⟩
    (by norm_num [Quaternion.IDENTITY, Quaternion.sqrMagnitude])
    (by norm_num [Quaternion.sqrMagnitude]) with
  | ⟨h1, _, _, _, _, _, h7, h8, _, _⟩ => ⟨h1, h7, h8⟩

/-- C33: `rotateTowards` evaluated at `this = IDENTITY`, `target = (-1, 0, 0, 0)`,
`maxRadiansDelta = 1`.  For every unit `q` and `d < 2π` the call
`q.rotateTowards(-q, d)` takes the step branch with the zero vector as axis, and
the assertion of `Vector3::normalized` fails. -/
theorem C33_rotateTowards_failing_input :
    (Quaternion.IDENTITY : Quaternion ℝ).sqrMagnitude = 1 ∧
    (⟨-1, 0, 0, 0⟩ : Quaternion ℝ).sqrMagnitude = 1 ∧
    (0 : ℝ) ≤ 1 ∧
    Quaternion.rotateTowards Quaternion.IDENTITY ⟨-1, 0, 0, 0⟩ 1 = none ∧
    ∀ (q : Quaternion ℝ) (d : ℝ), q.sqrMagnitude = 1 → d < 2 * Real.pi →
      Quaternion.rotateTowards q ⟨-q.w, -q.x, -q.y, -q.z⟩ d = none := by
  have gen : ∀ (q : Quaternion ℝ) (d : ℝ), q.sqrMagnitude = 1 → d < 2 * Real.pi →
      Quaternion.rotateTowards q ⟨-q.w, -q.x, -q.y, -q.z⟩ d = none := by
    intro q d hq hd
    have hr : q.conjugate.mul ⟨-q.w, -q.x, -q.y, -q.z⟩ = ⟨-1, 0, 0, 0⟩ := by
      simp only [Quaternion.sqrMagnitude] at hq
      simp only [Quaternion.conjugate, Quaternion.mul]
      ext
      · show _ = _
        linear_combination -hq
      · show _ = _
        ring
      · show _ = _
        ring
      · show _ = _
        ring
    have hac : acos (-1) = some Real.pi := by
      have := (acos_of_mem (-1) le_rfl (by norm_num)).1
      rwa [Real.arccos_neg_one] at this
    have hz : Vector3.normalized (⟨0, 0, 0⟩ : Vector3 ℝ) = none := by
      simp [Vector3.normalized, Vector3.sqrMagnitude, Vector3.dot]
    simp only [Quaternion.rotateTowards, hr, hac, Option.bind_eq_bind, Option.some_bind,
      Option.pure_def]
    rw [if_pos (by norm_num), if_pos hd, hz]
    rfl
  refine ⟨by norm_num [Quaternion.IDENTITY, Quaternion.sqrMagnitude],
    by norm_num [Quaternion.sqrMagnitude], zero_le_one, ?_, gen⟩
  have h := gen Quaternion.IDENTITY 1
    (by norm_num [Quaternion.IDENTITY, Quaternion.sqrMagnitude])
    (by linarith [Real.pi_gt_three])
  simpa [Quaternion.IDENTITY] using h

/-- In the general branch (`-1 < d < 1` for the unit vectors) the cross product
of the raw directions is not zero. -/
theorem Vector3.cross_pos_of_general (f t uf ut : Vector3 ℝ)
    (huf : f.normalized = some uf) (hut : t.normalized = some ut)
    (hd1 : -1 < Vector3.dot uf ut) (hd2 : Vector3.dot uf ut < 1) :
    0 < (Vector3.cross f t).sqrMagnitude := by
  obtain ⟨hA, hu⟩ := Vector3.normalized_eq_some f uf huf
  obtain ⟨hB, hv⟩ := Vector3.normalized_eq_some t ut hut
  obtain ⟨hk0, hk⟩ := inv_sqrt_spec _ hA
  obtain ⟨hl0, hl⟩ := inv_sqrt_spec _ hB
  have hd : Vector3.dot uf ut
      = Vector3.dot f t * (1 / Real.sqrt f.sqrMagnitude) * (1 / Real.sqrt t.sqrMagnitude) := by
    rw [hu, hv]; simp only [Vector3.dot, Vector3.mulScalar]; ring
  have hLag : (1 / Real.sqrt f.sqrMagnitude) * (1 / Real.sqrt f.sqrMagnitude)
      * ((1 / Real.sqrt t.sqrMagnitude) * (1 / Real.sqrt t.sqrMagnitude))
      * (Vector3.cross f t).sqrMagnitude = 1 - Vector3.dot uf ut ^ 2 := by
    rw [Vector3.cross_sqrMagnitude, hd]
    linear_combination ((1 / Real.sqrt t.sqrMagnitude) * (1 / Real.sqrt t.sqrMagnitude)
      * t.sqrMagnitude) * hk + hl
  have hpos : 0 < 1 - Vector3.dot uf ut ^ 2 := by nlinarith
  rcases (Vector3.sqrMagnitude_nonneg (Vector3.cross f t)).lt_or_eq with h | h
  · exact h
  · rw [← h, mul_zero] at hLag
    linarith

/-- C34: for all non-zero `from` and `to`, `Matrix3::fromToRotation`,
`Matrix4::fromToRotation` and `Quaternion::fromToRotation` all return.  With
`uf`, `ut` the normalised arguments: when `cross(uf, RIGHT).sqrMagnitude()` is
below `1e-6` the fallback `cross(uf, UP)` is not zero; and when
`-1 < dot(uf, ut) < 1`, `cross(from, to)` is not zero and the quaternion
`(sqrt(|uf|² |ut|²) + d, cross(uf, ut))` has positive magnitude. -/
theorem C34_fromTo_total (f t : Vector3 ℝ) (hf : f ≠ Vector3.ZERO) (ht : t ≠ Vector3.ZERO) :
    ∃ uf ut, f.normalized = some uf ∧ t.normalized = some ut ∧
      (∃ R, Matrix3.fromToRotation f t = some R) ∧
      (∃ R, Matrix4.fromToRotation f t = some R) ∧
      (∃ q, Quaternion.fromToRotation f t = some q) ∧
      ((Vector3.cross uf Vector3.RIGHT).sqrMagnitude < epsilon →
        (Vector3.cross uf Vector3.UP).sqrMagnitude ≠ 0) ∧
      (-1 < Vector3.dot uf ut → Vector3.dot uf ut < 1 →
        (Vector3.cross f t).sqrMagnitude ≠ 0 ∧
        0 < (Quaternion.ofScalarVector
          (Real.sqrt (uf.sqrMagnitude * ut.sqrMagnitude) + Vector3.dot uf ut)
          (Vector3.cross uf ut)).magnitude) := by
  have hA := Vector3.sqrMagnitude_pos_of_ne f hf
  have hB := Vector3.sqrMagnitude_pos_of_ne t ht
  obtain ⟨q, uf, ut, hq, huf, hut, -, -⟩ := Quaternion.fromToRotation_spec f t hf ht
  have hU := Vector3.normalized_sqrMagnitude f uf huf
  have hT := Vector3.normalized_sqrMagnitude t ut hut
  obtain ⟨hax0, -⟩ := Vector3.antiparallel_axis uf hU
  refine ⟨uf, ut, huf, hut, ?_, ?_, ⟨q, hq⟩, ?_, ?_⟩
  · by_cases h1 : Vector3.dot uf ut ≥ 1
    · simp only [Matrix3.fromToRotation, hA, hB, huf, hut, h1, gt_iff_lt, and_self, if_true,
        Option.bind_eq_bind, Option.some_bind]
      exact ⟨_, rfl⟩
    · by_cases h2 : Vector3.dot uf ut ≤ -1
      · simp only [Matrix3.fromToRotation, hA, hB, huf, hut, h1, h2,
          Vector3.normalized_of_ne _ hax0, gt_iff_lt, and_self, if_true, if_false,
          Option.bind_eq_bind, Option.some_bind]
        exact ⟨_, rfl⟩
      · obtain ⟨-, -, θ, hθ, -, -⟩ := Vector3.angle_spec3 f t hf ht
        have hL := Vector3.cross_pos_of_general f t uf ut huf hut (not_le.mp h2) (not_le.mp h1)
        simp only [Matrix3.fromToRotation, hA, hB, huf, hut, h1, h2,
          Vector3.normalize_of_ne _ hL.ne', hθ, gt_iff_lt, and_self, if_true, if_false,
          Option.bind_eq_bind, Option.some_bind]
        exact ⟨_, rfl⟩
  · by_cases h1 : Vector3.dot uf ut ≥ 1
    · simp only [Matrix4.fromToRotation, hA, hB, huf, hut, h1, gt_iff_lt, and_self, if_true,
        Option.bind_eq_bind, Option.some_bind]
      exact ⟨_, rfl⟩
    · by_cases h2 : Vector3.dot uf ut ≤ -1
      · simp only [Matrix4.fromToRotation, hA, hB, huf, hut, h1, h2,
          Vector3.normalized_of_ne _ hax0, gt_iff_lt, and_self, if_true, if_false,
          Option.bind_eq_bind, Option.some_bind]
        exact ⟨_, rfl⟩
      · obtain ⟨-, -, θ, hθ, -, -⟩ := Vector3.angle_spec3 f t hf ht
        have hL := Vector3.cross_pos_of_general f t uf ut huf hut (not_le.mp h2) (not_le.mp h1)
        simp only [Matrix4.fromToRotation, hA, hB, huf, hut, h1, h2,
          Vector3.normalize_of_ne _ hL.ne', hθ, gt_iff_lt, and_self, if_true, if_false,
          Option.bind_eq_bind, Option.some_bind]
        exact ⟨_, rfl⟩
  · intro h
    rw [if_pos h] at hax0
    exact hax0
  · intro h1 h2
    refine ⟨(Vector3.cross_pos_of_general f t uf ut huf hut h1 h2).ne', ?_⟩
    rw [Quaternion.magnitude, Real.sqrt_pos, hU, hT, mul_one, Real.sqrt_one]
    simp only [Quaternion.ofScalarVector, Quaternion.sqrMagnitude]
    nlinarith [mul_self_nonneg (Vector3.cross uf ut).x, mul_self_nonneg (Vector3.cross uf ut).y,
      mul_self_nonneg (Vector3.cross uf ut).z, mul_pos (by linarith : 0 < 1 + Vector3.dot uf ut)
        (by linarith : 0 < 1 + Vector3.dot uf ut)]

/-- The three constructions return at `from = (1, 0, 0)`, `to = (0, 2, 0)`. -/
theorem C34_fromTo_total_witness :
    ∃ uf ut, (⟨1, 0, 0⟩ : Vector3 ℝ).normalized = some uf ∧
      (⟨0, 2, 0⟩ : Vector3 ℝ).normalized = some ut ∧
      (∃ R, Matrix3.fromToRotation ⟨1, 0, 0⟩ ⟨0, 2, 0⟩ = some R) ∧
      (∃ R, Matrix4.fromToRotation ⟨1, 0, 0⟩ ⟨0, 2, 0⟩ = some R) ∧
      (∃ q, Quaternion.fromToRotation ⟨1, 0, 0⟩ ⟨0, 2, 0⟩ = some q) :=
  match C34_fromTo_total ⟨1, 0, 0⟩ ⟨0, 2, 0⟩
    (by intro h; have := congrArg Vector3.x h; simp [Vector3.ZERO] at this)
    (by intro h; have := congrArg Vector3.y h; simp [Vector3.ZERO] at this) with
  | ⟨uf, ut, h1, h2, h3, h4, h5, _, _⟩ => ⟨uf, ut, h1, h2, h3, h4, h5⟩

/-- C32: `rotateTowards` evaluated at `this = (0, 1, 0, 0)`,
`target = (0, 3/5, -4/5, 0)`, `maxRadiansDelta = 1`.  Both are unit quaternions
and `0 < 1 < angle(this, target) = 2 acos(3/5)`; the step branch is taken and
returns `(0, cos(1/2), sin(1/2), 0)`, whose angle to the target is strictly
larger than the angle before the call. -/
theorem C32_rotateTowards_failing_input :
    (⟨0, 1, 0, 0⟩ : Quaternion ℝ).sqrMagnitude = 1 ∧
    (⟨0, 3 / 5, -4 / 5, 0⟩ : Quaternion ℝ).sqrMagnitude = 1 ∧
    ∃ a r a', Quaternion.angle ⟨0, 1, 0, 0⟩ ⟨0, 3 / 5, -4 / 5, 0⟩ = some a ∧
      (0 : ℝ) < 1 ∧ 1 < a ∧
      Quaternion.rotateTowards ⟨0, 1, 0, 0⟩ ⟨0, 3 / 5, -4 / 5, 0⟩ 1 = some r ∧
      r = ⟨0, Real.cos (0.5 * 1), Real.sin (0.5 * 1), 0⟩ ∧
      Quaternion.angle r ⟨0, 3 / 5, -4 / 5, 0⟩ = some a' ∧ a < a' := by
  have hq : (⟨0, 1, 0, 0⟩ : Quaternion ℝ).sqrMagnitude = 1 := by
    norm_num [Quaternion.sqrMagnitude]
  have ht : (⟨0, 3 / 5, -4 / 5, 0⟩ : Quaternion ℝ).sqrMagnitude = 1 := by
    norm_num [Quaternion.sqrMagnitude]
  -- the relative rotation and its angle
  have hr : (⟨0, 1, 0, 0⟩ : Quaternion ℝ).conjugate.mul ⟨0, 3 / 5, -4 / 5, 0⟩
      = ⟨3 / 5, 0, 0, 4 / 5⟩ := by
    simp only [Quaternion.conjugate, Quaternion.mul]
    ext <;> simp only [] <;> norm_num
  obtain ⟨hac, -, -⟩ := acos_of_mem (3 / 5) (by norm_num) (by norm_num)
  have habs : |(3 / 5 : ℝ)| ≤ 1 := by rw [abs_of_pos (by norm_num)]; norm_num
  have hhalf0 : (0 : ℝ) < 0.5 * 1 := by norm_num
  have hhalfpi : (0.5 * 1 : ℝ) < Real.pi := by linarith [Real.pi_gt_three]
  have hC1 : Real.cos (0.5 * 1) ≤ 1 := Real.cos_le_one _
  have hC2 : (7 / 8 : ℝ) ≤ Real.cos (0.5 * 1) := by
    have := Real.one_sub_sq_div_two_le_cos (x := (0.5 * 1 : ℝ))
    norm_num at this ⊢
    linarith
  have hS : 0 < Real.sin (0.5 * 1) := Real.sin_pos_of_pos_of_lt_pi hhalf0 hhalfpi
  have hangle : (1 : ℝ) < 2 * Real.arccos (3 / 5) := by
    have h1 : Real.arccos (Real.cos (0.5 * 1)) < Real.arccos (3 / 5) :=
      Real.strictAntiOn_arccos ⟨by norm_num, by norm_num⟩ ⟨by linarith, hC1⟩ (by linarith)
    rw [Real.arccos_cos hhalf0.le hhalfpi.le] at h1
    linarith
  -- the step: the axis is `(0, 0, 1)` and the new value is `delta * this`
  have hsq : Real.sqrt (16 / 25) = 4 / 5 := by
    rw [show (16 / 25 : ℝ) = (4 / 5) ^ 2 by norm_num]
    exact Real.sqrt_sq (by norm_num)
  have hax : Vector3.normalized (⟨0, 0, 4 / 5⟩ : Vector3 ℝ) = some ⟨0, 0, 1⟩ := by
    have h0 : (⟨0, 0, 4 / 5⟩ : Vector3 ℝ).sqrMagnitude = 16 / 25 := by
      norm_num [Vector3.sqrMagnitude, Vector3.dot]
    rw [Vector3.normalized_of_ne _ (by rw [h0]; norm_num), h0, hsq]
    simp only [Vector3.mulScalar]
    congr 1
    ext <;> simp only [] <;> norm_num
  obtain ⟨dl, hdl, -, hdle⟩ := Quaternion.angleAxis_of_unit 1 ⟨0, 0, 1⟩
    (by norm_num [Vector3.sqrMagnitude, Vector3.dot])
  have hstep : Quaternion.rotateTowards ⟨0, 1, 0, 0⟩ ⟨0, 3 / 5, -4 / 5, 0⟩ 1
      = some ⟨0, Real.cos (0.5 * 1), Real.sin (0.5 * 1), 0⟩ := by
    simp only [Quaternion.rotateTowards, hr, if_pos habs, hac, Option.bind_eq_bind,
      Option.some_bind, Option.pure_def]
    rw [if_pos (show 2 * Real.arccos (3 / 5) > 1 from hangle), hax]
    simp only [Option.some_bind, hdl, hdle, Quaternion.ofScalarVector, Vector3.mulScalar,
      Quaternion.mul, Option.some.injEq]
    ext <;> simp only [] <;> ring
  have hr1 : (⟨0, Real.cos (0.5 * 1), Real.sin (0.5 * 1), 0⟩ : Quaternion ℝ).sqrMagnitude = 1 := by
    simp only [Quaternion.sqrMagnitude]
    linear_combination Real.sin_sq_add_cos_sq (0.5 * 1)
  -- the relative rotation after the step
  have hw : ((⟨0, Real.cos (0.5 * 1), Real.sin (0.5 * 1), 0⟩ : Quaternion ℝ).conjugate.mul
      ⟨0, 3 / 5, -4 / 5, 0⟩).w = 3 / 5 * Real.cos (0.5 * 1) - 4 / 5 * Real.sin (0.5 * 1) := by
    simp only [Quaternion.conjugate, Quaternion.mul]
    ring
  obtain ⟨-, hw1⟩ := Quaternion.relative_w _ _ hr1 ht
  obtain ⟨hac', -, -⟩ := acos_of_mem _ (abs_le.mp hw1).1 (abs_le.mp hw1).2
  refine ⟨hq, ht, 2 * Real.arccos (3 / 5), _,
    2 * Real.arccos ((⟨0, Real.cos (0.5 * 1), Real.sin (0.5 * 1), 0⟩ :
      Quaternion ℝ).conjugate.mul ⟨0, 3 / 5, -4 / 5, 0⟩).w, ?_, one_pos, hangle, hstep, rfl, ?_, ?_⟩
  · simp only [Quaternion.angle, hr, if_pos habs, hac, Option.bind_eq_bind, Option.some_bind]
  · simp only [Quaternion.angle, if_pos hw1, hac', Option.bind_eq_bind, Option.some_bind]
  · have := Real.strictAntiOn_arccos ⟨(abs_le.mp hw1).1, (abs_le.mp hw1).2⟩
      ⟨by norm_num, by norm_num⟩ (show _ < (3 / 5 : ℝ) by rw [hw]; nlinarith)
    linarith

/-- C36: for every angle `t`, unit axis `n` and vector `v`,
`Quaternion::angleAxis(t, n)` succeeds and `Quaternion::angleAxis(t, n) * v`
equals `Matrix3::angleAxis(t, n) * v`: the half-angle quaternion and the
Rodrigues matrix are the same rotation with the same sense. -/
theorem C36_angleAxis_agree (t : ℝ) (n v : Vector3 ℝ) (hn : n.sqrMagnitude = 1) :
    ∃ q, Quaternion.angleAxis t n = some q ∧
      q.mulVec v = (Matrix3.angleAxis t n).mulVec v := by
  obtain ⟨q, hq, -, hqe⟩ := Quaternion.angleAxis_of_unit t n hn
  refine ⟨q, hq, ?_⟩
  rw [hqe]
  have hcs := Real.sin_sq_add_cos_sq (0.5 * t)
  simp only [Vector3.sqrMagnitude, Vector3.dot] at hn
  simp only [Matrix3.angleAxis, Matrix3.mulVec, Quaternion.mulVec, Quaternion.ofScalarVector,
    Vector3.add, Vector3.scalarMul, Vector3.mulScalar, Vector3.cross, sin_eq_half t,
    cos_eq_half t]
  generalize Real.sin (0.5 * t) = S at hcs ⊢
  generalize Real.cos (0.5 * t) = C at hcs ⊢
  refine Vector3.ext ?_ ?_ ?_
  · show _ = _
    linear_combination (n.x * (n.x * v.x + n.y * v.y + n.z * v.z) - v.x) * hcs
      - (2 * S ^ 2 * v.x) * hn
  · show _ = _
    linear_combination (n.y * (n.x * v.x + n.y * v.y + n.z * v.z) - v.y) * hcs
      - (2 * S ^ 2 * v.y) * hn
  · show _ = _
    linear_combination (n.z * (n.x * v.x + n.y * v.y + n.z * v.z) - v.z) * hcs
      - (2 * S ^ 2 * v.z) * hn

/-- The agreement of the two axis-angle forms at angle `1` about the `y` axis. -/
theorem C36_angleAxis_agree_witness :
    ∃ q, Quaternion.angleAxis 1 ⟨0, 1, 0⟩ = some q ∧
      q.mulVec ⟨1, 2, 3⟩ = (Matrix3.angleAxis 1 ⟨0, 1, 0⟩).mulVec ⟨1, 2, 3⟩ :=
  C36_angleAxis_agree 1 ⟨0, 1, 0⟩ ⟨1, 2, 3⟩ (by norm_num [Vector3.sqrMagnitude, Vector3.dot])

/-- A rational within `1/2` of an integer rounds to that integer. -/
theorem roundNearestEven_of_near (q : ℚ) (n : ℤ) (h : |q - n| < 1 / 2) :
    roundNearestEven q = n := by
  obtain ⟨h1, h2⟩ := abs_lt.mp h
  unfold roundNearestEven
  by_cases hq : (n : ℚ) ≤ q
  · have hf : ⌊q⌋ = n := Int.floor_eq_iff.mpr ⟨hq, by linarith⟩
    simp only [hf]
    rw [if_pos (by linarith)]
  · have hf : ⌊q⌋ = n - 1 := Int.floor_eq_iff.mpr ⟨by push_cast; linarith, by push_cast; linarith⟩
    simp only [hf]
    rw [if_neg (by push_cast; linarith), if_pos (by push_cast; linarith)]
    ring

/-- Evaluation of `round32`: if `2 ^ e ≤ |x| < 2 ^ (e + 1)` with `e ≥ -126` and
`x / 2 ^ (e - 23)` is within `1/2` of the integer `n`, then `x` rounds to
`n * 2 ^ (e - 23)`. -/
theorem round32_of_near (x : ℚ) (e n : ℤ) (he : -126 ≤ e) (hlo : (2 : ℚ) ^ e ≤ |x|)
    (hhi : |x| < (2 : ℚ) ^ (e + 1)) (hn : |x / 2 ^ (e - 23) - n| < 1 / 2) :
    round32 x = n * 2 ^ (e - 23) := by
  have hpos : (0 : ℚ) < |x| := lt_of_lt_of_le (by positivity) hlo
  have hx : x ≠ 0 := abs_pos.mp hpos
  have hlog : Int.log 2 |x| = e := by
    have h1 : e ≤ Int.log 2 |x| :=
      (Int.zpow_le_iff_le_log (by norm_num) hpos).mp (by exact_mod_cast hlo)
    have h2 : Int.log 2 |x| < e + 1 :=
      (Int.lt_zpow_iff_log_lt (by norm_num) hpos).mp (by exact_mod_cast hhi)
    omega
  simp only [round32, if_neg hx, hlog, max_eq_left he]
  rw [roundNearestEven_of_near _ n hn]

/-- C19, counterexample in binary32 arithmetic: the matrix
`[1 0 0 0; 0 4097 0 0; 0 0 5 40985; 0 0 1 8197]` has representable entries and
exact determinant `0`; `Matrix4::determinant` returns `-16`, while the `det`
computed inside `Matrix4::inverse` is `0`, so `inverse()` fails although
`determinant()` is not zero. -/
theorem C19_counterexample :
    Matrix4.determinant32 ⟨⟨1⟩, ⟨0⟩, ⟨0⟩, ⟨0⟩, ⟨0⟩, ⟨4097⟩, ⟨0⟩, ⟨0⟩, ⟨0⟩, ⟨0⟩, ⟨5⟩, ⟨40985⟩, ⟨0⟩, ⟨0⟩, ⟨1⟩, ⟨8197⟩⟩ = ⟨-16⟩ ∧
    Matrix4.inverse32 ⟨⟨1⟩, ⟨0⟩, ⟨0⟩, ⟨0⟩, ⟨0⟩, ⟨4097⟩, ⟨0⟩, ⟨0⟩, ⟨0⟩, ⟨0⟩, ⟨5⟩, ⟨40985⟩, ⟨0⟩, ⟨0⟩, ⟨1⟩, ⟨8197⟩⟩ = none ∧
    round32 4097 = 4097 ∧ round32 5 = 5 ∧ round32 40985 = 40985 ∧ round32 8197 = 8197 ∧
    round32 1 = 1 ∧
    Matrix4.determinant (⟨1, 0, 0, 0, 0, 4097, 0, 0, 0, 0, 5, 40985, 0, 0, 1, 8197⟩ : Matrix4 ℚ) = 0 := by
  have hmul : ∀ a b : Binary32, a * b = ⟨round32 (a.val * b.val)⟩ := fun _ _ => rfl
  have hadd : ∀ a b : Binary32, a + b = ⟨round32 (a.val + b.val)⟩ := fun _ _ => rfl
  have hsub : ∀ a b : Binary32, a - b = ⟨round32 (a.val - b.val)⟩ := fun _ _ => rfl
  have hneg : ∀ a : Binary32, -a = ⟨-a.val⟩ := fun _ => rfl
  have hzero : (0 : Binary32) = ⟨0⟩ := rfl
  have z0 : round32 0 = 0 := if_pos rfl
  have r0 : round32 (-167915552) = -167915552 := by
    have h := round32_of_near (-167915552) 27 (-10494722) (by norm_num) (by norm_num) (by norm_num)
      (by rw [abs_lt]; constructor <;> norm_num)
    norm_num at h
    exact h
  have r1 : round32 (-167915545) = -167915552 := by
    have h := round32_of_near (-167915545) 27 (-10494722) (by norm_num) (by norm_num) (by norm_num)
      (by rw [abs_lt]; constructor <;> norm_num)
    norm_num at h
    exact h
  have r2 : round32 (-33583108) = -33583108 := by
    have h := round32_of_near (-33583108) 25 (-8395777) (by norm_num) (by norm_num) (by norm_num)
      (by rw [abs_lt]; constructor <;> norm_num)
    norm_num at h
    exact h
  have r3 : round32 (-4097) = -4097 := by
    have h := round32_of_near (-4097) 12 (-8390656) (by norm_num) (by norm_num) (by norm_num)
      (by rw [abs_lt]; constructor <;> norm_num)
    norm_num at h
    exact h
  have r4 : round32 (-16) = -16 := by
    have h := round32_of_near (-16) 4 (-8388608) (by norm_num) (by norm_num) (by norm_num)
      (by rw [abs_lt]; constructor <;> norm_num)
    norm_num at h
    exact h
  have r5 : round32 5 = 5 := by
    have h := round32_of_near 5 2 10485760 (by norm_num) (by norm_num) (by norm_num)
      (by rw [abs_lt]; constructor <;> norm_num)
    norm_num at h
    exact h
  have r6 : round32 4097 = 4097 := by
    have h := round32_of_near 4097 12 8390656 (by norm_num) (by norm_num) (by norm_num)
      (by rw [abs_lt]; constructor <;> norm_num)
    norm_num at h
    exact h
  have r7 : round32 20485 = 20485 := by
    have h := round32_of_near 20485 14 10488320 (by norm_num) (by norm_num) (by norm_num)
      (by rw [abs_lt]; constructor <;> norm_num)
    norm_num at h
    exact h
  have r8 : round32 40985 = 40985 := by
    have h := round32_of_near 40985 15 10492160 (by norm_num) (by norm_num) (by norm_num)
      (by rw [abs_lt]; constructor <;> norm_num)
    norm_num at h
    exact h
  have r9 : round32 33583108 = 33583108 := by
    have h := round32_of_near 33583108 25 8395777 (by norm_num) (by norm_num) (by norm_num)
      (by rw [abs_lt]; constructor <;> norm_num)
    norm_num at h
    exact h
  have r10 : round32 33583109 = 33583108 := by
    have h := round32_of_near 33583109 25 8395777 (by norm_num) (by norm_num) (by norm_num)
      (by rw [abs_lt]; constructor <;> norm_num)
    norm_num at h
    exact h
  have r11 : round32 167915540 = 167915536 := by
    have h := round32_of_near 167915540 27 10494721 (by norm_num) (by norm_num) (by norm_num)
      (by rw [abs_lt]; constructor <;> norm_num)
    norm_num at h
    exact h
  have r12 : round32 167915545 = 167915552 := by
    have h := round32_of_near 167915545 27 10494722 (by norm_num) (by norm_num) (by norm_num)
      (by rw [abs_lt]; constructor <;> norm_num)
    norm_num at h
    exact h
  have r13 : round32 167915552 = 167915552 := by
    have h := round32_of_near 167915552 27 10494722 (by norm_num) (by norm_num) (by norm_num)
      (by rw [abs_lt]; constructor <;> norm_num)
    norm_num at h
    exact h
  have r8197 : round32 8197 = 8197 := by
    have h := round32_of_near 8197 13 8393728 (by norm_num) (by norm_num) (by norm_num)
      (by rw [abs_lt]; constructor <;> norm_num)
    norm_num at h
    exact h
  have rOne : round32 1 = 1 := by
    have h := round32_of_near 1 0 8388608 (by norm_num) (by norm_num) (by norm_num)
      (by rw [abs_lt]; constructor <;> norm_num)
    norm_num at h
    exact h
  refine ⟨?_, ?_, r6, r5, r8, r8197, rOne, by norm_num [Matrix4.determinant]⟩
  · simp only [Matrix4.determinant32, hmul, hadd, hsub, hneg]
    norm_num [z0, r0, r1, r2, r3, r4, r5, r6, r7, r8, r9, r10, r11, r12, r13]
  · simp only [Matrix4.inverse32]
    rw [if_neg]
    simp only [hmul, hadd, hsub, hneg, hzero, not_not, Binary32.mk.injEq]
    norm_num [z0, r0, r1, r2, r3, r4, r5, r6, r7, r8, r9, r10, r11, r12, r13]

end Theorems

end M3D
